import Mathlib

/-!
# Federation router (`lib/controller/federation/conn.go`)

A shallow embedding of the federation router: backend selection, the
local-then-remotes fan-out, manifest rewriting, the portable data hash, the
token salter, the user mirror and the login redirect.

Conventions of the embedding.

* A Go `string` is a sequence of bytes.  It is represented by a Lean `String`
  (or its `List Char`), one `Char` per byte, so that `len(s)` is `s.length`
  and `s[:n]` is `s.take n`.  On ASCII text, which is what identifiers,
  tokens and manifests are made of, both readings coincide.
* A Go `error` value is `Option GoError`; `nil` is `none`.
* A Go `map[string]T` is an association list `List (String × T)`; `m[k]` is
  `List.lookup k m`.
* Collaborators that live outside this file of the repository (the backends,
  `auth.SaltToken`, `crypto/md5`) are parameters of the definitions that call
  them.
* Functions of the Go library that the router computes with (`regexp`,
  `strings`, `net/url`) are written out as Lean functions, on the inputs the
  router hands them.
-/

namespace Federation

/-! ## Errors -/

/-- Go error values met by the router.  `plain` is an error without an
`HTTPStatus` method (`errors.New`, `fmt.Errorf`); `http` is any error that has
one; `notFoundError` is the router's own type; `ErrSalted` and
`ErrObsoleteToken` are the sentinel values of package `auth`, compared by
identity. -/
inductive GoError where
  | plain (msg : String)
  | http (code : Int) (msg : String)
  | notFoundError
  | ErrSalted
  | ErrObsoleteToken
  deriving DecidableEq, Repr

/-- The method set `interface{ HTTPStatus() int }`: `some code` when the error
value has the method. -/
def GoError.HTTPStatus : GoError → Option Int
  | .plain _ => none
  | .http code _ => some code
  | .notFoundError => some 404
  | .ErrSalted => none
  | .ErrObsoleteToken => none

/-- The method `Error() string`. -/
def GoError.Error : GoError → String
  | .plain msg => msg
  | .http _ msg => msg
  | .notFoundError => "not found"
  | .ErrSalted => "token already salted"
  | .ErrObsoleteToken => "obsolete token format"

/-- `errStatus`: the status of an error that has one, otherwise 500 (also for
`nil`, which has no methods). -/
def errStatus (err : Option GoError) : Int :=
  match err with
  | some e =>
    match e.HTTPStatus with
    | some code => code
    | none => 500
  | none => 500

/-- Modelled from the spec: `httpErrorf` is defined in a file of the package
that is not part of the sources at hand; the spec has it build an error that
carries the given HTTP status and the formatted message. -/
def httpErrorf (code : Int) (msg : String) : GoError := .http code msg

/-- `fmt` rendering of a `[]error` under `%v`: the messages, separated by
blanks, in square brackets. -/
def fmtErrors (errs : List GoError) : String :=
  "[" ++ " ".intercalate (errs.map GoError.Error) ++ "]"

/-! ## Configuration, backends and the router value -/

/-- An entry of `cluster.RemoteClusters`. -/
structure RemoteCluster where
  Scheme : String
  Host : String
  Insecure : Bool
  Proxy : Bool
  deriving DecidableEq, Repr

/-- The part of `arvados.Cluster` read by the router. -/
structure Cluster where
  ClusterID : String
  SystemRootToken : String
  LoginCluster : String
  RemoteClusters : List (String × RemoteCluster)
  deriving Repr

/-- The two kinds of backend built by `New`: the local database connection
(`localdb.NewConn`) and an RPC connection to a peer (`rpc.NewConn`), which
remembers the peer id, its URL and the TLS flag; its token provider is the
salter bound to the same id. -/
inductive backend where
  | localdb
  | rpc (id : String) (scheme : String) (host : String) (insecure : Bool)
  deriving DecidableEq, Repr

/-- The router value `Conn`.  (`local` is a reserved word, hence
`localBackend`.) -/
structure Conn where
  cluster : Cluster
  localBackend : backend
  remotes : List (String × backend)
  deriving Repr

/-- `New`: one RPC backend per configured remote with `Proxy` set. -/
def New (cluster : Cluster) : Conn :=
  { cluster := cluster
    localBackend := backend.localdb
    remotes := cluster.RemoteClusters.filterMap fun p =>
      if p.2.Proxy then some (p.1, backend.rpc p.1 p.2.Scheme p.2.Host p.2.Insecure) else none }

/-- Go slice expression `s[:n]` on a string of at least `n` bytes. -/
def slicePrefix (s : String) (n : Nat) : String := ⟨s.data.take n⟩

/-- The tail of `chooseBackend`, once the cluster id is isolated. -/
def Conn.backendFor (conn : Conn) (id : String) : backend :=
  if id = conn.cluster.ClusterID then conn.localBackend
  else match conn.remotes.lookup id with
    | some be => be
    | none => conn.localBackend

/-- `chooseBackend`: the backend for a cluster id or an object UUID. -/
def Conn.chooseBackend (conn : Conn) (id : String) : backend :=
  if id.length = 27 then conn.backendFor (slicePrefix id 5)
  else if id.length ≠ 5 then conn.localBackend
  else conn.backendFor id

/-- The cluster-id form and UUID form of the data model, as the spec words
it: `^[a-z0-9]{5}-[a-z0-9]{5}-[a-z0-9]{15}$`. -/
def isLowerAlnum (c : Char) : Bool :=
  ('a' ≤ c && c ≤ 'z') || ('0' ≤ c && c ≤ '9')

/-- A 27-character string of the shape `xxxxx-xxxxx-xxxxxxxxxxxxxxx`. -/
def isWellFormedUUID (id : String) : Bool :=
  let cs := id.data
  cs.length == 27 &&
    (cs.take 5).all isLowerAlnum && cs.get? 5 == some '-' &&
    ((cs.drop 6).take 5).all isLowerAlnum && cs.get? 11 == some '-' &&
    (cs.drop 12).all isLowerAlnum

/-- Reference for `chooseBackend`, following the spec's wording over the
cluster configuration. -/
def chooseBackendSpec (cluster : Cluster) (id : String) : backend :=
  let c? : Option String :=
    if id.length = 27 then some (String.mk (id.data.take 5))
    else if id.length = 5 then some id
    else none
  match c? with
  | none => backend.localdb
  | some c =>
    if c = cluster.ClusterID then backend.localdb
    else match cluster.RemoteClusters.find? (fun p => p.1 == c && p.2.Proxy) with
      | some p => backend.rpc p.1 p.2.Scheme p.2.Host p.2.Insecure
      | none => backend.localdb

/-! ## Local-then-remotes fan-out -/

/-- The request context: the credentials attached to it, if any
(`auth.FromContext`). -/
structure Context where
  creds : Option (List String)
  deriving DecidableEq, Repr

/-- The collector loop of `tryLocalThenRemotes` over the results read from
`errchan`, in the order they arrive. -/
def collectRemotes : Bool → List GoError → List (Option GoError) → Option GoError
  | all404, errs, [] =>
    if all404 then some GoError.notFoundError
    else some (httpErrorf 502 ("errors: " ++ fmtErrors errs))
  | _, _, none :: _ => none
  | all404, errs, some err :: rest =>
    collectRemotes (all404 && errStatus (some err) == 404) (errs ++ [err]) rest

/-- What a run of `tryLocalThenRemotes` yields: the returned error and the
invocations of `fn` it made (remote id and backend; `""` for the local one). -/
structure FanOut where
  err : Option GoError
  calls : List (String × backend)
  deriving DecidableEq, Repr

/-- `tryLocalThenRemotes`.  `arrival` is the order in which the goroutines
deliver to `errchan`: a permutation of `conn.remotes`, since each goroutine
sends exactly one result.  The cancellable sub-context handed to the remote
calls carries the same values as `ctx`; it is cancelled only when the function
returns, so no result that is read depends on the cancellation. -/
def Conn.tryLocalThenRemotes (conn : Conn) (ctx : Context)
    (fn : Context → String → backend → Option GoError)
    (arrival : List (String × backend)) : FanOut :=
  let err := fn ctx "" conn.localBackend
  if err = none ∨ errStatus err ≠ 404 then
    { err := err, calls := [("", conn.localBackend)] }
  else
    { err := collectRemotes true [] (arrival.map fun p => fn ctx p.1 p.2)
      calls := ("", conn.localBackend) :: conn.remotes }

/-! ## Manifest utilities -/

/-- `[0-9a-f]`. -/
def isLowerHex (c : Char) : Bool :=
  ('0' ≤ c && c ≤ '9') || ('a' ≤ c && c ≤ 'f')

/-- `\d`: an ASCII decimal digit. -/
def isDecimal (c : Char) : Bool := '0' ≤ c && c ≤ '9'

/-- `[^ ]`. -/
def notSpace (c : Char) : Bool := c != ' '

/-- `[0-9a-f]{n}` at the head of `s`: what follows the `n` digits. -/
def hexDigits : Nat → List Char → Option (List Char)
  | 0, s => some s
  | _ + 1, [] => none
  | n + 1, c :: cs => if isLowerHex c then hexDigits n cs else none

/-- Length of the match of ` [0-9a-f]{32}\+[^ ]*` that starts at the head of
`s`, if there is one. -/
def matchBlockToken (s : List Char) : Option Nat :=
  match s with
  | ' ' :: cs =>
    match hexDigits 32 cs with
    | some ('+' :: rest) => some (34 + (rest.takeWhile notSpace).length)
    | _ => none
  | _ => none

/-- Length of the match of ` ?[^ ]*` that starts at the head of `s`; the
pattern matches everywhere, possibly the empty string. -/
def matchToken (s : List Char) : Option Nat :=
  match s with
  | ' ' :: cs => some (1 + (cs.takeWhile notSpace).length)
  | _ => some (s.takeWhile notSpace).length

/-- `blkRe.Find(tok)` for `^ [0-9a-f]{32}\+\d+`: the matched prefix of
`tok`, or `none` (Go's nil) when `tok` does not start with a sized block
locator. -/
def findBlk (tok : List Char) : Option (List Char) :=
  match tok with
  | ' ' :: cs =>
    match hexDigits 32 cs with
    | some ('+' :: rest) =>
      match rest.takeWhile isDecimal with
      | [] => none
      | d :: ds => some (tok.take (34 + (d :: ds).length))
    | _ => none
  | _ => none

/-- A piece of the subject of `ReplaceAll`: a byte outside every match, copied
as is, or a match, handed to the replacement function. -/
inductive Segment where
  | gap (c : Char)
  | hit (tok : List Char)
  deriving DecidableEq, Repr

/-- The matches found by `(*Regexp).ReplaceAll...Func` and the bytes between
them, left to right.  `matchAt s` is the length of the match starting at the
head of `s`, if any; the search tries every position in turn, resumes after a
match, and does not report an empty match that directly follows a match.
`skip` counts the bytes of the current match still to pass over. -/
def replaceAllSegments (matchAt : List Char → Option Nat) :
    Nat → Bool → List Char → List Segment
  | _, afterMatch, [] =>
    match matchAt [] with
    | some _ => if afterMatch then [] else [Segment.hit []]
    | none => []
  | skip + 1, afterMatch, _ :: cs => replaceAllSegments matchAt skip afterMatch cs
  | 0, afterMatch, c :: cs =>
    match matchAt (c :: cs) with
    | some 0 =>
      (if afterMatch then [] else [Segment.hit []]) ++
        Segment.gap c :: replaceAllSegments matchAt 0 false cs
    | some (n + 1) =>
      Segment.hit ((c :: cs).take (n + 1)) :: replaceAllSegments matchAt n true cs
    | none => Segment.gap c :: replaceAllSegments matchAt 0 false cs

/-- What `ReplaceAll` puts in the result for a segment. -/
def Segment.replace (repl : List Char → List Char) : Segment → List Char
  | Segment.gap c => [c]
  | Segment.hit tok => repl tok

/-- The match of a segment, if it is one. -/
def Segment.matched : Segment → Option (List Char)
  | Segment.gap _ => none
  | Segment.hit tok => some tok

/-- `ReplaceAllStringFunc`: the subject with every match replaced by `repl`
of the match. -/
def ReplaceAllStringFunc (matchAt : List Char → Option Nat) (src : List Char)
    (repl : List Char → List Char) : List Char :=
  (replaceAllSegments matchAt 0 false src).flatMap (Segment.replace repl)

/-- The arguments of the successive calls that `ReplaceAllFunc` makes to its
callback. -/
def replaceAllCalls (matchAt : List Char → Option Nat) (src : List Char) :
    List (List Char) :=
  (replaceAllSegments matchAt 0 false src).filterMap Segment.matched

/-- `strings.Replace(s, old, new, -1)` for a non-empty `old`: every
occurrence of `old`, found left to right without overlap, becomes `new`.
`skip` counts the bytes of the current occurrence still to pass over. -/
def stringsReplace (old new : List Char) : Nat → List Char → List Char
  | _, [] => []
  | skip + 1, _ :: cs => stringsReplace old new skip cs
  | 0, c :: cs =>
    if old.isPrefixOf (c :: cs) then new ++ stringsReplace old new (old.length - 1) cs
    else c :: stringsReplace old new 0 cs

/-- The replacement function of `rewriteManifest`:
`strings.Replace(tok, "+A", "+R"+remoteID+"-", -1)`. -/
def rewriteToken (remoteID tok : List Char) : List Char :=
  stringsReplace ['+', 'A'] (['+', 'R'] ++ remoteID ++ ['-']) 0 tok

/-- `rewriteManifest` on byte lists. -/
def rewriteManifestBytes (mt remoteID : List Char) : List Char :=
  ReplaceAllStringFunc matchBlockToken mt (rewriteToken remoteID)

/-- `rewriteManifest`. -/
def rewriteManifest (mt remoteID : String) : String :=
  ⟨rewriteManifestBytes mt.data remoteID.data⟩

/-- What the callback of `portableDataHash` writes to the hash for one token:
the `hash+size` prefix of a sized block locator, any other token whole. -/
def pdhWrite (tok : List Char) : List Char :=
  match findBlk tok with
  | some m => m
  | none => tok

/-- The byte slices written to the hash, one per call of the callback. -/
def pdhWrites (mt : List Char) : List (List Char) :=
  (replaceAllCalls matchToken mt).map pdhWrite

/-- `%x` of a byte slice: two lower-case hexadecimal digits per byte. -/
def fmtHex (bs : List Nat) : List Char :=
  bs.flatMap fun b => [Nat.digitChar (b / 16 % 16), Nat.digitChar (b % 16)]

/-- The canonical form of a manifest: everything `portableDataHash` writes
to the hash, in order. -/
def pdhInput (mt : List Char) : List Char := (pdhWrites mt).flatten

/-- `portableDataHash`.  `md5` is `crypto/md5`: the digest of everything
written to the hash. -/
def portableDataHash (md5 : List Char → List Nat) (mt : String) : String :=
  let writes := pdhWrites mt.data
  let size := (writes.map List.length).sum
  ⟨fmtHex (md5 writes.flatten) ++ '+' :: (Nat.repr size).data⟩

/-- The block tokens of a manifest as `rewriteManifest` sees them: each match
of its pattern, a blank, 32 hexadecimal digits, `+` and everything up to the
next blank. -/
def blockTokens (mt : String) : List (List Char) :=
  replaceAllCalls matchBlockToken mt.data

/-- A token that starts with a sized block locator: `blkRe` matches it. -/
def isSized (tok : List Char) : Bool := (findBlk tok).isSome

/-! ## CollectionGet -/

/-- Modelled from the spec: `arvados.Collection` is declared outside the
sources at hand.  The model keeps the manifest text, the one field the router
reads and rewrites, and two identifying fields that it passes on. -/
structure Collection where
  UUID : String
  PortableDataHash : String
  ManifestText : String
  deriving DecidableEq, Repr

/-- `arvados.GetOptions`. -/
structure GetOptions where
  UUID : String
  Select : List String
  IncludeTrash : Bool
  deriving DecidableEq, Repr

/-- `strings.HasPrefix`. -/
def HasPrefix (s pre : String) : Bool := pre.data.isPrefixOf s.data

/-- The callback that `CollectionGet` hands to `tryLocalThenRemotes` for a
content hash.  `get` is the backends' `CollectionGet`.  The result is the
returned error together with the collection the call offers to the one-slot
channel `first`, if it gets that far; `%q` is rendered by `String.quote`, and
the warning written to the log is left out. -/
def collectionGetCallback (md5 : List Char → List Nat)
    (get : backend → Context → GetOptions → Collection × Option GoError)
    (options : GetOptions) (ctx : Context) (remoteID : String) (be : backend) :
    Option GoError × Option Collection :=
  match get be ctx options with
  | (_, some err) => (some err, none)
  | (c, none) =>
    let pdh := portableDataHash md5 c.ManifestText
    if pdh != options.UUID && !HasPrefix options.UUID (pdh ++ "+") then
      (some (httpErrorf 502 ("bad portable data hash " ++ pdh.quote ++
        " received from remote " ++ remoteID.quote ++
        " (expected " ++ options.UUID.quote ++ ")")), none)
    else if remoteID ≠ "" then
      (none, some { c with ManifestText := rewriteManifest c.ManifestText remoteID })
    else
      (none, some c)

/-- What a call of `CollectionGet` returns, `(c, err)`, with the backends
whose `CollectionGet` it invoked. -/
structure CollectionGetRun where
  c : Collection
  err : Option GoError
  calls : List backend
  deriving DecidableEq, Repr

/-- `CollectionGet`.  For a content hash, `arrival` is the order in which the
remote results reach `errchan` and `publish` the order in which the remote
callbacks reach the send on `first`; the value received from `first` is the
first one offered, the local call running before every remote one.  (A
receive from a channel nobody sends on would block; it is rendered by the
empty collection and cannot happen after a nil error.)  Every invocation of
the callback calls its backend once. -/
def Conn.CollectionGet (conn : Conn) (md5 : List Char → List Nat)
    (get : backend → Context → GetOptions → Collection × Option GoError)
    (ctx : Context) (options : GetOptions)
    (arrival publish : List (String × backend)) : CollectionGetRun :=
  if options.UUID.length = 27 then
    match get (conn.chooseBackend options.UUID) ctx options with
    | (c, err) =>
      if err = none ∧ slicePrefix options.UUID 5 ≠ conn.cluster.ClusterID then
        { c := { c with
                 ManifestText := rewriteManifest c.ManifestText (slicePrefix options.UUID 5) }
          err := err
          calls := [conn.chooseBackend options.UUID] }
      else { c := c, err := err, calls := [conn.chooseBackend options.UUID] }
  else
    let fn := fun ctx remoteID be => (collectionGetCallback md5 get options ctx remoteID be).1
    let run := conn.tryLocalThenRemotes ctx fn arrival
    match run.err with
    | some err => { c := ⟨"", "", ""⟩, err := some err, calls := run.calls.map Prod.snd }
    | none =>
      let offered := (("", conn.localBackend) :: publish).filterMap fun p =>
        (collectionGetCallback md5 get options ctx p.1 p.2).2
      { c := offered.head?.getD ⟨"", "", ""⟩, err := none, calls := run.calls.map Prod.snd }

/-- The non-blocking send on the channel `first`, whose buffer holds one value:
`select { case first <- c: ...; default: ... }` stores the value when the
buffer is empty and leaves the buffer as it is when it is full. -/
def trySend (first : Option Collection) (c : Collection) : Option Collection :=
  match first with
  | none => some c
  | some held => some held

/-- The effect on the buffer of `first` of one run of the callback of
`CollectionGet`: a callback that gets as far as the send offers its
collection, any other one leaves the buffer alone. -/
def publishStep (md5 : List Char → List Nat)
    (get : backend → Context → GetOptions → Collection × Option GoError)
    (options : GetOptions) (ctx : Context) (first : Option Collection)
    (p : String × backend) : Option Collection :=
  match (collectionGetCallback md5 get options ctx p.1 p.2).2 with
  | some c => trySend first c
  | none => first

/-- The buffer of `first` once the callbacks for `callers` have reached their
send, or failed, in that order. -/
def firstAfter (md5 : List Char → List Nat)
    (get : backend → Context → GetOptions → Collection × Option GoError)
    (options : GetOptions) (ctx : Context) (callers : List (String × backend)) :
    Option Collection :=
  callers.foldl (publishStep md5 get options ctx) none

/-! ## Token salter -/

/-- `arvados.APIClientAuthorization`. -/
structure APIClientAuthorization where
  UUID : String
  APIToken : String
  ExpiresAt : String
  Scopes : List String
  deriving DecidableEq, Repr

/-- `TokenV2`. -/
def APIClientAuthorization.TokenV2 (aca : APIClientAuthorization) : String :=
  "v2/" ++ aca.UUID ++ "/" ++ aca.APIToken

/-- `auth.NewContext(ctx, &auth.Credentials{Tokens: tokens})`: the context
with its credentials replaced. -/
def NewContext (_ctx : Context) (tokens : List String) : Context :=
  { creds := some tokens }

/-- The outcome of the salter for one token: the token to emit or the error
to give up with, and the contexts handed to the local backend's
`APIClientAuthorizationCurrent` on the way. -/
structure TokenStep where
  out : Except GoError String
  lookups : List Context

/-- The `case auth.ErrObsoleteToken` branch of the salter.  `SaltToken` is
`auth.SaltToken` and `current` the local backend's
`APIClientAuthorizationCurrent`. -/
def resolveObsolete (SaltToken : String → String → String × Option GoError)
    (current : Context → GetOptions → APIClientAuthorization × Option GoError)
    (remoteID : String) (ctx : Context) (token : String) : TokenStep :=
  let ctx' := NewContext ctx [token]
  match current ctx' ⟨"", [], false⟩ with
  | (aca, err) =>
    if errStatus err = 401 then
      { out := .ok token, lookups := [ctx'] }
    else match err with
      | some e => { out := .error e, lookups := [ctx'] }
      | none =>
        match SaltToken aca.TokenV2 remoteID with
        | (salted, none) => { out := .ok salted, lookups := [ctx'] }
        | (_, some e) => { out := .error e, lookups := [ctx'] }

/-- The body of the salter's loop for one incoming token. -/
def saltOne (SaltToken : String → String → String × Option GoError)
    (current : Context → GetOptions → APIClientAuthorization × Option GoError)
    (remoteID : String) (ctx : Context) (token : String) : TokenStep :=
  match SaltToken token remoteID with
  | (salted, none) => { out := .ok salted, lookups := [] }
  | (_, some GoError.ErrSalted) => { out := .ok token, lookups := [] }
  | (_, some GoError.ErrObsoleteToken) => resolveObsolete SaltToken current remoteID ctx token
  | (_, some err) => { out := .error err, lookups := [] }

/-- What the token provider returns, `(tokens, err)`, with the contexts of the
lookups it made on the local backend. -/
structure Salted where
  tokens : List String
  err : Option GoError
  lookups : List Context

/-- The salter's loop over `incoming.Tokens`; `tokens` is the slice built so
far. -/
def saltLoop (SaltToken : String → String → String × Option GoError)
    (current : Context → GetOptions → APIClientAuthorization × Option GoError)
    (remoteID : String) (ctx : Context) :
    List String → List String → List Context → Salted
  | [], tokens, lookups => { tokens := tokens, err := none, lookups := lookups }
  | token :: rest, tokens, lookups =>
    match saltOne SaltToken current remoteID ctx token with
    | { out := .ok t, lookups := l } =>
      saltLoop SaltToken current remoteID ctx rest (tokens ++ [t]) (lookups ++ l)
    | { out := .error e, lookups := l } =>
      { tokens := [], err := some e, lookups := lookups ++ l }

/-- `saltedTokenProvider(local, remoteID)` applied to a request context. -/
def saltedTokenProvider (SaltToken : String → String → String × Option GoError)
    (current : Context → GetOptions → APIClientAuthorization × Option GoError)
    (remoteID : String) (ctx : Context) : Salted :=
  match ctx.creds with
  | none => { tokens := [], err := some (GoError.plain "no token provided"), lookups := [] }
  | some incoming => saltLoop SaltToken current remoteID ctx incoming [] []

/-! ## User mirror -/

/-- A JSON value as found in a decoded object; `time t` stands for the text of
the instant `t`, and an object is kept as its member texts. -/
inductive JSONValue where
  | string (s : String)
  | bool (b : Bool)
  | time (t : Nat)
  | object (members : List (String × String))
  deriving DecidableEq, Repr

/-- Modelled from the spec: `arvados.User` is declared outside the sources at
hand; its fields are those the mirror key set enumerates (the spec has that
set cover every field of the user record).  An instant is a number of seconds
after the zero instant (January 1 of year 1), read in UTC; 0 is the zero
instant, and the model has no instant before it. -/
structure User where
  UUID : String
  IsActive : Bool
  IsAdmin : Bool
  Username : String
  Email : String
  FullName : String
  FirstName : String
  LastName : String
  IdentityURL : String
  IsInvited : Bool
  OwnerUUID : String
  CreatedAt : Nat
  ModifiedAt : Nat
  ModifiedByUserUUID : String
  ModifiedByClientUUID : String
  Prefs : List (String × String)
  deriving DecidableEq, Repr

/-- The members of the JSON object that `json.Marshal` writes for a user
record when it succeeds, which are also the entries of the
`map[string]interface{}` that `json.Unmarshal` makes of it.  Whether
`json.Marshal` succeeds is decided by `jsonMarshal`. -/
def User.allFields (user : User) : List (String × JSONValue) :=
  [("uuid", .string user.UUID),
   ("is_active", .bool user.IsActive),
   ("is_admin", .bool user.IsAdmin),
   ("username", .string user.Username),
   ("email", .string user.Email),
   ("full_name", .string user.FullName),
   ("first_name", .string user.FirstName),
   ("last_name", .string user.LastName),
   ("identity_url", .string user.IdentityURL),
   ("is_invited", .bool user.IsInvited),
   ("owner_uuid", .string user.OwnerUUID),
   ("created_at", .time user.CreatedAt),
   ("modified_at", .time user.ModifiedAt),
   ("modified_by_user_uuid", .string user.ModifiedByUserUUID),
   ("modified_by_client_uuid", .string user.ModifiedByClientUUID),
   ("prefs", .object user.Prefs)]

/-- Modelled from the spec: `arvados.UserList` is declared outside the sources
at hand; the router reads its items and passes the rest on. -/
structure UserList where
  Items : List User
  ItemsAvailable : Int
  Offset : Int
  Limit : Int
  deriving DecidableEq, Repr

/-- `arvados.ListOptions`; filters and conditions are kept as texts. -/
structure ListOptions where
  ClusterID : String
  Select : List String
  Filters : List String
  Where : List (String × String)
  Limit : Int
  Offset : Int
  Order : List String
  Distinct : Bool
  Count : String
  IncludeTrash : Bool
  IncludeOldVersions : Bool
  deriving DecidableEq, Repr

/-- `arvados.UserBatchUpdateOptions`. -/
structure UserBatchUpdateOptions where
  Updates : List (String × List (String × JSONValue))
  deriving DecidableEq, Repr

/-- `userAttrsCachedFromLoginCluster`. -/
def userAttrsCachedFromLoginCluster : List (String × Bool) :=
  [("created_at", true),
   ("email", true),
   ("first_name", true),
   ("is_active", true),
   ("is_admin", true),
   ("last_name", true),
   ("modified_at", true),
   ("modified_by_client_uuid", true),
   ("modified_by_user_uuid", true),
   ("prefs", true),
   ("username", true),
   ("full_name", false),
   ("identity_url", false),
   ("is_invited", false),
   ("owner_uuid", false),
   ("uuid", false)]

/-- The expression `userAttrsCachedFromLoginCluster[k]`: false for a key that
is not in the map. -/
def cachedFromLoginCluster (k : String) : Bool :=
  (userAttrsCachedFromLoginCluster.lookup k).getD false

/-- The map assignment `m[k] = v`. -/
def mapSet {α : Type} : List (String × α) → String → α → List (String × α)
  | [], k, v => [(k, v)]
  | (k', v') :: rest, k, v =>
    if k' = k then (k, v) :: rest else (k', v') :: mapSet rest k v

/-- One round of the loop over `options.Select`: the key is copied when the
record has it and it is marked as cached. -/
def selectStep (allFields updates : List (String × JSONValue)) (k : String) :
    List (String × JSONValue) :=
  match allFields.lookup k with
  | some v => if cachedFromLoginCluster k then mapSet updates k v else updates
  | none => updates

/-- The projection of one user: the map `updates` built from `allFields` and
`options.Select`. -/
def mirrorUpdates (select : List String) (allFields : List (String × JSONValue)) :
    List (String × JSONValue) :=
  if select.length > 0 then
    select.foldl (selectStep allFields) []
  else
    allFields.filter fun p => cachedFromLoginCluster p.1

/-- The replacement of zero instants by the clock reading `now`; the model
takes one reading for a whole call. -/
def withTimestamps (now : Nat) (user : User) : User :=
  let user := if user.ModifiedAt = 0 then { user with ModifiedAt := now } else user
  if user.CreatedAt = 0 then { user with CreatedAt := now } else user

/-- The first instant of year 10000, in seconds after the zero instant: the
days of the years 1 to 9999, times the seconds of a day. -/
def yearTenThousand : Nat := (9999 * 365 + 9999 / 4 - 9999 / 100 + 9999 / 400) * 86400

/-- `time.Time.MarshalJSON`: an error for an instant whose year is outside
0..9999.  The instants of the model begin with year 1, so that the year is
out of range exactly from `yearTenThousand` on. -/
def timeMarshalJSON (t : Nat) : JSONValue × Option GoError :=
  if t < yearTenThousand then (JSONValue.time t, none)
  else (JSONValue.time t,
    some (GoError.plain "Time.MarshalJSON: year outside of range [0,9999]"))

/-- `json.Marshal(user)`: the JSON object of the record, or the error of the
first instant that `time.Time.MarshalJSON` refuses, wrapped by the encoder.
Strings, booleans and the preferences of the model are always encoded. -/
def jsonMarshal (user : User) : List (String × JSONValue) × Option GoError :=
  match (timeMarshalJSON user.CreatedAt).2 with
  | some err =>
    ([], some (GoError.plain
      ("json: error calling MarshalJSON for type time.Time: " ++ err.Error)))
  | none =>
    match (timeMarshalJSON user.ModifiedAt).2 with
    | some err =>
      ([], some (GoError.plain
        ("json: error calling MarshalJSON for type time.Time: " ++ err.Error)))
    | none => (user.allFields, none)

/-- `json.Unmarshal(buf, &allFields)` on an object written by `json.Marshal`:
every JSON object decodes into a `map[string]interface{}`. -/
def jsonUnmarshal (buf : List (String × JSONValue)) :
    List (String × JSONValue) × Option GoError :=
  (buf, none)

/-- One round of the loop of `UserList` over `resp.Items`: the new value of
`batchOpts.Updates`, or the error with which `UserList` returns. -/
def mirrorRound (id : String) (now : Nat) (select : List String)
    (updates : List (String × List (String × JSONValue))) (user : User) :
    Except GoError (List (String × List (String × JSONValue))) :=
  if !HasPrefix user.UUID id then .ok updates
  else
    let user := withTimestamps now user
    match jsonMarshal user with
    | (_, some err) =>
      .error (GoError.plain
        ("error encoding user record from remote response: " ++ err.Error))
    | (buf, none) =>
      match jsonUnmarshal buf with
      | (_, some err) =>
        .error (GoError.plain
          ("error transcoding user record from remote response: " ++ err.Error))
      | (allFields, none) => .ok (mapSet updates user.UUID (mirrorUpdates select allFields))

/-- The loop of `UserList` over `resp.Items`: it builds `batchOpts.Updates`
and stops at the first record that cannot be encoded. -/
def mirrorLoop (id : String) (now : Nat) (select : List String) :
    List User → List (String × List (String × JSONValue)) →
    Except GoError (List (String × List (String × JSONValue)))
  | [], updates => .ok updates
  | user :: rest, updates =>
    match mirrorRound id now select updates user with
    | .error err => .error err
    | .ok updates => mirrorLoop id now select rest updates

/-- One round of the loop of `UserList` over `resp.Items` for a record that
`json.Marshal` encodes. -/
def mirrorStep (id : String) (now : Nat) (select : List String)
    (updates : List (String × List (String × JSONValue))) (user : User) :
    List (String × List (String × JSONValue)) :=
  if !HasPrefix user.UUID id then updates
  else
    let user := withTimestamps now user
    mapSet updates user.UUID (mirrorUpdates select user.allFields)

/-- The value of `batchOpts.Updates` after the loop of `UserList` over
`resp.Items`, when no record stops the loop. -/
def mirrorBatch (id : String) (now : Nat) (select : List String) (items : List User) :
    List (String × List (String × JSONValue)) :=
  items.foldl (mirrorStep id now select) []

/-- The backends' operations that `UserList` calls; `generated` is the
generated fan-out `generated_UserList`, which is outside the sources at
hand. -/
structure UserAPI where
  userList : backend → Context → ListOptions → UserList × Option GoError
  userBatchUpdate : backend → Context → UserBatchUpdateOptions → UserList × Option GoError
  generated : Context → ListOptions → UserList × Option GoError

/-- What a call of `UserList` returns, with the backends whose `UserList` it
called directly and the calls of `UserBatchUpdate` it made: backend, context
and options. -/
structure UserListRun where
  resp : UserList
  err : Option GoError
  listCalls : List backend
  batchCalls : List (backend × Context × UserBatchUpdateOptions)

/-- `UserList`.  The debug log lines are left out. -/
def Conn.UserList (conn : Conn) (api : UserAPI) (now : Nat) (ctx : Context)
    (options : ListOptions) : UserListRun :=
  let id := conn.cluster.LoginCluster
  if id ≠ "" ∧ id ≠ conn.cluster.ClusterID then
    match api.userList (conn.chooseBackend id) ctx options with
    | (resp, some err) =>
      { resp := resp, err := some err, listCalls := [conn.chooseBackend id], batchCalls := [] }
    | (resp, none) =>
      match mirrorLoop id now options.Select resp.Items [] with
      | .error err =>
        { resp := ⟨[], 0, 0, 0⟩, err := some err, listCalls := [conn.chooseBackend id]
          batchCalls := [] }
      | .ok updates =>
        let batchOpts : UserBatchUpdateOptions := { Updates := updates }
        if batchOpts.Updates.length > 0 then
          let ctxRoot := NewContext ctx [conn.cluster.SystemRootToken]
          match api.userBatchUpdate conn.localBackend ctxRoot batchOpts with
          | (_, some err) =>
            { resp := ⟨[], 0, 0, 0⟩
              err := some (GoError.plain ("error updating local user records: " ++ err.Error))
              listCalls := [conn.chooseBackend id]
              batchCalls := [(conn.localBackend, ctxRoot, batchOpts)] }
          | (_, none) =>
            { resp := resp, err := none, listCalls := [conn.chooseBackend id]
              batchCalls := [(conn.localBackend, ctxRoot, batchOpts)] }
        else
          { resp := resp, err := none, listCalls := [conn.chooseBackend id], batchCalls := [] }
  else
    match api.generated ctx options with
    | (resp, err) => { resp := resp, err := err, listCalls := [], batchCalls := [] }

/-! ## Login -/

/-- `arvados.APIEndpoint`. -/
structure APIEndpoint where
  Method : String
  Path : String
  AttrsKey : String
  deriving DecidableEq, Repr

/-- `arvados.EndpointLogin`. -/
def EndpointLogin : APIEndpoint := ⟨"GET", "login", ""⟩

/-- `arvados.LoginOptions`. -/
structure LoginOptions where
  ReturnTo : String
  Remote : String
  Code : String
  State : String
  deriving DecidableEq, Repr

/-- Modelled from the spec: `arvados.LoginResponse` is declared outside the
sources at hand; the spec has the answer to a login carry a
`redirect_location`. -/
structure LoginResponse where
  RedirectLocation : String
  deriving DecidableEq, Repr

/-- The fields of `url.URL` that take part in `Login`: `New` builds the base
URL of a peer from `Scheme` and `Host`, `Login` derives `Path` and `RawQuery`.
`Host` and `Path` are held in the escaped form in which `String` writes them;
for a host name and for a path made of `/`, letters, digits, `-`, `.`, `_`
and `~` that is the text itself.  The other fields of `url.URL` (`Opaque`,
`User`, `ForceQuery`, `Fragment`) are empty throughout. -/
structure URL where
  Scheme : String
  Host : String
  Path : String
  RawQuery : String
  deriving DecidableEq, Repr

/-- `strings.Split(s, "/")`. -/
def splitSlash : List Char → List (List Char)
  | [] => [[]]
  | c :: cs =>
    if c = '/' then [] :: splitSlash cs
    else
      match splitSlash cs with
      | [] => [[c]]
      | seg :: segs => (c :: seg) :: segs

/-- One round of the loop of `resolvePath` over the elements of the path: `.`
is dropped, `..` removes the element before it, any other element is kept. -/
def resolveStep (dst : List (List Char)) (elem : List Char) : List (List Char) :=
  if elem = ['.'] then dst
  else if elem = ['.', '.'] then dst.dropLast
  else dst ++ [elem]

/-- `strings.TrimPrefix(s, "/")`. -/
def trimSlash : List Char → List Char
  | [] => []
  | c :: cs => if c = '/' then cs else c :: cs

/-- `resolvePath` of package `net/url`: the reference path `ref` applied to
the path `base`. -/
def resolvePath (base ref : List Char) : List Char :=
  let full :=
    if ref = [] then base
    else if ref.head? ≠ some '/' then
      (base.reverse.dropWhile fun c => c != '/').reverse ++ ref
    else ref
  if full = [] then []
  else
    let src := splitSlash full
    let dst := src.foldl resolveStep []
    let dst :=
      if src.getLast? = some ['.'] ∨ src.getLast? = some ['.', '.'] then dst ++ [[]] else dst
    '/' :: trimSlash (List.intercalate ['/'] dst)

/-- `(*URL).Parse` for a reference that is a bare path, such as `login`:
`url.Parse` finds no scheme, authority, query or fragment in it and nothing to
unescape, so that it yields the URL with that path and no error, and
`ResolveReference` gives the result the scheme and host of the receiver, the
path resolved against the receiver's, and the receiver's query only when the
reference is empty. -/
def URL.Parse (u : URL) (ref : String) : URL × Option GoError :=
  ({ Scheme := u.Scheme, Host := u.Host, Path := ⟨resolvePath u.Path.data ref.data⟩,
     RawQuery := if ref = "" then u.RawQuery else "" }, none)

/-- `(*URL).String`: the scheme and `:`, then `//` and the host when there is
a scheme or a host, then the path, then `?` and the query when there is
one. -/
def URL.String (u : URL) : String :=
  let buf := if u.Scheme ≠ "" then u.Scheme ++ ":" else ""
  let buf :=
    if u.Scheme ≠ "" ∨ u.Host ≠ "" then
      (if u.Host ≠ "" ∨ u.Path ≠ "" then buf ++ "//" else buf) ++ u.Host
    else buf
  let buf :=
    if u.Path ≠ "" ∧ u.Path.data.head? ≠ some '/' ∧ u.Host ≠ "" then buf ++ "/" else buf
  let buf :=
    if buf = "" ∧ ':' ∈ u.Path.data ∧ '/' ∉ u.Path.data.takeWhile (fun c => c != ':') then
      buf ++ "./"
    else buf
  let buf := buf ++ u.Path
  if u.RawQuery ≠ "" then buf ++ "?" ++ u.RawQuery else buf

/-- `shouldEscape(c, encodeQueryComponent)`: everything is escaped but
letters, digits, `-`, `_`, `.` and `~`. -/
def shouldEscapeQuery (c : Char) : Bool :=
  !(('a' ≤ c && c ≤ 'z') || ('A' ≤ c && c ≤ 'Z') || ('0' ≤ c && c ≤ '9') ||
    c == '-' || c == '_' || c == '.' || c == '~')

/-- The table `upperhex`. -/
def upperhex (n : Nat) : Char := "0123456789ABCDEF".data.getD n '0'

/-- What `QueryEscape` writes for one byte: `+` for a blank, `%` and two
hexadecimal digits for a byte that must be escaped, the byte itself
otherwise. -/
def escapeQueryByte (c : Char) : List Char :=
  if c = ' ' then ['+']
  else if shouldEscapeQuery c then ['%', upperhex (c.toNat / 16 % 16), upperhex (c.toNat % 16)]
  else [c]

/-- `url.QueryEscape`. -/
def QueryEscape (s : String) : String := ⟨s.data.flatMap escapeQueryByte⟩

/-- The order `<` of Go strings: byte by byte, a proper prefix coming first. -/
def stringLess : List Char → List Char → Bool
  | _, [] => false
  | [], _ :: _ => true
  | a :: as, b :: bs =>
    if a.toNat < b.toNat then true
    else if b.toNat < a.toNat then false
    else stringLess as bs

/-- The insertion of a key into a sorted list of keys. -/
def insertKey (k : String) : List String → List String
  | [] => [k]
  | k' :: ks => if stringLess k'.data k.data then k' :: insertKey k ks else k :: k' :: ks

/-- `sort.Strings`. -/
def sortStrings (ks : List String) : List String := ks.foldr insertKey []

/-- The pairs `key=value` that `Encode` writes for one key. -/
def encodeKey (v : List (String × List String)) (k : String) : List String :=
  ((v.lookup k).getD []).map fun value => QueryEscape k ++ "=" ++ QueryEscape value

/-- `url.Values.Encode`: the pairs `key=value`, escaped, sorted by key and
joined by `&`. -/
def ValuesEncode (v : List (String × List String)) : String :=
  "&".intercalate ((sortStrings (v.map Prod.fst)).flatMap (encodeKey v))

/-- What a call of `Login` returns, with the calls of the backends' `Login` it
made. -/
structure LoginRun where
  resp : LoginResponse
  err : Option GoError
  calls : List (backend × Context × LoginOptions)
  deriving DecidableEq, Repr

/-- `Login`.  `BaseURL` is the backends' method of that name, `login` their
`Login`. -/
def Conn.Login (conn : Conn) (BaseURL : backend → URL)
    (login : backend → Context → LoginOptions → LoginResponse × Option GoError)
    (ctx : Context) (options : LoginOptions) : LoginRun :=
  let id := conn.cluster.LoginCluster
  if id ≠ "" ∧ id ≠ conn.cluster.ClusterID then
    match conn.remotes.lookup id with
    | none =>
      { resp := ⟨""⟩
        err := some (GoError.plain ("configuration problem: designated login cluster " ++
          id.quote ++ " is not defined"))
        calls := [] }
    | some remote =>
      let baseURL := BaseURL remote
      match baseURL.Parse EndpointLogin.Path with
      | (_, some err) =>
        { resp := ⟨""⟩
          err := some (GoError.plain ("internal error getting redirect target: " ++ err.Error))
          calls := [] }
      | (target, none) =>
        let params : List (String × List String) := [("return_to", [options.ReturnTo])]
        let params :=
          if options.Remote ≠ "" then mapSet params "remote" [options.Remote] else params
        let target := { target with RawQuery := ValuesEncode params }
        { resp := ⟨target.String⟩, err := none, calls := [] }
  else
    match login conn.localBackend ctx options with
    | (resp, err) => { resp := resp, err := err, calls := [(conn.localBackend, ctx, options)] }

/-! ## Reference definitions after the wording of the spec -/

/-- The error, if any, that makes the salter give up on an incoming token, as
the spec words it: `salt` fails with an error other than already-salted or
obsolete-form, or the lookup of an obsolete token fails with a status other
than 401, or salting the resolved v2 token fails. -/
def abortError (SaltToken : String → String → String × Option GoError)
    (current : Context → GetOptions → APIClientAuthorization × Option GoError)
    (remoteID : String) (ctx : Context) (token : String) : Option GoError :=
  match (SaltToken token remoteID).2 with
  | none => none
  | some GoError.ErrSalted => none
  | some GoError.ErrObsoleteToken =>
    let answer := current (NewContext ctx [token]) ⟨"", [], false⟩
    match answer.2 with
    | some e => if errStatus (some e) = 401 then none else some e
    | none => (SaltToken ("v2/" ++ answer.1.UUID ++ "/" ++ answer.1.APIToken) remoteID).2
  | some e => some e

/-- The leading run of non-space characters of a text and, after it, the
space-introduced tokens: each a space followed by the maximal run of non-space
characters. -/
def spaceTokens : List Char → List Char × List (List Char)
  | [] => ([], [])
  | c :: cs =>
    if c = ' ' then ([], (' ' :: (spaceTokens cs).1) :: (spaceTokens cs).2)
    else (c :: (spaceTokens cs).1, (spaceTokens cs).2)

/-- The beginning of a token made of a space, 32 lower-case hexadecimal
digits, `+` and one or more decimal digits (all of them), when the token
begins so. -/
def sizedPrefix (tok : List Char) : Option (List Char) :=
  let hash := (tok.drop 1).take 32
  let digits := (tok.drop 34).takeWhile isDecimal
  if tok.head? = some ' ' ∧ hash.length = 32 ∧ hash.all isLowerHex = true ∧
      tok[33]? = some '+' ∧ digits ≠ [] then
    some (tok.take (34 + digits.length))
  else none

/-- The canonical form of a manifest as the spec describes it: every sized
block token cut down to its `hash+size` beginning, every other character
kept. -/
def canonicalSpec (mt : List Char) : List Char :=
  (spaceTokens mt).1 ++
    ((spaceTokens mt).2.map fun tok => (sizedPrefix tok).getD tok).flatten

/-- A block token as the spec describes it for the rewrite: a space, 32
lower-case hexadecimal digits, `+`, then anything up to the next space. -/
def isBlockTokenSpec (tok : List Char) : Bool :=
  tok.head? == some ' ' && ((tok.drop 1).take 32).length == 32 &&
    ((tok.drop 1).take 32).all isLowerHex && tok[33]? == some '+'

/-- Every occurrence of `+A` replaced by `new`, left to right. -/
def replacePlusA (new : List Char) : List Char → List Char
  | [] => []
  | [c] => [c]
  | c :: d :: rest =>
    if c = '+' ∧ d = 'A' then new ++ replacePlusA new rest
    else c :: replacePlusA new (d :: rest)

/-- The rewrite of a manifest for remote delivery as the spec describes it:
`+A` becomes `+R<remote>-` inside block tokens, nothing else changes. -/
def rewriteSpec (mt remoteID : List Char) : List Char :=
  (spaceTokens mt).1 ++
    ((spaceTokens mt).2.map fun tok =>
      if isBlockTokenSpec tok then replacePlusA (['+', 'R'] ++ remoteID ++ ['-']) tok
      else tok).flatten

/-- The backend returns a collection and the collection passes the integrity
check of `CollectionGet`: the portable data hash of its manifest is the
requested identifier, or the identifier continues it with `+`. -/
def passesIntegrity (md5 : List Char → List Nat)
    (get : backend → Context → GetOptions → Collection × Option GoError)
    (options : GetOptions) (ctx : Context) (be : backend) : Bool :=
  (get be ctx options).2.isNone &&
    (portableDataHash md5 (get be ctx options).1.ManifestText == options.UUID ||
      HasPrefix options.UUID (portableDataHash md5 (get be ctx options).1.ManifestText ++ "+"))

/-- The lower-case hexadecimal text of a byte string as the spec words it: two
digits for each byte, the high half of the byte first, where the digit of a
half is its entry in the table `0123456789abcdef`. -/
def lowerHexSpec (bs : List Nat) : List Char :=
  (bs.map fun b =>
    ["0123456789abcdef".data.getD (b / 16 % 16) '0',
     "0123456789abcdef".data.getD (b % 16) '0']).flatten

/-! ## Vocabulary of the proofs about manifests -/

/-- A byte list without a blank. -/
def NoSpace (u : List Char) : Prop := ∀ c ∈ u, c ≠ ' '

/-- A byte list that is empty or starts with a blank: what can follow a
token. -/
def Blocked (v : List Char) : Prop := v = [] ∨ ∃ w, v = ' ' :: w

/-- A byte list whose first byte, if any, is not a decimal digit. -/
def NoDigitHead (rest : List Char) : Prop := ∀ c, rest.head? = some c → isDecimal c = false

/-- The bytes written to the hash for the matches in a list of segments. -/
def segmentWrites (segs : List Segment) : List Char :=
  ((segs.filterMap Segment.matched).map pdhWrite).flatten

/-! ## Fixtures -/

/-- A stand-in for the digest function when an example is evaluated; the
theorems hold for every digest function. -/
def toyDigest (bs : List Char) : List Nat :=
  [bs.length % 256, (bs.map Char.toNat).sum % 256]

/-- A manifest with one signed block locator. -/
def signedManifest : String :=
  ". d41d8cd98f00b204e9800998ecf8427e+0+Asig@exp 0:0:f\n"

/-- A text whose block token has a hint right after the `+`, without a
size. -/
def unsizedManifest : String :=
  " d41d8cd98f00b204e9800998ecf8427e+Asig"

/-- The empty manifest's portable data hash under the stand-in digest. -/
def emptyPDH : String := portableDataHash toyDigest ""

/-- Backends for a content-hash read: the local one has no such collection,
`bbbbb` returns a collection with another content, `ccccc` has none. -/
def getMismatch : backend → Context → GetOptions → Collection × Option GoError :=
  fun be _ _ =>
    match be with
    | backend.rpc "bbbbb" _ _ _ =>
      (⟨"bbbbb-4zz18-0123456789abcde", "", ". d41d8cd98f00b204e9800998ecf8427e+0 0:0:f\n"⟩,
        none)
    | _ => (⟨"", "", ""⟩, some (GoError.http 404 "not found"))

/-- A stand-in for `auth.SaltToken`: a `v2/` token is salted, a token marked
`salted:` is reported as already salted, any other one as obsolete. -/
def toySalt (token remoteID : String) : String × Option GoError :=
  if HasPrefix token "v2/" then (token ++ "~" ++ remoteID, none)
  else if HasPrefix token "salted:" then ("", some GoError.ErrSalted)
  else ("", some GoError.ErrObsoleteToken)

/-- A stand-in for the local `APIClientAuthorizationCurrent`: the token
`expired` is refused with 401, any other single token is known. -/
def toyCurrent (ctx : Context) (_ : GetOptions) : APIClientAuthorization × Option GoError :=
  match ctx.creds with
  | some [t] =>
    if t = "expired" then (⟨"", "", "", []⟩, some (GoError.http 401 "unauthorized"))
    else (⟨"aaaaa-gj3su-0123456789abcde", t, "", []⟩, none)
  | _ => (⟨"", "", "", []⟩, some (GoError.http 500 "internal"))

/-- A router whose login cluster is the remote `zzzzz`. -/
def loginConn : Conn :=
  New { ClusterID := "aaaaa", SystemRootToken := "systemroot", LoginCluster := "zzzzz",
        RemoteClusters := [("zzzzz", ⟨"https", "zzzzz.example", false, true⟩)] }

/-- A user of the login cluster, with zero timestamps. -/
def userZ : User :=
  { UUID := "zzzzz-tpzed-000000000000000", IsActive := true, IsAdmin := true,
    Username := "z", Email := "z@example.com", FullName := "Z Z", FirstName := "Z",
    LastName := "Z", IdentityURL := "", IsInvited := true,
    OwnerUUID := "zzzzz-tpzed-000000000000000",
    CreatedAt := 0, ModifiedAt := 0, ModifiedByUserUUID := "", ModifiedByClientUUID := "",
    Prefs := [] }

/-- Backends for the user mirror: the login cluster lists `userZ`, the batch
update succeeds. -/
def mirrorAPI : UserAPI :=
  { userList := fun _ _ _ => (⟨[userZ], 1, 0, 1⟩, none)
    userBatchUpdate := fun _ _ _ => (⟨[], 0, 0, 0⟩, none)
    generated := fun _ _ => (⟨[], 0, 0, 0⟩, none) }

/-- List options that select `uuid` and `email`. -/
def selectUuidEmail : ListOptions :=
  { ClusterID := "", Select := ["uuid", "email"], Filters := [], Where := [], Limit := 2,
    Offset := 0, Order := [], Distinct := false, Count := "", IncludeTrash := false,
    IncludeOldVersions := false }

/-- A manifest with a signed block locator of size 123, as in the read
scenarios. -/
def scenarioManifest : String :=
  ". abcabcabcabcabcabcabcabcabcabcab+123+Asig@exp 0:123:f\n"

/-- Backends that all hold the collection with `scenarioManifest`. -/
def getScenario : backend → Context → GetOptions → Collection × Option GoError :=
  fun _ _ options => (⟨options.UUID, "", scenarioManifest⟩, none)

/-- List options that select `uuid` only. -/
def selectUuid : ListOptions :=
  { ClusterID := "", Select := ["uuid"], Filters := [], Where := [], Limit := 2,
    Offset := 0, Order := [], Distinct := false, Count := "", IncludeTrash := false,
    IncludeOldVersions := false }

/-- A stand-in for `auth.SaltToken` that rejects the token `bad` as malformed
and treats every other token as `toySalt` does. -/
def pickySalt (token remoteID : String) : String × Option GoError :=
  if token = "bad" then ("", some (GoError.plain "malformed")) else toySalt token remoteID

/-- A manifest with a signature hint in its block token and the text `+A` in
its file token. -/
def hintedManifest : String :=
  ". abcabcabcabcabcabcabcabcabcabcab+123+Asig@exp 0:123:f+A\n"

/-- List options without a select list. -/
def selectAll : ListOptions :=
  { ClusterID := "", Select := [], Filters := [], Where := [], Limit := -1,
    Offset := 0, Order := [], Distinct := false, Count := "", IncludeTrash := false,
    IncludeOldVersions := false }

/-- A user whose home is another cluster than the login cluster, with zero
timestamps. -/
def userB : User :=
  { UUID := "bbbbb-tpzed-000000000000000", IsActive := true, IsAdmin := false,
    Username := "b", Email := "b@example.com", FullName := "B B", FirstName := "B",
    LastName := "B", IdentityURL := "", IsInvited := true,
    OwnerUUID := "bbbbb-tpzed-000000000000000",
    CreatedAt := 0, ModifiedAt := 0, ModifiedByUserUUID := "", ModifiedByClientUUID := "",
    Prefs := [] }

/-- Backends whose local one fails every call, as the stub of
`TestLoginClusterUserList` does, while every peer lists `items`. -/
def failingLocalAPI (items : List User) : UserAPI :=
  { userList := fun be _ _ =>
      match be with
      | backend.localdb => (⟨[], 0, 0, 0⟩, some (GoError.plain "local cluster failure"))
      | _ => (⟨items, 2, 0, 2⟩, none)
    userBatchUpdate := fun _ _ _ =>
      (⟨[], 0, 0, 0⟩, some (GoError.plain "local cluster failure"))
    generated := fun _ _ => (⟨[], 0, 0, 0⟩, some (GoError.plain "local cluster failure")) }

/-- Backends for the user mirror whose login cluster lists `userZ` and
`userB`; the batch update succeeds. -/
def mixedAPI : UserAPI :=
  { userList := fun _ _ _ => (⟨[userZ, userB], 2, 0, 2⟩, none)
    userBatchUpdate := fun _ _ _ => (⟨[], 0, 0, 0⟩, none)
    generated := fun _ _ => (⟨[], 0, 0, 0⟩, none) }

/-- A manifest as peer `id` signs it: the block of `scenarioManifest` with a
signature hint that names the peer. -/
def signedBy (id : String) : String :=
  ". abcabcabcabcabcabcabcabcabcabcab+123+Asig" ++ id ++ "@exp 0:123:f\n"

/-- The portable data hash of `scenarioManifest` under the stand-in digest. -/
def scenarioPDH : String := portableDataHash toyDigest scenarioManifest

/-- Backends for a content-hash read: the local one has no such collection,
every peer returns the content asked for, signed by itself. -/
def getFromPeers : backend → Context → GetOptions → Collection × Option GoError :=
  fun be _ options =>
    match be with
    | backend.rpc id _ _ _ => (⟨"", options.UUID, signedBy id⟩, none)
    | backend.localdb => (⟨"", "", ""⟩, some (GoError.http 404 "not found"))

/-- Backends for a content-hash read that all hold `scenarioManifest`. -/
def getLocalHit : backend → Context → GetOptions → Collection × Option GoError :=
  fun _ _ options => (⟨"", options.UUID, scenarioManifest⟩, none)

/-- A router whose login cluster is the proxy remote `bbbbb`. -/
def redirectConn : Conn :=
  New { ClusterID := "aaaaa", SystemRootToken := "systemroot", LoginCluster := "bbbbb",
        RemoteClusters := [("bbbbb", ⟨"https", "bbbbb.example", false, true⟩)] }

/-- A router whose login cluster `bbbbb` is not among its remotes. -/
def strayLoginConn : Conn :=
  New { ClusterID := "aaaaa", SystemRootToken := "systemroot", LoginCluster := "bbbbb",
        RemoteClusters := [("ccccc", ⟨"https", "ccccc.example", false, true⟩)] }

/-- The base URL of a peer as `New` builds it, from the scheme and the host of
the peer's configuration entry. -/
def peerBaseURL : backend → URL
  | backend.rpc _ scheme host _ => ⟨scheme, host, "", ""⟩
  | backend.localdb => ⟨"", "", "", ""⟩

/-- A stand-in for the local backend's `Login`: it sends the caller to the
cluster's own login page. -/
def localLogin : backend → Context → LoginOptions → LoginResponse × Option GoError :=
  fun _ _ options => (⟨"https://aaaaa.example/sso?return_to=" ++ options.ReturnTo⟩, none)

/-- A user of the login cluster whose `modified_at` is the first instant of
year 10000. -/
def userLate : User :=
  { userZ with UUID := "zzzzz-tpzed-999999999999999", CreatedAt := 1000,
               ModifiedAt := yearTenThousand }

/-- Backends for the user mirror whose login cluster lists `userLate`; the
batch update would succeed. -/
def lateAPI : UserAPI :=
  { userList := fun _ _ _ => (⟨[userLate], 1, 0, 1⟩, none)
    userBatchUpdate := fun _ _ _ => (⟨[], 0, 0, 0⟩, none)
    generated := fun _ _ => (⟨[], 0, 0, 0⟩, none) }

/-- A manifest whose block locator carries no hint. -/
def plainManifest : String :=
  ". d41d8cd98f00b204e9800998ecf8427e+0 0:0:f\n"

/-- Backends that all hold the collection with `plainManifest`. -/
def getPlain : backend → Context → GetOptions → Collection × Option GoError :=
  fun _ _ options => (⟨options.UUID, "", plainManifest⟩, none)

/-- A router with two proxy remotes, used to exercise the fan-out. -/
def twoRemotes : Conn :=
  New { ClusterID := "aaaaa", SystemRootToken := "secret", LoginCluster := "",
        RemoteClusters := [("bbbbb", ⟨"https", "bbbbb.example", false, true⟩),
                           ("ccccc", ⟨"https", "ccccc.example", false, true⟩)] }

/-- A callback that fails with 404 on every backend. -/
def fnAll404 : Context → String → backend → Option GoError :=
  fun _ _ _ => some (GoError.http 404 "no such collection")

/-- A callback that fails with 404 locally and on `bbbbb`, and succeeds on
every other remote. -/
def fnOneHit : Context → String → backend → Option GoError :=
  fun _ id _ =>
    if id = "" ∨ id = "bbbbb" then some (GoError.http 404 "no such collection") else none

/-- A callback that fails with 403 on every backend. -/
def fnForbidden : Context → String → backend → Option GoError :=
  fun _ _ _ => some (GoError.http 403 "forbidden")

/-! # Properties -/

/-! ## Fan-out -/

theorem collectRemotes_of_mem_none (all404 : Bool) (errs : List GoError)
    (l : List (Option GoError)) (h : none ∈ l) : collectRemotes all404 errs l = none := by
  induction l generalizing all404 errs with
  | nil => simp at h
  | cons r rest ih =>
    cases r with
    | none => rfl
    | some e =>
      have h' : none ∈ rest := by simpa using h
      simpa [collectRemotes] using ih _ _ h'

theorem collectRemotes_of_all_fail (all404 : Bool) (errs : List GoError)
    (l : List (Option GoError)) (h : none ∉ l) :
    collectRemotes all404 errs l =
      if all404 && l.all (fun r => errStatus r == 404) then some GoError.notFoundError
      else some (httpErrorf 502 ("errors: " ++ fmtErrors (errs ++ l.filterMap id))) := by
  induction l generalizing all404 errs with
  | nil => simp [collectRemotes]
  | cons r rest ih =>
    cases r with
    | none => simp at h
    | some e =>
      have h' : none ∉ rest := fun hm => h (List.mem_cons_of_mem _ hm)
      rw [collectRemotes, ih _ _ h']
      simp [Bool.and_assoc]

theorem errStatus_httpErrorf (code : Int) (msg : String) :
    errStatus (some (httpErrorf code msg)) = code := rfl

theorem errStatus_eq_404_ne_none {err : Option GoError} (h : errStatus err = 404) :
    err ≠ none := by
  rintro rfl
  simp [errStatus] at h

/-- The error returned by the fan-out once the local call has answered 404:
success as soon as one remote succeeded, the router's not-found error when
every remote answered 404, a 502 otherwise. -/
theorem tryLocalThenRemotes_err_of_local_404 (conn : Conn) (ctx : Context)
    (fn : Context → String → backend → Option GoError)
    (arrival : List (String × backend)) (hperm : arrival.Perm conn.remotes)
    (hlocal : errStatus (fn ctx "" conn.localBackend) = 404) :
    (conn.tryLocalThenRemotes ctx fn arrival).err =
      if ∃ p ∈ conn.remotes, fn ctx p.1 p.2 = none then none
      else if ∀ p ∈ conn.remotes, errStatus (fn ctx p.1 p.2) = 404 then
        some GoError.notFoundError
      else some (httpErrorf 502 ("errors: " ++
        fmtErrors ((arrival.map fun p => fn ctx p.1 p.2).filterMap id))) := by
  have hne := errStatus_eq_404_ne_none hlocal
  have hbranch : ¬ (fn ctx "" conn.localBackend = none ∨
      errStatus (fn ctx "" conn.localBackend) ≠ 404) := by
    rintro (h | h)
    · exact hne h
    · exact h hlocal
  unfold Conn.tryLocalThenRemotes
  simp only [hbranch, if_false]
  by_cases hs : ∃ p ∈ conn.remotes, fn ctx p.1 p.2 = none
  · rw [if_pos hs]
    obtain ⟨p, hp, hnone⟩ := hs
    apply collectRemotes_of_mem_none
    exact List.mem_map.mpr ⟨p, hperm.mem_iff.mpr hp, hnone⟩
  · rw [if_neg hs]
    have hno : none ∉ arrival.map fun p => fn ctx p.1 p.2 := by
      intro hm
      obtain ⟨p, hp, hnone⟩ := List.mem_map.mp hm
      exact hs ⟨p, hperm.mem_iff.mp hp, hnone⟩
    rw [collectRemotes_of_all_fail _ _ _ hno]
    by_cases hall : ∀ p ∈ conn.remotes, errStatus (fn ctx p.1 p.2) = 404
    · rw [if_pos hall, if_pos]
      simp only [Bool.true_and, List.all_eq_true, List.mem_map, beq_iff_eq]
      rintro r ⟨p, hp, rfl⟩
      exact hall p (hperm.mem_iff.mp hp)
    · rw [if_neg hall, if_neg]
      · simp
      · simp only [Bool.true_and, List.all_eq_true, List.mem_map, beq_iff_eq]
        intro h
        exact hall fun p hp => h _ ⟨p, hperm.mem_iff.mpr hp, rfl⟩

theorem tryLocalThenRemotes_of_local_not_404 (conn : Conn) (ctx : Context)
    (fn : Context → String → backend → Option GoError)
    (arrival : List (String × backend))
    (hlocal : errStatus (fn ctx "" conn.localBackend) ≠ 404) :
    conn.tryLocalThenRemotes ctx fn arrival =
      { err := fn ctx "" conn.localBackend, calls := [("", conn.localBackend)] } := by
  unfold Conn.tryLocalThenRemotes
  simp [hlocal]

/-- C1: for any remote table and any arrival order of the remote results, the
error returned by `tryLocalThenRemotes` has status 404 exactly when the local
call failed with 404 and every remote call failed with 404; the error is then
the router's own `notFoundError`, whose message is "not found". -/
theorem tryLocalThenRemotes_404_iff (conn : Conn) (ctx : Context)
    (fn : Context → String → backend → Option GoError)
    (arrival : List (String × backend)) (hperm : arrival.Perm conn.remotes) :
    (errStatus (conn.tryLocalThenRemotes ctx fn arrival).err = 404 ↔
      errStatus (fn ctx "" conn.localBackend) = 404 ∧
        ∀ p ∈ conn.remotes, errStatus (fn ctx p.1 p.2) = 404) ∧
    (errStatus (conn.tryLocalThenRemotes ctx fn arrival).err = 404 →
      (conn.tryLocalThenRemotes ctx fn arrival).err = some GoError.notFoundError ∧
        GoError.notFoundError.Error = "not found") := by
  by_cases hlocal : errStatus (fn ctx "" conn.localBackend) = 404
  · rw [tryLocalThenRemotes_err_of_local_404 conn ctx fn arrival hperm hlocal]
    by_cases hs : ∃ p ∈ conn.remotes, fn ctx p.1 p.2 = none
    · rw [if_pos hs]
      obtain ⟨p, hp, hnone⟩ := hs
      have h500 : errStatus (fn ctx p.1 p.2) ≠ 404 := by rw [hnone]; decide
      constructor
      · constructor
        · intro h; exact absurd h (by decide)
        · intro h; exact absurd (h.2 p hp) h500
      · intro h; exact absurd h (by decide)
    · rw [if_neg hs]
      by_cases hall : ∀ p ∈ conn.remotes, errStatus (fn ctx p.1 p.2) = 404
      · rw [if_pos hall]
        exact ⟨⟨fun _ => ⟨hlocal, hall⟩, fun _ => rfl⟩, fun _ => ⟨rfl, rfl⟩⟩
      · rw [if_neg hall, errStatus_httpErrorf]
        constructor
        · constructor
          · intro h; exact absurd h (by decide)
          · intro h; exact absurd h.2 hall
        · intro h; exact absurd h (by decide)
  · rw [tryLocalThenRemotes_of_local_not_404 conn ctx fn arrival hlocal]
    constructor
    · constructor
      · intro h; exact absurd h hlocal
      · intro h; exact absurd h.1 hlocal
    · intro h; exact absurd h hlocal

/-- Witness for C1: with both remotes answering 404, in the reverse of the
launch order, the router returns its own not-found error. -/
theorem tryLocalThenRemotes_404_iff_witness :
    (twoRemotes.tryLocalThenRemotes ⟨none⟩ fnAll404 twoRemotes.remotes.reverse).err
      = some GoError.notFoundError :=
  ((tryLocalThenRemotes_404_iff twoRemotes ⟨none⟩ fnAll404 twoRemotes.remotes.reverse
      (List.reverse_perm _)).2 (by decide)).1

/-- C2: when the local call succeeds or fails with a status other than 404
(an error without a status counting as 500), `tryLocalThenRemotes` returns the
local result as is and its only invocation of the callback is the local
one. -/
theorem tryLocalThenRemotes_local_only (conn : Conn) (ctx : Context)
    (fn : Context → String → backend → Option GoError)
    (arrival : List (String × backend))
    (hlocal : fn ctx "" conn.localBackend = none ∨
      errStatus (fn ctx "" conn.localBackend) ≠ 404) :
    (conn.tryLocalThenRemotes ctx fn arrival).err = fn ctx "" conn.localBackend ∧
    (conn.tryLocalThenRemotes ctx fn arrival).calls = [("", conn.localBackend)] ∧
    (∀ e : GoError, e.HTTPStatus = none → errStatus (some e) = 500) := by
  have h : errStatus (fn ctx "" conn.localBackend) ≠ 404 := by
    rcases hlocal with h | h
    · rw [h]; decide
    · exact h
  rw [tryLocalThenRemotes_of_local_not_404 conn ctx fn arrival h]
  refine ⟨rfl, rfl, ?_⟩
  intro e he
  simp [errStatus, he]

/-- Witness for C2: a local 403 is returned as is and no remote is called. -/
theorem tryLocalThenRemotes_local_only_witness :
    (twoRemotes.tryLocalThenRemotes ⟨none⟩ fnForbidden twoRemotes.remotes).err
        = some (GoError.http 403 "forbidden") ∧
      (twoRemotes.tryLocalThenRemotes ⟨none⟩ fnForbidden twoRemotes.remotes).calls
        = [("", backend.localdb)] :=
  have h := tryLocalThenRemotes_local_only twoRemotes ⟨none⟩ fnForbidden twoRemotes.remotes
    (Or.inr (by decide))
  ⟨h.1, h.2.1⟩

/-- C3: after a local 404, whatever the arrival order of the remote results,
the call succeeds exactly when some remote call succeeded; when none did and
some remote error has a status other than 404, the returned error has status
502. -/
theorem tryLocalThenRemotes_remote_outcome (conn : Conn) (ctx : Context)
    (fn : Context → String → backend → Option GoError)
    (arrival : List (String × backend)) (hperm : arrival.Perm conn.remotes)
    (hlocal : errStatus (fn ctx "" conn.localBackend) = 404) :
    ((conn.tryLocalThenRemotes ctx fn arrival).err = none ↔
      ∃ p ∈ conn.remotes, fn ctx p.1 p.2 = none) ∧
    ((¬ ∃ p ∈ conn.remotes, fn ctx p.1 p.2 = none) →
      (∃ p ∈ conn.remotes, errStatus (fn ctx p.1 p.2) ≠ 404) →
      errStatus (conn.tryLocalThenRemotes ctx fn arrival).err = 502) := by
  rw [tryLocalThenRemotes_err_of_local_404 conn ctx fn arrival hperm hlocal]
  by_cases hs : ∃ p ∈ conn.remotes, fn ctx p.1 p.2 = none
  · rw [if_pos hs]
    exact ⟨⟨fun _ => hs, fun _ => rfl⟩, fun h => absurd hs h⟩
  · rw [if_neg hs]
    constructor
    · constructor
      · intro h
        split at h <;> simp at h
      · intro h; exact absurd h hs
    · rintro - ⟨p, hp, hne⟩
      rw [if_neg (fun hall => hne (hall p hp)), errStatus_httpErrorf]

/-- Witness for C3: local 404, `bbbbb` 404, `ccccc` succeeds and reports
last: the call succeeds. -/
theorem tryLocalThenRemotes_remote_outcome_witness :
    (twoRemotes.tryLocalThenRemotes ⟨none⟩ fnOneHit twoRemotes.remotes).err = none :=
  (tryLocalThenRemotes_remote_outcome twoRemotes ⟨none⟩ fnOneHit twoRemotes.remotes
      (List.Perm.refl _) (by decide)).1.2
    ⟨("ccccc", backend.rpc "ccccc" "https" "ccccc.example" false), by decide, by decide⟩

/-! ## Backend selection -/

theorem lookup_New_remotes (rcs : List (String × RemoteCluster)) (c : String) :
    (rcs.filterMap fun p =>
        if p.2.Proxy then some (p.1, backend.rpc p.1 p.2.Scheme p.2.Host p.2.Insecure)
        else none).lookup c =
      (rcs.find? (fun p => p.1 == c && p.2.Proxy)).map
        fun p => backend.rpc p.1 p.2.Scheme p.2.Host p.2.Insecure := by
  induction rcs with
  | nil => rfl
  | cons p rest ih =>
    by_cases hp : p.2.Proxy = true
    · by_cases hk : p.1 = c
      · subst hk
        simp [List.filterMap_cons, hp, List.lookup_cons, List.find?_cons]
      · have hk' : (c == p.1) = false := by simpa using fun h => hk h.symm
        have hk'' : (p.1 == c) = false := by simpa using hk
        simp [List.filterMap_cons, hp, List.lookup_cons, List.find?_cons, hk', hk'', ih]
    · have hp' : p.2.Proxy = false := by simpa using hp
      simp [List.filterMap_cons, hp', List.find?_cons, ih]

theorem backendFor_New (cluster : Cluster) (c : String) :
    (New cluster).backendFor c =
      if c = cluster.ClusterID then backend.localdb
      else match cluster.RemoteClusters.find? (fun p => p.1 == c && p.2.Proxy) with
        | some p => backend.rpc p.1 p.2.Scheme p.2.Host p.2.Insecure
        | none => backend.localdb := by
  unfold Conn.backendFor
  simp only [New]
  rw [lookup_New_remotes]
  by_cases hc : c = cluster.ClusterID
  · simp [hc]
  · simp only [hc, if_false]
    cases cluster.RemoteClusters.find? (fun p => p.1 == c && p.2.Proxy) <;> rfl

/-- C4: on a router built by `New`, `chooseBackend` agrees with the reference
of the spec (first five characters of a 27-character id, a 5-character id
itself, else local; own cluster id is local; a proxy remote is that remote;
anything else is local).  It is a total function, and an id whose cluster is
not a configured proxy remote is routed to the local backend. -/
theorem chooseBackend_eq_spec (cluster : Cluster) (id : String) :
    (New cluster).chooseBackend id = chooseBackendSpec cluster id ∧
    ((∀ p ∈ cluster.RemoteClusters,
        p.2.Proxy = true → p.1 ≠ id ∧ p.1 ≠ slicePrefix id 5) →
      (New cluster).chooseBackend id = backend.localdb) := by
  have hspec : (New cluster).chooseBackend id = chooseBackendSpec cluster id := by
    unfold Conn.chooseBackend chooseBackendSpec
    by_cases h27 : id.length = 27
    · simp only [if_pos h27, backendFor_New, slicePrefix]
    · by_cases h5 : id.length = 5
      · simp only [if_neg h27, if_pos h5, if_neg (not_not.mpr h5), backendFor_New]
      · simp only [if_neg h27, if_neg h5, if_pos h5]
        rfl
  refine ⟨hspec, fun hno => ?_⟩
  have hfind : ∀ c, (c = id ∨ c = slicePrefix id 5) →
      cluster.RemoteClusters.find? (fun p => p.1 == c && p.2.Proxy) = none := by
    intro c hc
    rw [List.find?_eq_none]
    intro p hp
    simp only [Bool.and_eq_true, beq_iff_eq, not_and]
    intro hk hproxy
    have := hno p hp hproxy
    rcases hc with rfl | rfl
    · exact this.1 hk
    · exact this.2 hk
  have hfor : ∀ c, (c = id ∨ c = slicePrefix id 5) →
      (New cluster).backendFor c = backend.localdb := by
    intro c hc
    rw [backendFor_New, hfind c hc]
    split <;> rfl
  unfold Conn.chooseBackend
  by_cases h27 : id.length = 27
  · rw [if_pos h27]
    exact hfor _ (Or.inr rfl)
  · by_cases h5 : id.length = 5
    · rw [if_neg h27, if_neg (not_not.mpr h5)]
      exact hfor _ (Or.inl rfl)
    · rw [if_neg h27, if_pos h5]
      rfl

/-- Witness for C4: the unknown cluster id `zzzzz` is served by the local
backend. -/
theorem chooseBackend_eq_spec_witness :
    twoRemotes.chooseBackend "zzzzz-4zz18-0123456789abcde" = backend.localdb :=
  (chooseBackend_eq_spec _ "zzzzz-4zz18-0123456789abcde").2 (by decide)

/-- Counterexample to C9: a 27-character identifier that does not have the
UUID shape (upper-case letters) is still routed to the remote named by its
first five characters. -/
theorem chooseBackend_malformed_uuid_routed :
    ("bbbbb-4ZZ18-XXXXXXXXXXXXXXX".length ≠ 5 ∧
      isWellFormedUUID "bbbbb-4ZZ18-XXXXXXXXXXXXXXX" = false) ∧
    twoRemotes.chooseBackend "bbbbb-4ZZ18-XXXXXXXXXXXXXXX" ≠ twoRemotes.localBackend := by
  decide

/-- C9 (amended): an identifier whose length is neither 5 nor 27 is served by
the local backend; a 27-character identifier is routed exactly like the
cluster id made of its first five characters, whatever its shape. -/
theorem chooseBackend_by_length (conn : Conn) (id : String) :
    (id.length ≠ 5 → id.length ≠ 27 → conn.chooseBackend id = conn.localBackend) ∧
    (id.length = 27 → conn.chooseBackend id = conn.chooseBackend (slicePrefix id 5)) := by
  constructor
  · intro h5 h27
    simp [Conn.chooseBackend, h5, h27]
  · intro h27
    have hlen : (slicePrefix id 5).length = 5 := by
      have : id.data.length = 27 := h27
      simp [slicePrefix, String.length, this]
    simp [Conn.chooseBackend, h27, hlen]

/-- Witness for C9 (amended): a portable data hash is served locally. -/
theorem chooseBackend_by_length_witness :
    twoRemotes.chooseBackend "d41d8cd98f00b204e9800998ecf8427e+0" = twoRemotes.localBackend :=
  (chooseBackend_by_length twoRemotes "d41d8cd98f00b204e9800998ecf8427e+0").1
    (by decide) (by decide)

/-! ## Manifests: tokens -/

theorem notSpace_eq_true {c : Char} : notSpace c = true ↔ c ≠ ' ' := by
  simp [notSpace]

theorem takeWhile_notSpace_append {u v : List Char} (hu : NoSpace u) (hv : Blocked v) :
    (u ++ v).takeWhile notSpace = u := by
  induction u with
  | nil =>
    rcases hv with rfl | ⟨w, rfl⟩
    · rfl
    · simp [List.takeWhile, notSpace]
  | cons c u ih =>
    have hc : notSpace c = true := notSpace_eq_true.mpr (hu c (List.mem_cons_self _ _))
    have hu' : NoSpace u := fun x hx => hu x (List.mem_cons_of_mem _ hx)
    simp [List.takeWhile, hc, ih hu']

theorem dropWhile_notSpace_blocked (s : List Char) : Blocked (s.dropWhile notSpace) := by
  induction s with
  | nil => exact Or.inl rfl
  | cons c cs ih =>
    by_cases hc : c = ' '
    · subst hc
      exact Or.inr ⟨cs, by simp [List.dropWhile, notSpace]⟩
    · have : notSpace c = true := notSpace_eq_true.mpr hc
      simpa [List.dropWhile, this] using ih

theorem takeWhile_notSpace_noSpace (s : List Char) : NoSpace (s.takeWhile notSpace) := by
  intro c hc
  exact notSpace_eq_true.mp (List.mem_takeWhile_imp hc)

/-- Every byte list is a blank-free run followed by a blocked rest. -/
theorem exists_noSpace_blocked (s : List Char) :
    ∃ u v, s = u ++ v ∧ NoSpace u ∧ Blocked v :=
  ⟨s.takeWhile notSpace, s.dropWhile notSpace, (List.takeWhile_append_dropWhile _ _).symm,
    takeWhile_notSpace_noSpace s, dropWhile_notSpace_blocked s⟩

/-! ### `replaceAllSegments` -/

theorem replaceAllSegments_skip (m : List Char → Option Nat) (b : Bool)
    (x rest : List Char) :
    replaceAllSegments m x.length b (x ++ rest) = replaceAllSegments m 0 b rest := by
  induction x with
  | nil => rfl
  | cons c x ih => simpa [replaceAllSegments] using ih

theorem hexDigits_length {n : Nat} {u r : List Char} (h : hexDigits n u = some r) :
    u.length = n + r.length := by
  induction n generalizing u with
  | zero => simp [hexDigits] at h; simp [h]
  | succ n ih =>
    cases u with
    | nil => simp [hexDigits] at h
    | cons c u =>
      simp only [hexDigits] at h
      split at h
      · have := ih h
        simp [this]; omega
      · simp at h

theorem hexDigits_append {n : Nat} {u v : List Char} (hv : Blocked v) :
    hexDigits n (u ++ v) = (hexDigits n u).map (· ++ v) := by
  induction n generalizing u with
  | zero => simp [hexDigits]
  | succ n ih =>
    cases u with
    | nil =>
      rcases hv with rfl | ⟨w, rfl⟩
      · simp [hexDigits]
      · simp [hexDigits, isLowerHex]
    | cons c u =>
      simp only [List.cons_append, hexDigits]
      split
      · exact ih
      · rfl

theorem hexDigits_suffix_noSpace {n : Nat} {u r : List Char} (hu : NoSpace u)
    (h : hexDigits n u = some r) : NoSpace r := by
  induction n generalizing u with
  | zero => simp [hexDigits] at h; subst h; exact hu
  | succ n ih =>
    cases u with
    | nil => simp [hexDigits] at h
    | cons c u =>
      simp only [hexDigits] at h
      split at h
      · exact ih (fun x hx => hu x (List.mem_cons_of_mem _ hx)) h
      · simp at h

theorem matchBlockToken_append {u v : List Char} (hu : NoSpace u) (hv : Blocked v) :
    matchBlockToken (' ' :: (u ++ v)) = matchBlockToken (' ' :: u) := by
  have key : ∀ r, hexDigits 32 u = some r →
      (match (some (r ++ v) : Option (List Char)) with
        | some ('+' :: rest) => some (34 + (rest.takeWhile notSpace).length)
        | _ => none) =
      (match (some r : Option (List Char)) with
        | some ('+' :: rest) => some (34 + (rest.takeWhile notSpace).length)
        | _ => none) := by
    intro r hr
    have hr' : NoSpace r := hexDigits_suffix_noSpace hu hr
    cases r with
    | nil =>
      rcases hv with rfl | ⟨w, rfl⟩
      · rfl
      · rfl
    | cons c rest =>
      by_cases hc : c = '+'
      · subst hc
        have hrest : NoSpace rest := fun x hx => hr' x (List.mem_cons_of_mem _ hx)
        have h1 := takeWhile_notSpace_append hrest hv
        have h2 := takeWhile_notSpace_append hrest (Or.inl rfl : Blocked [])
        simp only [List.append_nil] at h2
        simp only [List.cons_append, h1, h2]
      · simp only [List.cons_append]
        split
        · rename_i heq; simp at heq; exact absurd heq.1 hc
        · split
          · rename_i heq; simp at heq; exact absurd heq.1 hc
          · rfl
  simp only [matchBlockToken, hexDigits_append hv]
  cases h : hexDigits 32 u with
  | none => rfl
  | some r => exact key r h

theorem matchBlockToken_eq_length {u : List Char} {n : Nat} (hu : NoSpace u)
    (h : matchBlockToken (' ' :: u) = some n) : n = u.length + 1 := by
  simp only [matchBlockToken] at h
  split at h
  · rename_i rest heq
    have hlen := hexDigits_length heq
    have hrest : NoSpace rest := fun x hx =>
      hexDigits_suffix_noSpace hu heq x (List.mem_cons_of_mem _ hx)
    have h2 := takeWhile_notSpace_append hrest (Or.inl rfl : Blocked [])
    simp only [List.append_nil] at h2
    rw [h2] at h
    simp at h hlen
    omega
  · simp at h

theorem matchBlockToken_of_ne_space {c : Char} (cs : List Char) (hc : c ≠ ' ') :
    matchBlockToken (c :: cs) = none := by
  unfold matchBlockToken
  split
  · rename_i heq; simp at heq; exact absurd heq.1 hc
  · rfl

theorem matchBlockToken_ne_zero (s : List Char) : matchBlockToken s ≠ some 0 := by
  unfold matchBlockToken
  split
  · split <;> simp
  · simp

theorem blockSegments_nil (k : Nat) (b : Bool) :
    replaceAllSegments matchBlockToken k b [] = [] := by
  cases k <;> simp [replaceAllSegments, matchBlockToken]

theorem blockSegments_flag (b : Bool) (s : List Char) :
    replaceAllSegments matchBlockToken 0 b s = replaceAllSegments matchBlockToken 0 false s := by
  cases s with
  | nil => simp [blockSegments_nil]
  | cons c cs =>
    simp only [replaceAllSegments]
    split
    · rename_i heq; exact absurd heq (matchBlockToken_ne_zero _)
    · rfl
    · rfl

theorem blockSegments_gap {c : Char} (b : Bool) (cs : List Char)
    (h : matchBlockToken (c :: cs) = none) :
    replaceAllSegments matchBlockToken 0 b (c :: cs) =
      Segment.gap c :: replaceAllSegments matchBlockToken 0 false cs := by
  simp only [replaceAllSegments, h]

theorem blockSegments_run {u : List Char} (v : List Char) (hu : NoSpace u) :
    replaceAllSegments matchBlockToken 0 false (u ++ v) =
      u.map Segment.gap ++ replaceAllSegments matchBlockToken 0 false v := by
  induction u with
  | nil => rfl
  | cons c u ih =>
    have hc : c ≠ ' ' := hu c (List.mem_cons_self _ _)
    have hu' : NoSpace u := fun x hx => hu x (List.mem_cons_of_mem _ hx)
    rw [List.cons_append, blockSegments_gap _ _ (matchBlockToken_of_ne_space _ hc), ih hu']
    rfl

theorem blockSegments_token {u v : List Char} (hu : NoSpace u) (hv : Blocked v) :
    replaceAllSegments matchBlockToken 0 false (' ' :: (u ++ v)) =
      (if (matchBlockToken (' ' :: u)).isSome then [Segment.hit (' ' :: u)]
        else (' ' :: u).map Segment.gap) ++
      replaceAllSegments matchBlockToken 0 false v := by
  cases h : matchBlockToken (' ' :: u) with
  | none =>
    have h' : matchBlockToken (' ' :: (u ++ v)) = none := by
      rw [matchBlockToken_append hu hv, h]
    rw [blockSegments_gap _ _ h', blockSegments_run v hu]
    simp
  | some n =>
    have hn := matchBlockToken_eq_length hu h
    subst hn
    have h' : matchBlockToken (' ' :: (u ++ v)) = some (u.length + 1) := by
      rw [matchBlockToken_append hu hv, h]
    simp only [replaceAllSegments, h', Option.isSome_some, if_true]
    rw [replaceAllSegments_skip, blockSegments_flag]
    simp

/-! ### `strings.Replace` of `+A` -/

theorem stringsReplace_nil (old new : List Char) (k : Nat) :
    stringsReplace old new k [] = [] := by
  cases k <;> rfl

theorem stringsReplace_plusA (new rest : List Char) :
    stringsReplace ['+', 'A'] new 0 ('+' :: 'A' :: rest) =
      new ++ stringsReplace ['+', 'A'] new 0 rest := by
  simp [stringsReplace, List.isPrefixOf]

theorem stringsReplace_cons_of_ne_plus {c : Char} (new cs : List Char) (hc : c ≠ '+') :
    stringsReplace ['+', 'A'] new 0 (c :: cs) = c :: stringsReplace ['+', 'A'] new 0 cs := by
  have : ('+' == c) = false := by simpa using fun h => hc h.symm
  simp [stringsReplace, List.isPrefixOf, this]

theorem stringsReplace_cons_of_next_ne {c d : Char} (new cs : List Char) (hd : d ≠ 'A') :
    stringsReplace ['+', 'A'] new 0 (c :: d :: cs) =
      c :: stringsReplace ['+', 'A'] new 0 (d :: cs) := by
  have : ('A' == d) = false := by simpa using fun h => hd h.symm
  simp [stringsReplace, List.isPrefixOf, this]

theorem stringsReplace_singleton (new : List Char) (c : Char) :
    stringsReplace ['+', 'A'] new 0 [c] = [c] := by
  simp [stringsReplace, List.isPrefixOf]

/-- Replacing inside a blank-free run by a blank-free text leaves it
blank-free. -/
theorem stringsReplace_noSpace {new : List Char} (hnew : NoSpace new) :
    ∀ (n : Nat) (u : List Char), u.length ≤ n → NoSpace u →
      NoSpace (stringsReplace ['+', 'A'] new 0 u) := by
  intro n
  induction n with
  | zero =>
    intro u hlen _
    have : u = [] := List.length_eq_zero.mp (Nat.le_zero.mp hlen)
    subst this
    intro c hc
    simp [stringsReplace] at hc
  | succ n ih =>
    intro u hlen hu
    match u, hlen, hu with
    | [], _, _ => intro c hc; simp [stringsReplace] at hc
    | [c], _, hu => rw [stringsReplace_singleton]; exact hu
    | c :: d :: cs, hlen, hu =>
      have hcs : NoSpace cs := fun x hx =>
        hu x (List.mem_cons_of_mem _ (List.mem_cons_of_mem _ hx))
      have hdcs : NoSpace (d :: cs) := fun x hx => hu x (List.mem_cons_of_mem _ hx)
      by_cases hd : d = 'A'
      · by_cases hc : c = '+'
        · subst hc hd
          rw [stringsReplace_plusA]
          have hrec := ih cs (by simp at hlen; omega) hcs
          intro x hx
          rcases List.mem_append.mp hx with h | h
          · exact hnew x h
          · exact hrec x h
        · rw [stringsReplace_cons_of_ne_plus _ _ hc]
          have hrec := ih (d :: cs) (by simp at hlen ⊢; omega) hdcs
          intro x hx
          rcases List.mem_cons.mp hx with h | h
          · rw [h]; exact hu c (List.mem_cons_self _ _)
          · exact hrec x h
      · rw [stringsReplace_cons_of_next_ne _ _ hd]
        have hrec := ih (d :: cs) (by simp at hlen ⊢; omega) hdcs
        intro x hx
        rcases List.mem_cons.mp hx with h | h
        · rw [h]; exact hu c (List.mem_cons_self _ _)
        · exact hrec x h

/-- A prefix without `A` that does not end in `+` is copied as is. -/
theorem stringsReplace_prefix (new : List Char) (p r : List Char)
    (hA : ∀ c ∈ p, c ≠ 'A') (hlast : p.getLast? ≠ some '+') :
    stringsReplace ['+', 'A'] new 0 (p ++ r) = p ++ stringsReplace ['+', 'A'] new 0 r := by
  induction p with
  | nil => rfl
  | cons c p ih =>
    cases p with
    | nil =>
      have hc : c ≠ '+' := by
        intro h; apply hlast; simp [h]
      simpa using stringsReplace_cons_of_ne_plus new r hc
    | cons d p =>
      have hd : d ≠ 'A' := hA d (by simp)
      have hA' : ∀ x ∈ d :: p, x ≠ 'A' := fun x hx => hA x (List.mem_cons_of_mem _ hx)
      have hlast' : (d :: p).getLast? ≠ some '+' := by
        simpa [List.getLast?_cons_cons] using hlast
      have := ih hA' hlast'
      simp only [List.cons_append] at this ⊢
      rw [stringsReplace_cons_of_next_ne _ _ hd, this]

/-! ### `rewriteManifest` token by token -/

theorem flatMap_gap (repl : List Char → List Char) (w : List Char) :
    (w.map Segment.gap).flatMap (Segment.replace repl) = w := by
  induction w with
  | nil => rfl
  | cons c w ih =>
    rw [List.map_cons, List.flatMap_cons, ih]
    rfl

theorem rewriteManifestBytes_nil (R : List Char) : rewriteManifestBytes [] R = [] := by
  simp [rewriteManifestBytes, ReplaceAllStringFunc, blockSegments_nil]

theorem rewriteManifestBytes_run {u : List Char} (v R : List Char) (hu : NoSpace u) :
    rewriteManifestBytes (u ++ v) R = u ++ rewriteManifestBytes v R := by
  simp only [rewriteManifestBytes, ReplaceAllStringFunc, blockSegments_run v hu,
    List.flatMap_append]
  congr 1
  exact flatMap_gap _ u

theorem rewriteManifestBytes_token {u v : List Char} (R : List Char) (hu : NoSpace u)
    (hv : Blocked v) :
    rewriteManifestBytes (' ' :: (u ++ v)) R =
      (if (matchBlockToken (' ' :: u)).isSome then rewriteToken R (' ' :: u) else ' ' :: u) ++
      rewriteManifestBytes v R := by
  simp only [rewriteManifestBytes, ReplaceAllStringFunc, blockSegments_token hu hv,
    List.flatMap_append]
  congr 1
  by_cases h : (matchBlockToken (' ' :: u)).isSome
  · simp [h, Segment.replace]
  · simp only [h]
    exact flatMap_gap _ (' ' :: u)

/-! ### `portableDataHash` token by token -/

theorem pdhInput_eq (mt : List Char) :
    pdhInput mt = segmentWrites (replaceAllSegments matchToken 0 false mt) := rfl

theorem segmentWrites_hit (tok : List Char) (segs : List Segment) :
    segmentWrites (Segment.hit tok :: segs) = pdhWrite tok ++ segmentWrites segs := by
  simp [segmentWrites, Segment.matched]

theorem findBlk_of_ne_space {c : Char} (cs : List Char) (hc : c ≠ ' ') :
    findBlk (c :: cs) = none := by
  unfold findBlk
  split
  · rename_i heq; simp at heq; exact absurd heq.1 hc
  · rfl

theorem pdhWrite_nil : pdhWrite [] = [] := rfl

theorem pdhWrite_run {u : List Char} (hu : NoSpace u) : pdhWrite u = u := by
  cases u with
  | nil => rfl
  | cons c u =>
    unfold pdhWrite
    rw [findBlk_of_ne_space _ (hu c (List.mem_cons_self _ _))]

theorem tokenSegments_nil (k : Nat) (b : Bool) :
    segmentWrites (replaceAllSegments matchToken k b []) = [] := by
  cases k <;> cases b <;> simp [replaceAllSegments, matchToken, segmentWrites, pdhWrite, findBlk, Segment.matched]

theorem matchToken_run {c : Char} {u v : List Char} (hu : NoSpace (c :: u)) (hv : Blocked v) :
    matchToken (c :: (u ++ v)) = some (u.length + 1) := by
  have hc : c ≠ ' ' := hu c (List.mem_cons_self _ _)
  have h := takeWhile_notSpace_append hu hv
  unfold matchToken
  split
  · rename_i heq; simp at heq; exact absurd heq.1 hc
  · rw [← List.cons_append, h]; rfl

theorem matchToken_token {u v : List Char} (hu : NoSpace u) (hv : Blocked v) :
    matchToken (' ' :: (u ++ v)) = some (u.length + 1) := by
  simp [matchToken, takeWhile_notSpace_append hu hv, Nat.add_comm]

theorem tokenSegments_flag (b : Bool) (s : List Char) :
    segmentWrites (replaceAllSegments matchToken 0 b s) =
      segmentWrites (replaceAllSegments matchToken 0 false s) := by
  cases s with
  | nil => simp [tokenSegments_nil]
  | cons c cs =>
    obtain ⟨u, v, huv, hu, hv⟩ := exists_noSpace_blocked cs
    subst huv
    by_cases hc : c = ' '
    · subst hc
      simp only [replaceAllSegments, matchToken_token hu hv]
    · have hcu : NoSpace (c :: u) := by
        intro x hx
        rcases List.mem_cons.mp hx with h | h
        · rw [h]; exact hc
        · exact hu x h
      simp only [replaceAllSegments, matchToken_run hcu hv]

theorem pdhInput_nil : pdhInput [] = [] := by
  rw [pdhInput_eq, tokenSegments_nil]

theorem pdhInput_token {u v : List Char} (hu : NoSpace u) (hv : Blocked v) :
    pdhInput (' ' :: (u ++ v)) = pdhWrite (' ' :: u) ++ pdhInput v := by
  rw [pdhInput_eq, pdhInput_eq]
  simp only [replaceAllSegments, matchToken_token hu hv]
  rw [segmentWrites_hit, replaceAllSegments_skip, tokenSegments_flag]
  simp

theorem pdhInput_run {u v : List Char} (hu : NoSpace u) (hv : Blocked v) :
    pdhInput (u ++ v) = u ++ pdhInput v := by
  cases u with
  | nil => rfl
  | cons c u =>
    rw [pdhInput_eq, pdhInput_eq, List.cons_append]
    simp only [replaceAllSegments, matchToken_run hu hv]
    rw [segmentWrites_hit, replaceAllSegments_skip, tokenSegments_flag]
    have : List.take (u.length + 1) (c :: (u ++ v)) = c :: u := by simp
    rw [this, pdhWrite_run hu]

/-! ### One block token -/

theorem hexDigits_split {n : Nat} {s r : List Char} (h : hexDigits n s = some r) :
    ∃ hx, s = hx ++ r ∧ hx.length = n ∧ ∀ c ∈ hx, isLowerHex c = true := by
  induction n generalizing s with
  | zero =>
    simp [hexDigits] at h
    exact ⟨[], by simp [h], rfl, by simp⟩
  | succ n ih =>
    cases s with
    | nil => simp [hexDigits] at h
    | cons c s =>
      simp only [hexDigits] at h
      split at h
      · rename_i hc
        obtain ⟨hx, hs, hlen, hall⟩ := ih h
        refine ⟨c :: hx, by simp [hs], by simp [hlen], ?_⟩
        intro x hx'
        rcases List.mem_cons.mp hx' with rfl | h'
        · exact hc
        · exact hall x h'
      · simp at h

theorem hexDigits_of_split {hx r : List Char} (hall : ∀ c ∈ hx, isLowerHex c = true) :
    hexDigits hx.length (hx ++ r) = some r := by
  induction hx with
  | nil => rfl
  | cons c hx ih =>
    have hc : isLowerHex c = true := hall c (List.mem_cons_self _ _)
    simp only [List.length_cons, List.cons_append, hexDigits, hc, if_true]
    exact ih fun x h => hall x (List.mem_cons_of_mem _ h)

theorem isLowerHex_ne_A {c : Char} (h : isLowerHex c = true) : c ≠ 'A' := by
  rintro rfl
  simp [isLowerHex] at h

theorem isDecimal_ne_A {c : Char} (h : isDecimal c = true) : c ≠ 'A' := by
  rintro rfl
  simp [isDecimal] at h

theorem isDecimal_ne_plus {c : Char} (h : isDecimal c = true) : c ≠ '+' := by
  rintro rfl
  simp [isDecimal] at h

theorem takeWhile_isDecimal_append {ds rest : List Char}
    (hds : ∀ c ∈ ds, isDecimal c = true) (hrest : NoDigitHead rest) :
    (ds ++ rest).takeWhile isDecimal = ds := by
  rw [List.takeWhile_append_of_pos hds]
  cases rest with
  | nil => simp
  | cons c rest =>
    have : isDecimal c = false := hrest c rfl
    simp [List.takeWhile_cons, this]

/-- The shape of a token that `findBlk` accepts. -/
theorem findBlk_eq_some {tok m : List Char} (h : findBlk tok = some m) :
    ∃ hx ds rest, tok = ' ' :: (hx ++ '+' :: (ds ++ rest)) ∧ m = ' ' :: (hx ++ '+' :: ds) ∧
      hx.length = 32 ∧ (∀ c ∈ hx, isLowerHex c = true) ∧ ds ≠ [] ∧
      (∀ c ∈ ds, isDecimal c = true) ∧ NoDigitHead rest := by
  unfold findBlk at h
  split at h
  · rename_i cs
    split at h
    · rename_i after hhex
      obtain ⟨hx, hs, hlen, hall⟩ := hexDigits_split hhex
      split at h
      · simp at h
      · rename_i d ds hds
        have hsplit := List.takeWhile_append_dropWhile isDecimal after
        rw [hds] at hsplit
        have htok' : ∀ r, d :: ds ++ r = after →
            ' ' :: cs = (' ' :: (hx ++ '+' :: (d :: ds))) ++ r := by
          intro r hr; rw [hs, ← hr]; simp
        have htok := htok' _ hsplit
        refine ⟨hx, d :: ds, after.dropWhile isDecimal, ?_, ?_, hlen, hall, by simp, ?_, ?_⟩
        · rw [htok]; simp
        · simp only [Option.some.injEq] at h
          rw [← h, htok]
          apply List.take_left'
          simp [hlen]; omega
        · intro c hc
          have : c ∈ after.takeWhile isDecimal := by rw [hds]; exact hc
          exact List.mem_takeWhile_imp this
        · intro c hc
          have := List.head?_dropWhile_not isDecimal after
          rw [hc] at this
          exact this
    · simp at h
  · simp at h

theorem findBlk_of_shape {hx ds rest : List Char} (hlen : hx.length = 32)
    (hall : ∀ c ∈ hx, isLowerHex c = true) (hne : ds ≠ [])
    (hds : ∀ c ∈ ds, isDecimal c = true) (hrest : NoDigitHead rest) :
    findBlk (' ' :: (hx ++ '+' :: (ds ++ rest))) = some (' ' :: (hx ++ '+' :: ds)) := by
  have hhex : hexDigits 32 (hx ++ '+' :: (ds ++ rest)) = some ('+' :: (ds ++ rest)) := by
    rw [← hlen]; exact hexDigits_of_split hall
  have htw := takeWhile_isDecimal_append hds hrest
  cases ds with
  | nil => exact absurd rfl hne
  | cons d ds =>
    simp only [findBlk, hhex, htw]
    congr 1
    have : ' ' :: (hx ++ '+' :: (d :: ds ++ rest)) = (' ' :: (hx ++ '+' :: (d :: ds))) ++ rest := by
      simp
    rw [this]
    apply List.take_left'
    simp [hlen]; omega

/-- The hash+size prefix that `findBlk` cuts out holds no `A` and ends in a
digit, so `strings.Replace` leaves it alone. -/
theorem rewriteToken_sized {R tok m : List Char} (h : findBlk tok = some m) :
    findBlk (rewriteToken R tok) = some m := by
  obtain ⟨hx, ds, rest, htok, hm, hlen, hall, hne, hds, hrest⟩ := findBlk_eq_some h
  have hsplit : tok = m ++ rest := by rw [htok, hm]; simp
  have hA : ∀ c ∈ m, c ≠ 'A' := by
    intro c hc
    rw [hm] at hc
    simp only [List.mem_cons, List.mem_append] at hc
    rcases hc with rfl | hc | rfl | hc
    · decide
    · exact isLowerHex_ne_A (hall c hc)
    · decide
    · exact isDecimal_ne_A (hds c hc)
  have hlast : m.getLast? ≠ some '+' := by
    obtain ⟨ds', d, rfl⟩ : ∃ ds' d, ds = ds' ++ [d] := by
      rcases List.eq_nil_or_concat ds with h | ⟨l, d, h⟩
      · exact absurd h hne
      · exact ⟨l, d, by simpa using h⟩
    have hd : isDecimal d = true := hds d (by simp)
    have : m = (' ' :: (hx ++ '+' :: ds')) ++ [d] := by rw [hm]; simp
    rw [this, List.getLast?_append]
    simp
    exact fun h => isDecimal_ne_plus hd h
  have hrw : rewriteToken R tok = m ++ rewriteToken R rest := by
    rw [hsplit]
    exact stringsReplace_prefix _ m rest hA hlast
  have hrest' : NoDigitHead (rewriteToken R rest) := by
    intro c hc
    match rest, hrest, hc with
    | [], _, hc => simp [rewriteToken, stringsReplace] at hc
    | [x], hrest, hc =>
      simp only [rewriteToken, stringsReplace_singleton] at hc
      exact hrest c hc
    | x :: y :: rest', hrest, hc =>
      by_cases hxy : x = '+' ∧ y = 'A'
      · obtain ⟨rfl, rfl⟩ := hxy
        simp only [rewriteToken, stringsReplace_plusA] at hc
        simp at hc
        subst hc
        decide
      · have hstep : rewriteToken R (x :: y :: rest') = x :: rewriteToken R (y :: rest') := by
          by_cases hx : x = '+'
          · have hy : y ≠ 'A' := fun hy => hxy ⟨hx, hy⟩
            exact stringsReplace_cons_of_next_ne _ _ hy
          · exact stringsReplace_cons_of_ne_plus _ _ hx
        rw [hstep] at hc
        simp at hc
        subst hc
        exact hrest x rfl
  rw [hrw, hm]
  have := @findBlk_of_shape hx ds (rewriteToken R rest) hlen hall hne hds hrest'
  simpa using this

/-! ### The whole manifest -/

theorem filterMap_gap (w : List Char) :
    (w.map Segment.gap).filterMap Segment.matched = [] := by
  induction w with
  | nil => rfl
  | cons c w ih => rw [List.map_cons, List.filterMap_cons]; exact ih

theorem blockCalls_run {u : List Char} (v : List Char) (hu : NoSpace u) :
    replaceAllCalls matchBlockToken (u ++ v) = replaceAllCalls matchBlockToken v := by
  simp only [replaceAllCalls, blockSegments_run v hu, List.filterMap_append]
  rw [filterMap_gap]; rfl

theorem blockCalls_token {u v : List Char} (hu : NoSpace u) (hv : Blocked v)
    (h : (matchBlockToken (' ' :: u)).isSome = true) :
    replaceAllCalls matchBlockToken (' ' :: (u ++ v)) =
      (' ' :: u) :: replaceAllCalls matchBlockToken v := by
  simp only [replaceAllCalls, blockSegments_token hu hv, h, if_true]
  rfl

theorem rewriteToken_space {R u : List Char} (hR : NoSpace R) (hu : NoSpace u) :
    ∃ u', rewriteToken R (' ' :: u) = ' ' :: u' ∧ NoSpace u' := by
  refine ⟨rewriteToken R u, stringsReplace_cons_of_ne_plus _ _ (by decide), ?_⟩
  apply stringsReplace_noSpace _ u.length u (Nat.le_refl _) hu
  intro c hc
  simp only [List.cons_append, List.nil_append, List.mem_cons, List.mem_append,
    List.mem_singleton, List.not_mem_nil, or_false] at hc
  rcases hc with rfl | rfl | hc | rfl
  · decide
  · decide
  · exact hR c hc
  · decide

/-- What `rewriteManifest` makes of one token: the token itself, or its
rewritten form, which is again a blank followed by a blank-free run and has
the same `hash+size` prefix. -/
theorem rewritten_token {R u : List Char} (hR : NoSpace R) (hu : NoSpace u)
    (hsized : (matchBlockToken (' ' :: u)).isSome = true → (findBlk (' ' :: u)).isSome = true) :
    ∃ u', (if (matchBlockToken (' ' :: u)).isSome then rewriteToken R (' ' :: u) else ' ' :: u)
        = ' ' :: u' ∧ NoSpace u' ∧ pdhWrite (' ' :: u') = pdhWrite (' ' :: u) := by
  by_cases h : (matchBlockToken (' ' :: u)).isSome = true
  · obtain ⟨u', hu', hns⟩ := rewriteToken_space hR hu
    refine ⟨u', by simp [h, hu'], hns, ?_⟩
    obtain ⟨m, hm⟩ := Option.isSome_iff_exists.mp (hsized h)
    have hm' := rewriteToken_sized (R := R) hm
    rw [hu'] at hm'
    simp [pdhWrite, hm, hm']
  · exact ⟨u, by simp [h], hu, rfl⟩

theorem rewriteManifestBytes_blocked {v : List Char} (R : List Char) (hv : Blocked v) :
    Blocked (rewriteManifestBytes v R) := by
  rcases hv with rfl | ⟨w, rfl⟩
  · rw [rewriteManifestBytes_nil]; exact Or.inl rfl
  · obtain ⟨u, v', rfl, hu, hv'⟩ := exists_noSpace_blocked w
    rw [rewriteManifestBytes_token R hu hv']
    by_cases h : (matchBlockToken (' ' :: u)).isSome = true
    · simp only [h, if_true]
      have : rewriteToken R (' ' :: u) = ' ' :: rewriteToken R u :=
        stringsReplace_cons_of_ne_plus _ _ (by decide)
      rw [this]
      exact Or.inr ⟨_, rfl⟩
    · simp only [h]
      exact Or.inr ⟨_, rfl⟩

/-- The canonical form is unchanged by `rewriteManifest` when the remote id
has no blank and every block token has a size. -/
theorem pdhInput_rewriteManifestBytes {R : List Char} (hR : NoSpace R) :
    ∀ (n : Nat) (s : List Char), s.length ≤ n →
      (∀ tok ∈ replaceAllCalls matchBlockToken s, (findBlk tok).isSome = true) →
      pdhInput (rewriteManifestBytes s R) = pdhInput s := by
  intro n
  induction n with
  | zero =>
    intro s hlen _
    have : s = [] := List.length_eq_zero.mp (Nat.le_zero.mp hlen)
    subst this
    rw [rewriteManifestBytes_nil]
  | succ n ih =>
    intro s hlen hs
    obtain ⟨u, v, rfl, hu, hv⟩ := exists_noSpace_blocked s
    rw [rewriteManifestBytes_run v R hu,
      pdhInput_run hu (rewriteManifestBytes_blocked R hv), pdhInput_run hu hv]
    congr 1
    rw [blockCalls_run v hu] at hs
    rcases hv with rfl | ⟨w, rfl⟩
    · rw [rewriteManifestBytes_nil]
    · obtain ⟨u1, v1, rfl, hu1, hv1⟩ := exists_noSpace_blocked w
      have hsized : (matchBlockToken (' ' :: u1)).isSome = true →
          (findBlk (' ' :: u1)).isSome = true := by
        intro h
        apply hs
        rw [blockCalls_token hu1 hv1 h]
        exact List.mem_cons_self _ _
      have hs1 : ∀ tok ∈ replaceAllCalls matchBlockToken v1, (findBlk tok).isSome = true := by
        intro tok htok
        apply hs
        by_cases h : (matchBlockToken (' ' :: u1)).isSome = true
        · rw [blockCalls_token hu1 hv1 h]
          exact List.mem_cons_of_mem _ htok
        · have : replaceAllCalls matchBlockToken (' ' :: (u1 ++ v1)) =
              replaceAllCalls matchBlockToken v1 := by
            have hf : (matchBlockToken (' ' :: u1)).isSome = false := by simpa using h
            simp only [replaceAllCalls, blockSegments_token hu1 hv1, hf, List.filterMap_append]
            rw [if_neg (by decide), filterMap_gap]; rfl
          rw [this]; exact htok
      have hlen1 : v1.length ≤ n := by
        simp at hlen; omega
      obtain ⟨u', hrw, hu', hpw⟩ := rewritten_token hR hu1 hsized
      rw [rewriteManifestBytes_token R hu1 hv1, hrw, List.cons_append,
        pdhInput_token hu' (rewriteManifestBytes_blocked R hv1), pdhInput_token hu1 hv1,
        hpw, ih v1 hlen1 hs1]

theorem pdhWrites_size (mt : List Char) :
    ((pdhWrites mt).map List.length).sum = (pdhInput mt).length := by
  simp [pdhInput, List.length_flatten]

/-- `portableDataHash` is a function of the canonical form. -/
theorem portableDataHash_eq (md5 : List Char → List Nat) (mt : String) :
    portableDataHash md5 mt =
      ⟨fmtHex (md5 (pdhInput mt.data)) ++ '+' :: (Nat.repr (pdhInput mt.data).length).data⟩ := by
  simp only [portableDataHash, pdhWrites_size]
  rfl

/-- Counterexample to C5: a block token whose `+A` hint follows the hash
directly, without a size, is written to the hash whole, so rewriting it for a
remote changes the portable data hash (the size part goes from 38 to 44),
whatever the digest function. -/
theorem portableDataHash_rewriteManifest_unsized :
    ¬ ∃ md5 : List Char → List Nat,
      portableDataHash md5 (rewriteManifest unsizedManifest "bbbbb") =
        portableDataHash md5 unsizedManifest := by
  rintro ⟨md5, h⟩
  have h1 : pdhInput (rewriteManifest unsizedManifest "bbbbb").data =
      " d41d8cd98f00b204e9800998ecf8427e+Rbbbbb-sig".data := by decide
  have h2 : pdhInput unsizedManifest.data = " d41d8cd98f00b204e9800998ecf8427e+Asig".data := by
    decide
  rw [portableDataHash_eq, portableDataHash_eq, h1, h2] at h
  have h3 := congrArg (fun s : String => s.data.getLast?) h
  have e1 : (Nat.repr (" d41d8cd98f00b204e9800998ecf8427e+Rbbbbb-sig".data).length).data
      = ['4', '4'] := by decide
  have e2 : (Nat.repr (" d41d8cd98f00b204e9800998ecf8427e+Asig".data).length).data
      = ['3', '8'] := by decide
  simp only [e1, e2, List.getLast?_append, List.getLast?_cons_cons, List.getLast?_singleton,
    Option.or_some] at h3
  exact absurd h3 (by decide)

/-- C5 (amended): for every remote id without a blank and every manifest
text in which each block token carries a decimal size right after the `+`,
rewriting the location hints for remote delivery leaves the portable data
hash unchanged. -/
theorem portableDataHash_rewriteManifest (md5 : List Char → List Nat)
    (mt remoteID : String) (hR : ' ' ∉ remoteID.data)
    (hM : ∀ tok ∈ blockTokens mt, isSized tok = true) :
    portableDataHash md5 (rewriteManifest mt remoteID) = portableDataHash md5 mt := by
  have hR' : NoSpace remoteID.data := fun c hc h => hR (h ▸ hc)
  have key := pdhInput_rewriteManifestBytes hR' mt.data.length mt.data (Nat.le_refl _) hM
  rw [portableDataHash_eq, portableDataHash_eq]
  simp only [rewriteManifest, key]

set_option maxRecDepth 4000 in
/-- Witness for C5 (amended): a manifest with a signed, sized block
locator. -/
theorem portableDataHash_rewriteManifest_witness :
    portableDataHash toyDigest (rewriteManifest signedManifest "bbbbb") =
      portableDataHash toyDigest signedManifest :=
  portableDataHash_rewriteManifest toyDigest signedManifest "bbbbb" (by decide) (by decide)

/-- A remote id with a blank splits the rewritten token in two, so the
condition on the remote id in the amended C5 cannot be dropped. -/
theorem rewriteManifest_blank_remote_changes_hash :
    ¬ ∃ md5 : List Char → List Nat,
      portableDataHash md5 (rewriteManifest signedManifest "b b") =
        portableDataHash md5 signedManifest := by
  rintro ⟨md5, h⟩
  have h1 : (pdhInput (rewriteManifest signedManifest "b b").data).length = 53 := by decide
  have h2 : (pdhInput signedManifest.data).length = 43 := by decide
  rw [portableDataHash_eq, portableDataHash_eq, h1, h2] at h
  have h3 := congrArg (fun s : String => s.data.reverse.take 2) h
  have e1 : (Nat.repr 53).data = ['5', '3'] := by decide
  have e2 : (Nat.repr 43).data = ['4', '3'] := by decide
  simp [e1, e2] at h3

/-! ## CollectionGet -/

theorem collectionGetCallback_of_ok (md5 : List Char → List Nat)
    (get : backend → Context → GetOptions → Collection × Option GoError)
    (options : GetOptions) (ctx : Context) (remoteID : String) (be : backend)
    (c : Collection) (hget : get be ctx options = (c, none)) :
    ((collectionGetCallback md5 get options ctx remoteID be).1 = none ↔
      (portableDataHash md5 c.ManifestText = options.UUID ∨
        HasPrefix options.UUID (portableDataHash md5 c.ManifestText ++ "+") = true)) ∧
    (¬ (portableDataHash md5 c.ManifestText = options.UUID ∨
        HasPrefix options.UUID (portableDataHash md5 c.ManifestText ++ "+") = true) →
      errStatus (collectionGetCallback md5 get options ctx remoteID be).1 = 502) := by
  have hb : (portableDataHash md5 c.ManifestText != options.UUID &&
      !HasPrefix options.UUID (portableDataHash md5 c.ManifestText ++ "+")) = true ↔
      ¬ (portableDataHash md5 c.ManifestText = options.UUID ∨
        HasPrefix options.UUID (portableDataHash md5 c.ManifestText ++ "+") = true) := by
    simp [not_or]
  unfold collectionGetCallback
  simp only [hget]
  split
  · rename_i h
    have hn := hb.mp h
    exact ⟨⟨fun h' => by simp at h', fun h' => absurd h' hn⟩, fun _ => rfl⟩
  · rename_i h
    have hacc : portableDataHash md5 c.ManifestText = options.UUID ∨
        HasPrefix options.UUID (portableDataHash md5 c.ManifestText ++ "+") = true :=
      Classical.byContradiction fun hn => h (hb.mpr hn)
    refine ⟨⟨fun _ => hacc, fun _ => ?_⟩, fun hn => absurd hacc hn⟩
    split <;> rfl

/-- C6: in a content-hash `CollectionGet`, a collection returned by a backend
is accepted exactly when the portable data hash of its manifest is the
requested identifier or the identifier continues it with `+`; otherwise the
attempt fails with status 502.  Hence, after a local 404, a remote with a
mismatching collection makes the whole call fail with 502 when no remote
succeeds, whatever the arrival order. -/
theorem collectionGet_pdh_integrity (conn : Conn) (md5 : List Char → List Nat)
    (get : backend → Context → GetOptions → Collection × Option GoError)
    (ctx : Context) (options : GetOptions) (arrival publish : List (String × backend))
    (hlen : options.UUID.length ≠ 27) (hperm : arrival.Perm conn.remotes) :
    (∀ (remoteID : String) (be : backend) (c : Collection), get be ctx options = (c, none) →
      ((collectionGetCallback md5 get options ctx remoteID be).1 = none ↔
        (portableDataHash md5 c.ManifestText = options.UUID ∨
          HasPrefix options.UUID (portableDataHash md5 c.ManifestText ++ "+") = true)) ∧
      (¬ (portableDataHash md5 c.ManifestText = options.UUID ∨
          HasPrefix options.UUID (portableDataHash md5 c.ManifestText ++ "+") = true) →
        errStatus (collectionGetCallback md5 get options ctx remoteID be).1 = 502)) ∧
    (errStatus (get conn.localBackend ctx options).2 = 404 →
      (∃ p ∈ conn.remotes, ∃ c, get p.2 ctx options = (c, none) ∧
        ¬ (portableDataHash md5 c.ManifestText = options.UUID ∨
          HasPrefix options.UUID (portableDataHash md5 c.ManifestText ++ "+") = true)) →
      (∀ p ∈ conn.remotes, (collectionGetCallback md5 get options ctx p.1 p.2).1 ≠ none) →
      errStatus (conn.CollectionGet md5 get ctx options arrival publish).err = 502) := by
  refine ⟨fun remoteID be c hget =>
    collectionGetCallback_of_ok md5 get options ctx remoteID be c hget, ?_⟩
  intro hlocal ⟨p, hp, c, hget, hbad⟩ hnone
  have hcb : (collectionGetCallback md5 get options ctx "" conn.localBackend).1 =
      (get conn.localBackend ctx options).2 := by
    unfold collectionGetCallback
    have hne := errStatus_eq_404_ne_none hlocal
    match hg : get conn.localBackend ctx options with
    | (c', some err) => rfl
    | (c', none) => rw [hg] at hne; exact absurd rfl hne
  have hlocal' : errStatus ((fun ctx remoteID be =>
      (collectionGetCallback md5 get options ctx remoteID be).1) ctx "" conn.localBackend)
      = 404 := by
    show errStatus (collectionGetCallback md5 get options ctx "" conn.localBackend).1 = 404
    rw [hcb]; exact hlocal
  have herr := tryLocalThenRemotes_err_of_local_404 conn ctx
    (fun ctx remoteID be => (collectionGetCallback md5 get options ctx remoteID be).1)
    arrival hperm hlocal'
  have h502 := (collectionGetCallback_of_ok md5 get options ctx p.1 p.2 c hget).2 hbad
  rw [if_neg (by
        rintro ⟨q, hq, hqn⟩
        exact hnone q hq hqn),
      if_neg (by
        intro hall
        have := hall p hp
        simp only [h502] at this
        exact absurd this (by decide))] at herr
  unfold Conn.CollectionGet
  rw [if_neg hlen]
  simp only [herr]
  rfl

set_option maxRecDepth 4000 in
/-- Witness for C6: local and `ccccc` answer 404, `bbbbb` returns a
collection whose content is not the one asked for; the call fails with
502. -/
theorem collectionGet_pdh_integrity_witness :
    errStatus (twoRemotes.CollectionGet toyDigest getMismatch ⟨none⟩ ⟨emptyPDH, [], false⟩
      twoRemotes.remotes twoRemotes.remotes).err = 502 :=
  (collectionGet_pdh_integrity twoRemotes toyDigest getMismatch ⟨none⟩ ⟨emptyPDH, [], false⟩
      twoRemotes.remotes twoRemotes.remotes (by decide) (List.Perm.refl _)).2
    (by decide)
    ⟨("bbbbb", backend.rpc "bbbbb" "https" "bbbbb.example" false), by decide,
      ⟨"bbbbb-4zz18-0123456789abcde", "", ". d41d8cd98f00b204e9800998ecf8427e+0 0:0:f\n"⟩,
      rfl, by decide⟩
    (by decide)

/-! ## Token salter -/

theorem saltLoop_ok (SaltToken : String → String → String × Option GoError)
    (current : Context → GetOptions → APIClientAuthorization × Option GoError)
    (remoteID : String) (ctx : Context) (T : List String) :
    ∀ (acc : List String) (log : List Context),
      (saltLoop SaltToken current remoteID ctx T acc log).err = none →
      ∃ out, (saltLoop SaltToken current remoteID ctx T acc log).tokens = acc ++ out ∧
        List.Forall₂ (fun t o => (saltOne SaltToken current remoteID ctx t).out = .ok o) T out := by
  induction T with
  | nil =>
    intro acc log _
    exact ⟨[], by simp [saltLoop], List.Forall₂.nil⟩
  | cons t rest ih =>
    intro acc log h
    unfold saltLoop at h ⊢
    match hstep : saltOne SaltToken current remoteID ctx t with
    | { out := .ok o, lookups := l } =>
      simp only [hstep] at h ⊢
      obtain ⟨out, hout, hall⟩ := ih (acc ++ [o]) (log ++ l) h
      exact ⟨o :: out, by simp [hout], List.Forall₂.cons (by rw [hstep]) hall⟩
    | { out := .error e, lookups := l } =>
      simp only [hstep] at h
      simp at h

theorem forall₂_getElem? {α β : Type} {R : α → β → Prop} {xs : List α} {ys : List β}
    (h : List.Forall₂ R xs ys) :
    ∀ (i : Nat) (x : α), xs[i]? = some x → ∃ y, ys[i]? = some y ∧ R x y := by
  induction h with
  | nil => intro i x hx; simp at hx
  | cons hxy _ ih =>
    intro i x hx
    cases i with
    | zero =>
      simp at hx
      subst hx
      exact ⟨_, by simp, hxy⟩
    | succ i =>
      simp at hx
      simpa using ih i x hx

/-- The token emitted for an incoming token, by the kind of answer of
`SaltToken`. -/
theorem saltOne_ok (SaltToken : String → String → String × Option GoError)
    (current : Context → GetOptions → APIClientAuthorization × Option GoError)
    (remoteID : String) (ctx : Context) (t o : String)
    (h : (saltOne SaltToken current remoteID ctx t).out = .ok o) :
    (∀ s, SaltToken t remoteID = (s, none) → o = s) ∧
    (∀ s, SaltToken t remoteID = (s, some GoError.ErrSalted) → o = t) ∧
    (∀ s, SaltToken t remoteID = (s, some GoError.ErrObsoleteToken) →
      (resolveObsolete SaltToken current remoteID ctx t).out = .ok o) ∧
    ((SaltToken t remoteID).2 = none ∨ (SaltToken t remoteID).2 = some GoError.ErrSalted ∨
      (SaltToken t remoteID).2 = some GoError.ErrObsoleteToken) := by
  unfold saltOne at h
  split at h
  · rename_i salted hs
    simp only [Except.ok.injEq] at h
    subst h
    refine ⟨fun s hs' => ?_, fun s hs' => ?_, fun s hs' => ?_, Or.inl (by rw [hs])⟩
    · rw [hs] at hs'; exact (Prod.mk.inj hs').1
    · rw [hs] at hs'; simp at hs'
    · rw [hs] at hs'; simp at hs'
  · rename_i x hs
    simp only [Except.ok.injEq] at h
    subst h
    refine ⟨fun s hs' => ?_, fun _ _ => rfl, fun s hs' => ?_, Or.inr (Or.inl (by rw [hs]))⟩
    · rw [hs] at hs'; simp at hs'
    · rw [hs] at hs'; simp at hs'
  · rename_i x hs
    refine ⟨fun s hs' => ?_, fun s hs' => ?_, fun _ _ => h, Or.inr (Or.inr (by rw [hs]))⟩
    · rw [hs] at hs'; simp at hs'
    · rw [hs] at hs'; simp at hs'
  · simp at h

/-- C7: when the salter bound to a remote returns without error on the
incoming tokens `T`, it returns as many tokens as `T` holds, in the order of
`T`: at each position the salted token when salting succeeds, the incoming
token itself when it is reported as already salted, and otherwise the outcome
of the obsolete-token resolution of the incoming token. -/
theorem saltedTokenProvider_order (SaltToken : String → String → String × Option GoError)
    (current : Context → GetOptions → APIClientAuthorization × Option GoError)
    (remoteID : String) (ctx : Context) (T : List String)
    (hcreds : ctx.creds = some T)
    (hok : (saltedTokenProvider SaltToken current remoteID ctx).err = none) :
    (saltedTokenProvider SaltToken current remoteID ctx).tokens.length = T.length ∧
    ∀ (i : Nat) (t : String), T[i]? = some t →
      ∃ o, (saltedTokenProvider SaltToken current remoteID ctx).tokens[i]? = some o ∧
        (∀ s, SaltToken t remoteID = (s, none) → o = s) ∧
        (∀ s, SaltToken t remoteID = (s, some GoError.ErrSalted) → o = t) ∧
        (∀ s, SaltToken t remoteID = (s, some GoError.ErrObsoleteToken) →
          (resolveObsolete SaltToken current remoteID ctx t).out = .ok o) ∧
        ((SaltToken t remoteID).2 = none ∨ (SaltToken t remoteID).2 = some GoError.ErrSalted ∨
          (SaltToken t remoteID).2 = some GoError.ErrObsoleteToken) := by
  unfold saltedTokenProvider at hok ⊢
  simp only [hcreds] at hok ⊢
  obtain ⟨out, hout, hall⟩ := saltLoop_ok SaltToken current remoteID ctx T [] [] hok
  rw [hout, List.nil_append]
  refine ⟨hall.length_eq.symm, fun i t hi => ?_⟩
  obtain ⟨o, ho, hstep⟩ := forall₂_getElem? hall i t hi
  exact ⟨o, ho, saltOne_ok SaltToken current remoteID ctx t o hstep⟩

/-- Witness for C7: a plain, a salted, an obsolete and an expired obsolete
token come out in that order. -/
theorem saltedTokenProvider_order_witness :
    (saltedTokenProvider toySalt toyCurrent "bbbbb"
      ⟨some ["v2/u/s", "salted:x", "legacy", "expired"]⟩).tokens.length = 4 :=
  (saltedTokenProvider_order toySalt toyCurrent "bbbbb"
    ⟨some ["v2/u/s", "salted:x", "legacy", "expired"]⟩
    ["v2/u/s", "salted:x", "legacy", "expired"] rfl (by decide)).1

/-- Counterexample to C10: credentials that are attached but hold no token
make the salter return an empty list and no error. -/
theorem saltedTokenProvider_empty_credentials :
    (saltedTokenProvider toySalt toyCurrent "bbbbb" ⟨some []⟩).err = none ∧
    (saltedTokenProvider toySalt toyCurrent "bbbbb" ⟨some []⟩).tokens = [] := by
  decide

/-- C10 (amended): on a context with no credentials attached the salter fails
with the error "no token provided" and returns no token list; on credentials
with an empty token list it returns an empty list and no error. -/
theorem saltedTokenProvider_no_credentials
    (SaltToken : String → String → String × Option GoError)
    (current : Context → GetOptions → APIClientAuthorization × Option GoError)
    (remoteID : String) :
    ((saltedTokenProvider SaltToken current remoteID ⟨none⟩).err =
        some (GoError.plain "no token provided") ∧
      (GoError.plain "no token provided").Error = "no token provided" ∧
      (saltedTokenProvider SaltToken current remoteID ⟨none⟩).tokens = [] ∧
      (saltedTokenProvider SaltToken current remoteID ⟨none⟩).lookups = []) ∧
    ((saltedTokenProvider SaltToken current remoteID ⟨some []⟩).err = none ∧
      (saltedTokenProvider SaltToken current remoteID ⟨some []⟩).tokens = []) :=
  ⟨⟨rfl, rfl, rfl, rfl⟩, rfl, rfl⟩

/-! ## User mirror -/

theorem lookup_mapSet {α : Type} (m : List (String × α)) (k : String) (v : α) (k' : String) :
    (mapSet m k v).lookup k' = if k' = k then some v else m.lookup k' := by
  induction m with
  | nil =>
    by_cases h : k' = k
    · simp [mapSet, List.lookup, h]
    · have : (k' == k) = false := by simpa using h
      simp [mapSet, List.lookup, h, this]
  | cons p rest ih =>
    obtain ⟨k₀, v₀⟩ := p
    by_cases h₀ : k₀ = k
    · subst h₀
      by_cases h : k' = k₀
      · simp [mapSet, List.lookup, h]
      · have : (k' == k₀) = false := by simpa using h
        simp [mapSet, List.lookup, h, this]
    · by_cases h : k' = k
      · subst h
        have : (k' == k₀) = false := by simpa using fun e => h₀ e.symm
        simp [mapSet, List.lookup, h₀, this, ih]
      · by_cases h1 : k' = k₀
        · subst h1
          simp [mapSet, List.lookup, h₀, h]
        · have : (k' == k₀) = false := by simpa using h1
          simp [mapSet, List.lookup, h₀, this, ih, h]

theorem lookup_filter_key {α : Type} (f : String → Bool) (l : List (String × α)) (k : String) :
    (l.filter fun p => f p.1).lookup k = if f k = true then l.lookup k else none := by
  induction l with
  | nil => simp
  | cons p rest ih =>
    obtain ⟨k₀, v₀⟩ := p
    by_cases hk : k = k₀
    · subst hk
      by_cases hf : f k = true
      · simp [List.filter, hf, List.lookup]
      · have hf' : f k = false := by simpa using hf
        simp [List.filter, hf', List.lookup, ih]
    · have hne : (k == k₀) = false := by simpa using hk
      by_cases hf : f k₀ = true
      · simp [List.filter, hf, List.lookup, hne, ih]
      · have hf' : f k₀ = false := by simpa using hf
        simp [List.filter, hf', List.lookup, hne, ih]

theorem lookup_selectStep (allFields acc : List (String × JSONValue)) (s k : String) :
    (selectStep allFields acc s).lookup k =
      if k = s ∧ cachedFromLoginCluster s = true ∧ (allFields.lookup s).isSome = true
        then allFields.lookup s else acc.lookup k := by
  unfold selectStep
  cases hs : allFields.lookup s with
  | none => simp
  | some v =>
    by_cases hc : cachedFromLoginCluster s = true
    · by_cases hk : k = s
      · simp [hc, hk, lookup_mapSet]
      · simp [hc, hk, lookup_mapSet]
    · simp [hc]

theorem lookup_select_fold (allFields : List (String × JSONValue)) (select : List String) :
    ∀ (acc : List (String × JSONValue)) (k : String),
      (select.foldl (selectStep allFields) acc).lookup k =
      if cachedFromLoginCluster k = true ∧ k ∈ select ∧ (allFields.lookup k).isSome = true
        then allFields.lookup k else acc.lookup k := by
  induction select with
  | nil => intro acc k; simp
  | cons s rest ih =>
    intro acc k
    rw [List.foldl_cons, ih, lookup_selectStep]
    by_cases hk : k = s
    · subst hk
      by_cases hc : cachedFromLoginCluster k = true <;>
        by_cases hsome : (allFields.lookup k).isSome = true <;>
        by_cases hmem : k ∈ rest <;> simp [hc, hsome, hmem]
    · by_cases hc : cachedFromLoginCluster k = true <;>
        by_cases hsome : (allFields.lookup k).isSome = true <;>
        by_cases hmem : k ∈ rest <;> simp [hk, hc, hsome, hmem]

/-- The projection of one record, key by key. -/
theorem mirrorUpdates_lookup (select : List String) (allFields : List (String × JSONValue))
    (k : String) :
    (mirrorUpdates select allFields).lookup k =
      if cachedFromLoginCluster k = true ∧ (select = [] ∨ k ∈ select)
        then allFields.lookup k else none := by
  unfold mirrorUpdates
  cases select with
  | nil =>
    simp only [List.length_nil, gt_iff_lt, Nat.lt_irrefl, if_false, true_or, and_true]
    exact lookup_filter_key cachedFromLoginCluster allFields k
  | cons s rest =>
    rw [if_pos (by simp), lookup_select_fold]
    simp only [List.lookup, reduceCtorEq, false_or]
    by_cases hc : cachedFromLoginCluster k = true
    · by_cases hmem : k ∈ s :: rest
      · cases h : allFields.lookup k <;> simp [hc, hmem]
      · simp [hc, hmem]
    · simp [hc]

theorem withTimestamps_UUID (now : Nat) (user : User) :
    (withTimestamps now user).UUID = user.UUID := by
  unfold withTimestamps
  by_cases h1 : user.ModifiedAt = 0 <;> by_cases h2 : user.CreatedAt = 0 <;> simp [h1, h2]

theorem lookup_mirrorStep (id : String) (now : Nat) (select : List String)
    (acc : List (String × List (String × JSONValue))) (user : User) (uuid : String) :
    (mirrorStep id now select acc user).lookup uuid =
      if HasPrefix user.UUID id = true ∧ uuid = user.UUID
        then some (mirrorUpdates select (withTimestamps now user).allFields)
        else acc.lookup uuid := by
  unfold mirrorStep
  by_cases hp : HasPrefix user.UUID id = true
  · simp only [hp, Bool.not_true, Bool.false_eq_true, if_false, true_and, lookup_mapSet,
      withTimestamps_UUID]
  · simp [hp]

/-- Every entry of the batch is the projection of a mirrored record with that
uuid, and every mirrored record has an entry. -/
theorem mirrorBatch_lookup (id : String) (now : Nat) (select : List String)
    (items : List User) :
    ∀ (acc : List (String × List (String × JSONValue))),
      (∀ uuid m, (items.foldl (mirrorStep id now select) acc).lookup uuid = some m →
        acc.lookup uuid = some m ∨
        ∃ user ∈ items, HasPrefix user.UUID id = true ∧ user.UUID = uuid ∧
          m = mirrorUpdates select (withTimestamps now user).allFields) ∧
      (∀ user ∈ items, HasPrefix user.UUID id = true →
        ∃ m, (items.foldl (mirrorStep id now select) acc).lookup user.UUID = some m) ∧
      (∀ uuid m, acc.lookup uuid = some m →
        ∃ m', (items.foldl (mirrorStep id now select) acc).lookup uuid = some m') := by
  induction items with
  | nil =>
    intro acc
    exact ⟨fun uuid m h => Or.inl h, fun user hu => by simp at hu, fun uuid m h => ⟨m, h⟩⟩
  | cons u rest ih =>
    intro acc
    obtain ⟨h1, h2, h3⟩ := ih (mirrorStep id now select acc u)
    refine ⟨?_, ?_, ?_⟩
    · intro uuid m hm
      rw [List.foldl_cons] at hm
      rcases h1 uuid m hm with h | ⟨user, hmem, hp, hid, hproj⟩
      · rw [lookup_mirrorStep] at h
        split at h
        · rename_i hc
          right
          exact ⟨u, List.mem_cons_self _ _, hc.1, hc.2.symm, (Option.some.inj h).symm⟩
        · exact Or.inl h
      · exact Or.inr ⟨user, List.mem_cons_of_mem _ hmem, hp, hid, hproj⟩
    · intro user hmem hp
      rw [List.foldl_cons]
      rcases List.mem_cons.mp hmem with rfl | hmem'
      · apply h3 user.UUID (mirrorUpdates select (withTimestamps now user).allFields)
        rw [lookup_mirrorStep, if_pos ⟨hp, rfl⟩]
      · exact h2 user hmem' hp
    · intro uuid m hm
      rw [List.foldl_cons]
      by_cases hc : HasPrefix u.UUID id = true ∧ uuid = u.UUID
      · apply h3 uuid (mirrorUpdates select (withTimestamps now u).allFields)
        rw [lookup_mirrorStep, if_pos hc]
      · apply h3 uuid m
        rw [lookup_mirrorStep, if_neg hc]
        exact hm

theorem jsonMarshal_ok (user : User) (h : (jsonMarshal user).2 = none) :
    (jsonMarshal user).1 = user.allFields := by
  unfold jsonMarshal at h ⊢
  split
  · rename_i err hc
    rw [hc] at h
    simp at h
  · rename_i hc
    split
    · rename_i err hm
      rw [hc] at h
      simp only [hm] at h
      simp at h
    · rfl

/-- A round of the loop over the upstream items: a user of another cluster is
skipped, a mirrored record that cannot be encoded ends the loop with an
encoding error, any other mirrored record gets its entry. -/
theorem mirrorRound_eq (id : String) (now : Nat) (select : List String)
    (updates : List (String × List (String × JSONValue))) (user : User) :
    (HasPrefix user.UUID id = false → mirrorRound id now select updates user = .ok updates) ∧
    (HasPrefix user.UUID id = true → (jsonMarshal (withTimestamps now user)).2 = none →
      mirrorRound id now select updates user = .ok (mirrorStep id now select updates user)) ∧
    (HasPrefix user.UUID id = true → ∀ je, (jsonMarshal (withTimestamps now user)).2 = some je →
      mirrorRound id now select updates user = .error (GoError.plain
        ("error encoding user record from remote response: " ++ je.Error))) := by
  refine ⟨?_, ?_, ?_⟩
  · intro hp
    unfold mirrorRound
    simp [hp]
  · intro hp hm
    have hfields := jsonMarshal_ok _ hm
    unfold mirrorRound mirrorStep
    simp only [hp, Bool.not_true, Bool.false_eq_true, if_false]
    rcases hj : jsonMarshal (withTimestamps now user) with ⟨buf, err⟩
    rw [hj] at hm hfields
    simp only at hm hfields
    subst hm
    subst hfields
    rfl
  · intro hp je hm
    unfold mirrorRound
    simp only [hp, Bool.not_true, Bool.false_eq_true, if_false]
    rcases hj : jsonMarshal (withTimestamps now user) with ⟨buf, err⟩
    rw [hj] at hm
    simp only at hm
    subst hm
    rfl

/-- When every mirrored record can be encoded, the loop runs to its end and
builds the batch round by round. -/
theorem mirrorLoop_ok (id : String) (now : Nat) (select : List String) (items : List User)
    (acc : List (String × List (String × JSONValue)))
    (h : ∀ user ∈ items, HasPrefix user.UUID id = true →
      (jsonMarshal (withTimestamps now user)).2 = none) :
    mirrorLoop id now select items acc = .ok (items.foldl (mirrorStep id now select) acc) := by
  induction items generalizing acc with
  | nil => rfl
  | cons u rest ih =>
    have hrest : ∀ user ∈ rest, HasPrefix user.UUID id = true →
        (jsonMarshal (withTimestamps now user)).2 = none :=
      fun user hu => h user (List.mem_cons_of_mem _ hu)
    rw [mirrorLoop, List.foldl_cons]
    cases hp : HasPrefix u.UUID id with
    | false =>
      have hstep : mirrorStep id now select acc u = acc := by
        unfold mirrorStep
        simp [hp]
      rw [(mirrorRound_eq id now select acc u).1 hp, hstep]
      exact ih acc hrest
    | true =>
      rw [(mirrorRound_eq id now select acc u).2.1 hp (h u (List.mem_cons_self _ _) hp)]
      exact ih _ hrest

/-- When some mirrored record cannot be encoded, the loop ends with the
encoding error of such a record. -/
theorem mirrorLoop_error (id : String) (now : Nat) (select : List String) (items : List User)
    (acc : List (String × List (String × JSONValue)))
    (h : ∃ user ∈ items, HasPrefix user.UUID id = true ∧
      (jsonMarshal (withTimestamps now user)).2 ≠ none) :
    ∃ user ∈ items, ∃ je, HasPrefix user.UUID id = true ∧
      (jsonMarshal (withTimestamps now user)).2 = some je ∧
      mirrorLoop id now select items acc = .error (GoError.plain
        ("error encoding user record from remote response: " ++ je.Error)) := by
  induction items generalizing acc with
  | nil =>
    obtain ⟨user, hu, -⟩ := h
    simp at hu
  | cons u rest ih =>
    rw [mirrorLoop]
    cases hp : HasPrefix u.UUID id with
    | false =>
      rw [(mirrorRound_eq id now select acc u).1 hp]
      have hrest : ∃ user ∈ rest, HasPrefix user.UUID id = true ∧
          (jsonMarshal (withTimestamps now user)).2 ≠ none := by
        obtain ⟨user, hu, hpu, hne⟩ := h
        rcases List.mem_cons.mp hu with rfl | hu'
        · rw [hp] at hpu
          exact absurd hpu (by simp)
        · exact ⟨user, hu', hpu, hne⟩
      obtain ⟨user, hu, je, hpu, hje, hloop⟩ := ih acc hrest
      exact ⟨user, List.mem_cons_of_mem _ hu, je, hpu, hje, hloop⟩
    | true =>
      cases hm : (jsonMarshal (withTimestamps now u)).2 with
      | some je =>
        rw [(mirrorRound_eq id now select acc u).2.2 hp je hm]
        exact ⟨u, List.mem_cons_self _ _, je, hp, hm, rfl⟩
      | none =>
        rw [(mirrorRound_eq id now select acc u).2.1 hp hm]
        have hrest : ∃ user ∈ rest, HasPrefix user.UUID id = true ∧
            (jsonMarshal (withTimestamps now user)).2 ≠ none := by
          obtain ⟨user, hu, hpu, hne⟩ := h
          rcases List.mem_cons.mp hu with rfl | hu'
          · exact absurd hm hne
          · exact ⟨user, hu', hpu, hne⟩
        obtain ⟨user, hu, je, hpu, hje, hloop⟩ := ih _ hrest
        exact ⟨user, List.mem_cons_of_mem _ hu, je, hpu, hje, hloop⟩

/-- `UserList` under a non-local login cluster when the login cluster fails:
its response and error are returned, and nothing else is called. -/
theorem userList_upstream_error (conn : Conn) (api : UserAPI) (now : Nat) (ctx : Context)
    (options : ListOptions)
    (hlogin : conn.cluster.LoginCluster ≠ "" ∧
      conn.cluster.LoginCluster ≠ conn.cluster.ClusterID)
    (e : GoError)
    (hup : (api.userList (conn.chooseBackend conn.cluster.LoginCluster) ctx options).2 =
      some e) :
    (conn.UserList api now ctx options).err = some e ∧
    (conn.UserList api now ctx options).resp =
      (api.userList (conn.chooseBackend conn.cluster.LoginCluster) ctx options).1 ∧
    (conn.UserList api now ctx options).listCalls =
      [conn.chooseBackend conn.cluster.LoginCluster] ∧
    (conn.UserList api now ctx options).batchCalls = [] := by
  unfold Conn.UserList
  simp only [hlogin, ne_eq, not_false_eq_true, and_self, if_true]
  rcases hres : api.userList (conn.chooseBackend conn.cluster.LoginCluster) ctx options
    with ⟨resp, err⟩
  rw [hres] at hup
  simp only at hup
  subst hup
  exact ⟨rfl, rfl, rfl, rfl⟩

/-- `UserList` under a non-local login cluster when the login cluster has
answered and some mirrored record cannot be encoded: the call fails with the
encoding error and the empty list, and no batch update is made. -/
theorem userList_unencoded (conn : Conn) (api : UserAPI) (now : Nat) (ctx : Context)
    (options : ListOptions)
    (hlogin : conn.cluster.LoginCluster ≠ "" ∧
      conn.cluster.LoginCluster ≠ conn.cluster.ClusterID)
    (hup : (api.userList (conn.chooseBackend conn.cluster.LoginCluster) ctx options).2 = none)
    (hbad : ∃ user ∈ (api.userList (conn.chooseBackend conn.cluster.LoginCluster) ctx
        options).1.Items,
      HasPrefix user.UUID conn.cluster.LoginCluster = true ∧
      (jsonMarshal (withTimestamps now user)).2 ≠ none) :
    (∃ user ∈ (api.userList (conn.chooseBackend conn.cluster.LoginCluster) ctx
        options).1.Items, ∃ je,
      HasPrefix user.UUID conn.cluster.LoginCluster = true ∧
      (jsonMarshal (withTimestamps now user)).2 = some je ∧
      (conn.UserList api now ctx options).err = some (GoError.plain
        ("error encoding user record from remote response: " ++ je.Error))) ∧
    (conn.UserList api now ctx options).resp = ⟨[], 0, 0, 0⟩ ∧
    (conn.UserList api now ctx options).listCalls =
      [conn.chooseBackend conn.cluster.LoginCluster] ∧
    (conn.UserList api now ctx options).batchCalls = [] := by
  obtain ⟨user, hu, je, hp, hje, hloop⟩ := mirrorLoop_error conn.cluster.LoginCluster now
    options.Select _ [] hbad
  unfold Conn.UserList
  simp only [hlogin, ne_eq, not_false_eq_true, and_self, if_true]
  rcases hres : api.userList (conn.chooseBackend conn.cluster.LoginCluster) ctx options
    with ⟨resp, err⟩
  rw [hres] at hup hu hloop
  simp only at hup hu hloop
  subst hup
  simp only [hloop]
  exact ⟨⟨user, hu, je, hp, hje, rfl⟩, trivial, trivial, trivial⟩

/-- `UserList` under a non-local login cluster when the login cluster has
answered and every mirrored record can be encoded: the batch built by the
loop is submitted when it has an entry, and the outcome of the call is the
outcome of that batch update. -/
theorem userList_encoded (conn : Conn) (api : UserAPI) (now : Nat) (ctx : Context)
    (options : ListOptions)
    (hlogin : conn.cluster.LoginCluster ≠ "" ∧
      conn.cluster.LoginCluster ≠ conn.cluster.ClusterID)
    (hup : (api.userList (conn.chooseBackend conn.cluster.LoginCluster) ctx options).2 = none)
    (henc : ∀ user ∈ (api.userList (conn.chooseBackend conn.cluster.LoginCluster) ctx
        options).1.Items,
      HasPrefix user.UUID conn.cluster.LoginCluster = true →
      (jsonMarshal (withTimestamps now user)).2 = none) :
    (conn.UserList api now ctx options).listCalls =
      [conn.chooseBackend conn.cluster.LoginCluster] ∧
    (conn.UserList api now ctx options).batchCalls =
      (if (mirrorBatch conn.cluster.LoginCluster now options.Select
          (api.userList (conn.chooseBackend conn.cluster.LoginCluster) ctx options).1.Items).length
          > 0 then
        [(conn.localBackend, NewContext ctx [conn.cluster.SystemRootToken],
          ⟨mirrorBatch conn.cluster.LoginCluster now options.Select
            (api.userList (conn.chooseBackend conn.cluster.LoginCluster) ctx
              options).1.Items⟩)]
      else []) ∧
    ((conn.UserList api now ctx options).batchCalls = [] →
      (conn.UserList api now ctx options).err = none ∧
      (conn.UserList api now ctx options).resp =
        (api.userList (conn.chooseBackend conn.cluster.LoginCluster) ctx options).1) ∧
    (∀ call ∈ (conn.UserList api now ctx options).batchCalls,
      (∀ e, (api.userBatchUpdate call.1 call.2.1 call.2.2).2 = some e →
        (conn.UserList api now ctx options).err =
          some (GoError.plain ("error updating local user records: " ++ e.Error)) ∧
        (conn.UserList api now ctx options).resp = ⟨[], 0, 0, 0⟩) ∧
      ((api.userBatchUpdate call.1 call.2.1 call.2.2).2 = none →
        (conn.UserList api now ctx options).err = none ∧
        (conn.UserList api now ctx options).resp =
          (api.userList (conn.chooseBackend conn.cluster.LoginCluster) ctx options).1)) := by
  have hloop := mirrorLoop_ok conn.cluster.LoginCluster now options.Select _ [] henc
  unfold Conn.UserList mirrorBatch
  simp only [hlogin, ne_eq, not_false_eq_true, and_self, if_true]
  rcases hres : api.userList (conn.chooseBackend conn.cluster.LoginCluster) ctx options
    with ⟨resp, err⟩
  rw [hres] at hup hloop
  simp only at hup hloop
  subst hup
  simp only [hloop]
  split
  · rcases hb : api.userBatchUpdate conn.localBackend
      (NewContext ctx [conn.cluster.SystemRootToken])
      ⟨resp.Items.foldl (mirrorStep conn.cluster.LoginCluster now options.Select) []⟩
      with ⟨r, berr⟩
    cases berr with
    | some e1 =>
      refine ⟨rfl, rfl, ?_, ?_⟩
      · intro h; simp at h
      · intro call hcall
        simp only [List.mem_singleton] at hcall
        subst hcall
        refine ⟨?_, ?_⟩
        · intro e he
          rw [hb] at he
          simp only [Option.some.injEq] at he
          subst he
          exact ⟨rfl, rfl⟩
        · intro h; rw [hb] at h; simp at h
    | none =>
      refine ⟨rfl, rfl, ?_, ?_⟩
      · intro h; simp at h
      · intro call hcall
        simp only [List.mem_singleton] at hcall
        subst hcall
        refine ⟨?_, ?_⟩
        · intro e he; rw [hb] at he; simp at he
        · intro _; exact ⟨rfl, rfl⟩
  · refine ⟨rfl, rfl, ?_, ?_⟩
    · intro _; exact ⟨rfl, rfl⟩
    · intro call hcall; simp at hcall

/-- Every mirrored record can be encoded, or one of them cannot. -/
theorem encoded_or_not (id : String) (now : Nat) (items : List User) :
    (∀ user ∈ items, HasPrefix user.UUID id = true →
      (jsonMarshal (withTimestamps now user)).2 = none) ∨
    (∃ user ∈ items, HasPrefix user.UUID id = true ∧
      (jsonMarshal (withTimestamps now user)).2 ≠ none) := by
  by_cases h : ∃ user ∈ items, HasPrefix user.UUID id = true ∧
      (jsonMarshal (withTimestamps now user)).2 ≠ none
  · exact Or.inr h
  · left
    intro user hu hp
    by_contra hne
    exact h ⟨user, hu, hp, hne⟩

/-- What `UserList` submits under a non-local login cluster: nothing, or one
batch holding `mirrorBatch` of the upstream items. -/
theorem userList_batchCalls (conn : Conn) (api : UserAPI) (now : Nat) (ctx : Context)
    (options : ListOptions)
    (hlogin : conn.cluster.LoginCluster ≠ "" ∧
      conn.cluster.LoginCluster ≠ conn.cluster.ClusterID) :
    ∀ call ∈ (conn.UserList api now ctx options).batchCalls,
      call.2.2.Updates = mirrorBatch conn.cluster.LoginCluster now options.Select
        (api.userList (conn.chooseBackend conn.cluster.LoginCluster) ctx options).1.Items := by
  intro call hcall
  cases hup : (api.userList (conn.chooseBackend conn.cluster.LoginCluster) ctx options).2 with
  | some e =>
    rw [(userList_upstream_error conn api now ctx options hlogin e hup).2.2.2] at hcall
    simp at hcall
  | none =>
    rcases encoded_or_not conn.cluster.LoginCluster now
      (api.userList (conn.chooseBackend conn.cluster.LoginCluster) ctx options).1.Items
      with henc | hbad
    · rw [(userList_encoded conn api now ctx options hlogin hup henc).2.1] at hcall
      split at hcall
      · simp only [List.mem_singleton] at hcall
        rw [hcall]
      · simp at hcall
    · rw [(userList_unencoded conn api now ctx options hlogin hup hbad).2.2.2] at hcall
      simp at hcall

/-- C8: in `UserList` under a non-local login cluster, every field map of the
submitted batch belongs to a mirrored upstream record with that uuid and holds
exactly the fields of that record that are marked as cached and, when
`select` is not empty, named in `select`; it holds no field that is not marked
as cached, in particular none of `uuid`, `owner_uuid`, `identity_url`,
`is_invited`, `full_name`; and every mirrored record has its field map in the
batch. -/
theorem userList_mirror_projection (conn : Conn) (api : UserAPI) (now : Nat) (ctx : Context)
    (options : ListOptions)
    (hlogin : conn.cluster.LoginCluster ≠ "" ∧
      conn.cluster.LoginCluster ≠ conn.cluster.ClusterID) :
    ∀ call ∈ (conn.UserList api now ctx options).batchCalls,
      (∀ uuid m, call.2.2.Updates.lookup uuid = some m →
        ∃ user ∈ (api.userList (conn.chooseBackend conn.cluster.LoginCluster) ctx options).1.Items,
          HasPrefix user.UUID conn.cluster.LoginCluster = true ∧ user.UUID = uuid ∧
          (∀ k, m.lookup k =
            if cachedFromLoginCluster k = true ∧ (options.Select = [] ∨ k ∈ options.Select)
              then (withTimestamps now user).allFields.lookup k else none) ∧
          (∀ k, cachedFromLoginCluster k = false → m.lookup k = none) ∧
          (∀ k ∈ ["uuid", "owner_uuid", "identity_url", "is_invited", "full_name"],
            m.lookup k = none)) ∧
      (∀ user ∈ (api.userList (conn.chooseBackend conn.cluster.LoginCluster) ctx options).1.Items,
        HasPrefix user.UUID conn.cluster.LoginCluster = true →
        ∃ m, call.2.2.Updates.lookup user.UUID = some m) := by
  intro call hcall
  rw [userList_batchCalls conn api now ctx options hlogin call hcall]
  obtain ⟨h1, h2, -⟩ := mirrorBatch_lookup conn.cluster.LoginCluster now options.Select
    (api.userList (conn.chooseBackend conn.cluster.LoginCluster) ctx options).1.Items []
  refine ⟨fun uuid m hm => ?_, fun user hu hp => h2 user hu hp⟩
  rcases h1 uuid m hm with h | ⟨user, hu, hp, hid, hproj⟩
  · simp at h
  · refine ⟨user, hu, hp, hid, ?_, ?_, ?_⟩
    · intro k
      rw [hproj]
      exact mirrorUpdates_lookup _ _ k
    · intro k hk
      rw [hproj, mirrorUpdates_lookup, if_neg]
      simp [hk]
    · intro k hk
      have hc : cachedFromLoginCluster k = false := by
        simp only [List.mem_cons, List.mem_singleton, List.not_mem_nil, or_false] at hk
        rcases hk with rfl | rfl | rfl | rfl | rfl <;> decide
      rw [hproj, mirrorUpdates_lookup, if_neg]
      simp [hc]

/-- Witness for C8: with `select = ["uuid", "email"]` one batch is submitted,
and the field map of the mirrored user holds `email` and not `uuid`. -/
theorem userList_mirror_projection_witness :
    (loginConn.UserList mirrorAPI 1000 ⟨some ["caller"]⟩ selectUuidEmail).batchCalls =
      [(backend.localdb, ⟨some ["systemroot"]⟩,
        ⟨[("zzzzz-tpzed-000000000000000", [("email", JSONValue.string "z@example.com")])]⟩)] ∧
    ∀ call ∈ (loginConn.UserList mirrorAPI 1000 ⟨some ["caller"]⟩ selectUuidEmail).batchCalls,
      ∃ m, call.2.2.Updates.lookup userZ.UUID = some m :=
  ⟨by decide, fun call hcall =>
    ((userList_mirror_projection loginConn mirrorAPI 1000 ⟨some ["caller"]⟩ selectUuidEmail
      (by decide)) call hcall).2 userZ (by decide) (by decide)⟩

/-! ## Token salter: obsolete tokens and errors -/

/-- The loop of the salter, one token at a time. -/
theorem saltLoop_cons (SaltToken : String → String → String × Option GoError)
    (current : Context → GetOptions → APIClientAuthorization × Option GoError)
    (remoteID : String) (ctx : Context) (t : String) (rest acc : List String)
    (log : List Context) :
    saltLoop SaltToken current remoteID ctx (t :: rest) acc log =
      match (saltOne SaltToken current remoteID ctx t).out with
      | .ok o => saltLoop SaltToken current remoteID ctx rest (acc ++ [o])
          (log ++ (saltOne SaltToken current remoteID ctx t).lookups)
      | .error e =>
        ⟨[], some e, log ++ (saltOne SaltToken current remoteID ctx t).lookups⟩ := by
  rw [saltLoop]
  match hstep : saltOne SaltToken current remoteID ctx t with
  | { out := .ok o, lookups := l } => rfl
  | { out := .error e, lookups := l } => rfl

/-- The lookups made during an error-free run, in the order of the incoming
tokens. -/
theorem saltLoop_lookups (SaltToken : String → String → String × Option GoError)
    (current : Context → GetOptions → APIClientAuthorization × Option GoError)
    (remoteID : String) (ctx : Context) (T : List String) :
    ∀ (acc : List String) (log : List Context),
      (saltLoop SaltToken current remoteID ctx T acc log).err = none →
      (saltLoop SaltToken current remoteID ctx T acc log).lookups =
        log ++ T.flatMap fun t => (saltOne SaltToken current remoteID ctx t).lookups := by
  induction T with
  | nil => intro acc log _; simp [saltLoop]
  | cons t rest ih =>
    intro acc log h
    rw [saltLoop_cons] at h ⊢
    cases hout : (saltOne SaltToken current remoteID ctx t).out with
    | ok o =>
      rw [hout] at h
      simp only [hout] at h ⊢
      rw [ih _ _ h]
      simp [List.flatMap_cons]
    | error e =>
      rw [hout] at h
      simp at h

/-- A failing run fails at its first token that cannot be emitted, with the
error of that token, and returns no tokens. -/
theorem saltLoop_err (SaltToken : String → String → String × Option GoError)
    (current : Context → GetOptions → APIClientAuthorization × Option GoError)
    (remoteID : String) (ctx : Context) (T : List String) :
    ∀ (acc : List String) (log : List Context) (e : GoError),
      (saltLoop SaltToken current remoteID ctx T acc log).err = some e ↔
      ∃ pre t post, T = pre ++ t :: post ∧
        (∀ x ∈ pre, ∃ o, (saltOne SaltToken current remoteID ctx x).out = .ok o) ∧
        (saltOne SaltToken current remoteID ctx t).out = .error e := by
  induction T with
  | nil =>
    intro acc log e
    simp [saltLoop]
  | cons t rest ih =>
    intro acc log e
    rw [saltLoop_cons]
    cases hout : (saltOne SaltToken current remoteID ctx t).out with
    | ok o =>
      simp only []
      rw [ih]
      constructor
      · rintro ⟨pre, x, post, hT, hpre, hx⟩
        refine ⟨t :: pre, x, post, by simp [hT], ?_, hx⟩
        intro y hy
        rcases List.mem_cons.mp hy with rfl | hy'
        · exact ⟨o, hout⟩
        · exact hpre y hy'
      · rintro ⟨pre, x, post, hT, hpre, hx⟩
        cases pre with
        | nil =>
          simp only [List.nil_append, List.cons.injEq] at hT
          rw [← hT.1, hout] at hx
          simp at hx
        | cons p pre =>
          simp only [List.cons_append, List.cons.injEq] at hT
          exact ⟨pre, x, post, hT.2, fun y hy => hpre y (List.mem_cons_of_mem _ hy), hx⟩
    | error e' =>
      simp only []
      constructor
      · intro h
        have : e' = e := by simpa using h
        subst this
        exact ⟨[], t, rest, rfl, by simp, hout⟩
      · rintro ⟨pre, x, post, hT, hpre, hx⟩
        cases pre with
        | nil =>
          simp only [List.nil_append, List.cons.injEq] at hT
          rw [← hT.1, hout] at hx
          simp only [Except.error.injEq] at hx
          simp [hx]
        | cons p pre =>
          simp only [List.cons_append, List.cons.injEq] at hT
          obtain ⟨o, ho⟩ := hpre p (List.mem_cons_self _ _)
          rw [← hT.1, hout] at ho
          simp at ho

theorem saltLoop_err_tokens (SaltToken : String → String → String × Option GoError)
    (current : Context → GetOptions → APIClientAuthorization × Option GoError)
    (remoteID : String) (ctx : Context) (T : List String) :
    ∀ (acc : List String) (log : List Context),
      (saltLoop SaltToken current remoteID ctx T acc log).err ≠ none →
      (saltLoop SaltToken current remoteID ctx T acc log).tokens = [] := by
  induction T with
  | nil => intro acc log h; simp [saltLoop] at h
  | cons t rest ih =>
    intro acc log h
    rw [saltLoop_cons] at h ⊢
    cases hout : (saltOne SaltToken current remoteID ctx t).out with
    | ok o =>
      rw [hout] at h
      exact ih _ _ h
    | error e => rfl

theorem resolveObsolete_lookups (SaltToken : String → String → String × Option GoError)
    (current : Context → GetOptions → APIClientAuthorization × Option GoError)
    (remoteID : String) (ctx : Context) (t : String) :
    (resolveObsolete SaltToken current remoteID ctx t).lookups = [NewContext ctx [t]] := by
  unfold resolveObsolete
  simp only []
  split
  · rfl
  · split
    · rfl
    · split <;> rfl

theorem saltOne_obsolete (SaltToken : String → String → String × Option GoError)
    (current : Context → GetOptions → APIClientAuthorization × Option GoError)
    (remoteID : String) (ctx : Context) (t : String)
    (hobs : (SaltToken t remoteID).2 = some GoError.ErrObsoleteToken) :
    saltOne SaltToken current remoteID ctx t =
      resolveObsolete SaltToken current remoteID ctx t := by
  rcases hs : SaltToken t remoteID with ⟨x, e⟩
  rw [hs] at hobs
  simp only at hobs
  subst hobs
  simp only [saltOne, hs]

theorem resolveObsolete_found (SaltToken : String → String → String × Option GoError)
    (current : Context → GetOptions → APIClientAuthorization × Option GoError)
    (remoteID : String) (ctx : Context) (t : String) (aca : APIClientAuthorization)
    (hcur : current (NewContext ctx [t]) ⟨"", [], false⟩ = (aca, none)) :
    (resolveObsolete SaltToken current remoteID ctx t).out =
      match SaltToken ("v2/" ++ aca.UUID ++ "/" ++ aca.APIToken) remoteID with
      | (salted, none) => .ok salted
      | (_, some e) => .error e := by
  unfold resolveObsolete
  simp only [hcur]
  rw [if_neg (by decide)]
  simp only [APIClientAuthorization.TokenV2]
  split <;> simp_all

theorem resolveObsolete_unauthorized (SaltToken : String → String → String × Option GoError)
    (current : Context → GetOptions → APIClientAuthorization × Option GoError)
    (remoteID : String) (ctx : Context) (t : String)
    (h401 : errStatus (current (NewContext ctx [t]) ⟨"", [], false⟩).2 = 401) :
    (resolveObsolete SaltToken current remoteID ctx t).out = .ok t := by
  unfold resolveObsolete
  simp only []
  rw [if_pos h401]

/-- The step of the salter fails exactly with the error that the spec's
wording assigns to the token. -/
theorem saltOne_error_iff (SaltToken : String → String → String × Option GoError)
    (current : Context → GetOptions → APIClientAuthorization × Option GoError)
    (remoteID : String) (ctx : Context) (t : String) (e : GoError) :
    (saltOne SaltToken current remoteID ctx t).out = .error e ↔
      abortError SaltToken current remoteID ctx t = some e := by
  rcases hs : SaltToken t remoteID with ⟨x, err⟩
  cases err with
  | none => simp [saltOne, abortError, hs]
  | some e₀ =>
    cases e₀ with
    | plain msg => simp [saltOne, abortError, hs]
    | http code msg => simp [saltOne, abortError, hs]
    | notFoundError => simp [saltOne, abortError, hs]
    | ErrSalted => simp [saltOne, abortError, hs]
    | ErrObsoleteToken =>
      rcases hc : current (NewContext ctx [t]) ⟨"", [], false⟩ with ⟨aca, err'⟩
      cases err' with
      | none =>
        have hout := resolveObsolete_found SaltToken current remoteID ctx t aca hc
        rcases hv : SaltToken ("v2/" ++ aca.UUID ++ "/" ++ aca.APIToken) remoteID with ⟨y, err''⟩
        rw [hv] at hout
        cases err'' with
        | none => simp [saltOne, abortError, hs, hc, hv, hout]
        | some e₁ => simp [saltOne, abortError, hs, hc, hv, hout]
      | some e₁ =>
        by_cases h401 : errStatus (some e₁) = 401
        · have hout := resolveObsolete_unauthorized SaltToken current remoteID ctx t
            (by rw [hc]; exact h401)
          simp [saltOne, abortError, hs, hc, hout, h401]
        · have hout : (resolveObsolete SaltToken current remoteID ctx t).out = .error e₁ := by
            unfold resolveObsolete
            simp only [hc]
            rw [if_neg h401]
          simp [saltOne, abortError, hs, hc, hout, h401]

theorem saltOne_ok_iff (SaltToken : String → String → String × Option GoError)
    (current : Context → GetOptions → APIClientAuthorization × Option GoError)
    (remoteID : String) (ctx : Context) (t : String) :
    (∃ o, (saltOne SaltToken current remoteID ctx t).out = .ok o) ↔
      abortError SaltToken current remoteID ctx t = none := by
  constructor
  · rintro ⟨o, ho⟩
    cases h : abortError SaltToken current remoteID ctx t with
    | none => rfl
    | some e =>
      rw [(saltOne_error_iff SaltToken current remoteID ctx t e).mpr h] at ho
      simp at ho
  · intro h
    cases hout : (saltOne SaltToken current remoteID ctx t).out with
    | ok o => exact ⟨o, rfl⟩
    | error e =>
      rw [(saltOne_error_iff SaltToken current remoteID ctx t e).mp hout] at h
      simp at h

theorem exists_first {α : Type} (p : α → Prop) (T : List α) (h : ∃ t ∈ T, p t) :
    ∃ pre t post, T = pre ++ t :: post ∧ (∀ x ∈ pre, ¬ p x) ∧ p t := by
  induction T with
  | nil => simp at h
  | cons a rest ih =>
    by_cases ha : p a
    · exact ⟨[], a, rest, rfl, by simp, ha⟩
    · obtain ⟨t, ht, hp⟩ := h
      rcases List.mem_cons.mp ht with rfl | ht'
      · exact absurd hp ha
      · obtain ⟨pre, x, post, hT, hpre, hx⟩ := ih ⟨t, ht', hp⟩
        refine ⟨a :: pre, x, post, by simp [hT], ?_, hx⟩
        intro y hy
        rcases List.mem_cons.mp hy with rfl | hy'
        · exact ha
        · exact hpre y hy'

/-- C11: for an incoming token that `SaltToken` reports as obsolete, the
salter calls the local backend's `APIClientAuthorizationCurrent` once, with a
context whose credentials hold exactly that token; when the call returns an
authorization with uuid `u` and api_token `s`, the token emitted is the
salted form of `"v2/" + u + "/" + s` for the remote, in a whole run at the
position of the incoming token. -/
theorem saltedTokenProvider_obsolete (SaltToken : String → String → String × Option GoError)
    (current : Context → GetOptions → APIClientAuthorization × Option GoError)
    (remoteID : String) (ctx : Context) (t : String)
    (hobs : (SaltToken t remoteID).2 = some GoError.ErrObsoleteToken) :
    ((saltOne SaltToken current remoteID ctx t).lookups = [NewContext ctx [t]] ∧
      (NewContext ctx [t]).creds = some [t]) ∧
    (∀ aca salted, current (NewContext ctx [t]) ⟨"", [], false⟩ = (aca, none) →
      SaltToken ("v2/" ++ aca.UUID ++ "/" ++ aca.APIToken) remoteID = (salted, none) →
      (saltOne SaltToken current remoteID ctx t).out = .ok salted) ∧
    (∀ (T : List String) (i : Nat), ctx.creds = some T → T[i]? = some t →
      (saltedTokenProvider SaltToken current remoteID ctx).err = none →
      NewContext ctx [t] ∈ (saltedTokenProvider SaltToken current remoteID ctx).lookups ∧
      ∀ aca salted, current (NewContext ctx [t]) ⟨"", [], false⟩ = (aca, none) →
        SaltToken ("v2/" ++ aca.UUID ++ "/" ++ aca.APIToken) remoteID = (salted, none) →
        (saltedTokenProvider SaltToken current remoteID ctx).tokens[i]? = some salted) := by
  have hone := saltOne_obsolete SaltToken current remoteID ctx t hobs
  have hfound : ∀ aca salted, current (NewContext ctx [t]) ⟨"", [], false⟩ = (aca, none) →
      SaltToken ("v2/" ++ aca.UUID ++ "/" ++ aca.APIToken) remoteID = (salted, none) →
      (saltOne SaltToken current remoteID ctx t).out = .ok salted := by
    intro aca salted hcur hsalt
    rw [hone, resolveObsolete_found SaltToken current remoteID ctx t aca hcur, hsalt]
  refine ⟨⟨?_, rfl⟩, hfound, ?_⟩
  · rw [hone, resolveObsolete_lookups]
  · intro T i hcreds hi hok
    unfold saltedTokenProvider at hok ⊢
    simp only [hcreds] at hok ⊢
    constructor
    · rw [saltLoop_lookups SaltToken current remoteID ctx T [] [] hok, List.nil_append,
        List.mem_flatMap]
      refine ⟨t, List.getElem?_mem hi, ?_⟩
      rw [hone, resolveObsolete_lookups]
      exact List.mem_singleton.mpr rfl
    · intro aca salted hcur hsalt
      obtain ⟨out, hout, hall⟩ := saltLoop_ok SaltToken current remoteID ctx T [] [] hok
      obtain ⟨o, ho, hstep⟩ := forall₂_getElem? hall i t hi
      rw [hfound aca salted hcur hsalt] at hstep
      rw [hout, List.nil_append, ho]
      simp only [Except.ok.injEq] at hstep
      rw [hstep]

/-- Witness for C11: the obsolete token `legacy` is looked up on its own and
comes out as the salted v2 token of the authorization found. -/
theorem saltedTokenProvider_obsolete_witness :
    (saltOne toySalt toyCurrent "bbbbb" ⟨some ["caller", "legacy"]⟩ "legacy").lookups =
        [⟨some ["legacy"]⟩] ∧
      (saltOne toySalt toyCurrent "bbbbb" ⟨some ["caller", "legacy"]⟩ "legacy").out =
        .ok "v2/aaaaa-gj3su-0123456789abcde/legacy~bbbbb" :=
  have h := saltedTokenProvider_obsolete toySalt toyCurrent "bbbbb"
    ⟨some ["caller", "legacy"]⟩ "legacy" (by decide)
  ⟨h.1.1, h.2.1 ⟨"aaaaa-gj3su-0123456789abcde", "legacy", "", []⟩ _ (by decide) (by decide)⟩

/-- C12: when the local lookup of an obsolete token fails with status 401, the
salter emits the token unchanged, does not give up on it, and goes on with the
remaining tokens; in an error-free run the token stands at its own
position. -/
theorem saltedTokenProvider_unauthorized
    (SaltToken : String → String → String × Option GoError)
    (current : Context → GetOptions → APIClientAuthorization × Option GoError)
    (remoteID : String) (ctx : Context) (t : String)
    (hobs : (SaltToken t remoteID).2 = some GoError.ErrObsoleteToken)
    (h401 : errStatus (current (NewContext ctx [t]) ⟨"", [], false⟩).2 = 401) :
    ((saltOne SaltToken current remoteID ctx t).out = .ok t ∧
      abortError SaltToken current remoteID ctx t = none) ∧
    (∀ (rest acc : List String) (log : List Context),
      saltLoop SaltToken current remoteID ctx (t :: rest) acc log =
        saltLoop SaltToken current remoteID ctx rest (acc ++ [t])
          (log ++ [NewContext ctx [t]])) ∧
    (∀ (T : List String) (i : Nat), ctx.creds = some T → T[i]? = some t →
      (saltedTokenProvider SaltToken current remoteID ctx).err = none →
      (saltedTokenProvider SaltToken current remoteID ctx).tokens[i]? = some t) := by
  have hone := saltOne_obsolete SaltToken current remoteID ctx t hobs
  have hout : (saltOne SaltToken current remoteID ctx t).out = .ok t := by
    rw [hone]; exact resolveObsolete_unauthorized SaltToken current remoteID ctx t h401
  refine ⟨⟨hout, (saltOne_ok_iff SaltToken current remoteID ctx t).mp ⟨t, hout⟩⟩, ?_, ?_⟩
  · intro rest acc log
    rw [saltLoop_cons, hout]
    simp only []
    rw [hone, resolveObsolete_lookups]
  · intro T i hcreds hi hok
    unfold saltedTokenProvider at hok ⊢
    simp only [hcreds] at hok ⊢
    obtain ⟨out, hout', hall⟩ := saltLoop_ok SaltToken current remoteID ctx T [] [] hok
    obtain ⟨o, ho, hstep⟩ := forall₂_getElem? hall i t hi
    rw [hout] at hstep
    simp only [Except.ok.injEq] at hstep
    rw [hout', List.nil_append, ho, hstep]

/-- Witness for C12: the token `expired` is refused with 401 by the local
backend; it is emitted as it came, between its neighbours. -/
theorem saltedTokenProvider_unauthorized_witness :
    (saltedTokenProvider toySalt toyCurrent "bbbbb"
      ⟨some ["v2/u/s", "expired", "salted:x"]⟩).tokens[1]? = some "expired" :=
  (saltedTokenProvider_unauthorized toySalt toyCurrent "bbbbb"
    ⟨some ["v2/u/s", "expired", "salted:x"]⟩ "expired" (by decide) (by decide)).2.2
    ["v2/u/s", "expired", "salted:x"] 1 rfl (by decide) (by decide)

/-- Counterexample to C13: on a context without credentials the salter returns
an error although there is no incoming token that could fail. -/
theorem saltedTokenProvider_error_without_token :
    (saltedTokenProvider toySalt toyCurrent "bbbbb" ⟨none⟩).err ≠ none ∧
    ¬ ∃ t ∈ (Context.mk none).creds.getD [],
      abortError toySalt toyCurrent "bbbbb" ⟨none⟩ t ≠ none := by
  constructor
  · decide
  · simp

/-- C13 (amended): when credentials are attached, the salter returns an error
exactly when, for some incoming token, `salt` fails with an error other than
already-salted or obsolete-form, or the lookup of an obsolete token fails with
a status other than 401, or salting the resolved v2 token fails; it then
returns no tokens, and the error is the one of the first such token in
incoming order.  Without credentials it returns the error "no token
provided". -/
theorem saltedTokenProvider_error_iff
    (SaltToken : String → String → String × Option GoError)
    (current : Context → GetOptions → APIClientAuthorization × Option GoError)
    (remoteID : String) (ctx : Context) (T : List String) (hcreds : ctx.creds = some T) :
    ((saltedTokenProvider SaltToken current remoteID ctx).err ≠ none ↔
      ∃ t ∈ T, abortError SaltToken current remoteID ctx t ≠ none) ∧
    ((saltedTokenProvider SaltToken current remoteID ctx).err ≠ none →
      (saltedTokenProvider SaltToken current remoteID ctx).tokens = []) ∧
    (∀ e, (saltedTokenProvider SaltToken current remoteID ctx).err = some e ↔
      ∃ pre t post, T = pre ++ t :: post ∧
        (∀ x ∈ pre, abortError SaltToken current remoteID ctx x = none) ∧
        abortError SaltToken current remoteID ctx t = some e) ∧
    (saltedTokenProvider SaltToken current remoteID ⟨none⟩).err =
      some (GoError.plain "no token provided") := by
  have hrun : saltedTokenProvider SaltToken current remoteID ctx =
      saltLoop SaltToken current remoteID ctx T [] [] := by
    unfold saltedTokenProvider
    simp only [hcreds]
  have hfirst : ∀ e, (saltedTokenProvider SaltToken current remoteID ctx).err = some e ↔
      ∃ pre t post, T = pre ++ t :: post ∧
        (∀ x ∈ pre, abortError SaltToken current remoteID ctx x = none) ∧
        abortError SaltToken current remoteID ctx t = some e := by
    intro e
    rw [hrun, saltLoop_err]
    constructor
    · rintro ⟨pre, t, post, hT, hpre, ht⟩
      exact ⟨pre, t, post, hT,
        fun x hx => (saltOne_ok_iff SaltToken current remoteID ctx x).mp (hpre x hx),
        (saltOne_error_iff SaltToken current remoteID ctx t e).mp ht⟩
    · rintro ⟨pre, t, post, hT, hpre, ht⟩
      exact ⟨pre, t, post, hT,
        fun x hx => (saltOne_ok_iff SaltToken current remoteID ctx x).mpr (hpre x hx),
        (saltOne_error_iff SaltToken current remoteID ctx t e).mpr ht⟩
  refine ⟨?_, ?_, hfirst, rfl⟩
  · constructor
    · intro h
      obtain ⟨e, he⟩ := Option.ne_none_iff_exists'.mp h
      obtain ⟨pre, t, post, hT, -, ht⟩ := (hfirst e).mp he
      exact ⟨t, by rw [hT]; simp, by rw [ht]; simp⟩
    · intro h
      obtain ⟨pre, t, post, hT, hpre, ht⟩ :=
        exists_first (fun t => abortError SaltToken current remoteID ctx t ≠ none) T h
      obtain ⟨e, he⟩ := Option.ne_none_iff_exists'.mp ht
      have := (hfirst e).mpr ⟨pre, t, post, hT,
        fun x hx => Classical.not_not.mp (hpre x hx), he⟩
      rw [this]; simp
  · intro h
    rw [hrun] at h ⊢
    exact saltLoop_err_tokens SaltToken current remoteID ctx T [] [] h

/-- Witness for C13 (amended): the second token is the first that cannot be
emitted, `salt` rejecting it as malformed; the run fails with that error. -/
theorem saltedTokenProvider_error_iff_witness :
    (saltedTokenProvider pickySalt toyCurrent "bbbbb" ⟨some ["v2/u/s", "bad", "legacy"]⟩).err =
      some (GoError.plain "malformed") :=
  ((saltedTokenProvider_error_iff pickySalt toyCurrent "bbbbb"
      ⟨some ["v2/u/s", "bad", "legacy"]⟩ ["v2/u/s", "bad", "legacy"] rfl).2.2.1
    (GoError.plain "malformed")).mpr
    ⟨["v2/u/s"], "bad", ["legacy"], rfl, by decide, by decide⟩

/-! ## Manifests against the wording of the spec -/

/-- Induction over a text token by token: the empty text, a leading run
without a blank, a token introduced by a blank. -/
theorem token_induction (P : List Char → Prop) (hnil : P [])
    (hrun : ∀ u v, NoSpace u → Blocked v → P v → P (u ++ v))
    (htok : ∀ u v, NoSpace u → Blocked v → P v → P (' ' :: (u ++ v))) :
    ∀ s, P s := by
  have key : ∀ n s, s.length ≤ n → Blocked s → P s := by
    intro n
    induction n with
    | zero =>
      intro s hlen _
      have : s = [] := List.length_eq_zero.mp (Nat.le_zero.mp hlen)
      rw [this]; exact hnil
    | succ n ih =>
      intro s hlen hs
      rcases hs with rfl | ⟨w, rfl⟩
      · exact hnil
      · obtain ⟨u, v, rfl, hu, hv⟩ := exists_noSpace_blocked w
        apply htok u v hu hv
        apply ih v _ hv
        simp at hlen; omega
  intro s
  obtain ⟨u, v, rfl, hu, hv⟩ := exists_noSpace_blocked s
  exact hrun u v hu hv (key v.length v (Nat.le_refl _) hv)

/-! ### The canonical form against the wording of the spec -/

theorem spaceTokens_run {u : List Char} (v : List Char) (hu : NoSpace u) :
    spaceTokens (u ++ v) = (u ++ (spaceTokens v).1, (spaceTokens v).2) := by
  induction u with
  | nil => rfl
  | cons c u ih =>
    have hc : c ≠ ' ' := hu c (List.mem_cons_self _ _)
    have hu' : NoSpace u := fun x hx => hu x (List.mem_cons_of_mem _ hx)
    rw [List.cons_append, spaceTokens, if_neg hc, ih hu']
    rfl

theorem spaceTokens_blocked {v : List Char} (hv : Blocked v) : (spaceTokens v).1 = [] := by
  rcases hv with rfl | ⟨w, rfl⟩
  · rfl
  · rw [spaceTokens, if_pos rfl]

theorem spaceTokens_token {u v : List Char} (hu : NoSpace u) (hv : Blocked v) :
    spaceTokens (' ' :: (u ++ v)) = ([], (' ' :: u) :: (spaceTokens v).2) := by
  rw [spaceTokens, if_pos rfl, spaceTokens_run v hu, spaceTokens_blocked hv, List.append_nil]

theorem canonicalSpec_run {u v : List Char} (hu : NoSpace u) (hv : Blocked v) :
    canonicalSpec (u ++ v) = u ++ canonicalSpec v := by
  simp only [canonicalSpec, spaceTokens_run v hu, spaceTokens_blocked hv, List.append_nil,
    List.nil_append]

theorem canonicalSpec_token {u v : List Char} (hu : NoSpace u) (hv : Blocked v) :
    canonicalSpec (' ' :: (u ++ v)) =
      (sizedPrefix (' ' :: u)).getD (' ' :: u) ++ canonicalSpec v := by
  simp only [canonicalSpec, spaceTokens_token hu hv, spaceTokens_blocked hv, List.nil_append,
    List.map_cons, List.flatten_cons]

theorem hexDigits_eq (n : Nat) (cs : List Char) :
    hexDigits n cs =
      if (cs.take n).length = n ∧ (cs.take n).all isLowerHex = true then some (cs.drop n)
      else none := by
  induction n generalizing cs with
  | zero => simp [hexDigits]
  | succ n ih =>
    cases cs with
    | nil => simp [hexDigits]
    | cons c cs =>
      rw [hexDigits, ih]
      by_cases hc : isLowerHex c = true
      · simp [hc]
      · simp [hc]

theorem sizedPrefix_eq_findBlk (tok : List Char) : sizedPrefix tok = findBlk tok := by
  cases tok with
  | nil => simp [sizedPrefix, findBlk]
  | cons c cs =>
    by_cases hc : c = ' '
    · subst hc
      have h1 : cs[32]? = (cs.drop 32).head? := (List.head?_drop cs 32).symm
      have h2 : cs.drop 33 = (cs.drop 32).tail := by simp
      simp only [sizedPrefix, findBlk, hexDigits_eq, List.drop_succ_cons, List.drop_zero,
        List.head?_cons, true_and, List.getElem?_cons_succ, h1, h2]
      generalize cs.drop 32 = r
      by_cases hhex : (cs.take 32).length = 32 ∧ (cs.take 32).all isLowerHex = true
      · rw [if_pos hhex]
        cases r with
        | nil => simp
        | cons d rest =>
          by_cases hd : d = '+'
          · subst hd
            simp only [List.head?_cons, List.tail_cons, true_and, hhex, and_self]
            cases hds : rest.takeWhile isDecimal with
            | nil => simp
            | cons x xs => simp
          · simp only [List.head?_cons, List.tail_cons, Option.some.injEq, hd, false_and,
              and_false, if_false]
            split
            · rename_i heq
              simp at heq
              exact absurd heq.1 hd
            · rfl
      · rw [if_neg hhex, if_neg]
        intro h
        exact hhex ⟨h.1, h.2.1⟩
    · rw [findBlk_of_ne_space _ hc]
      simp [sizedPrefix, hc]

theorem pdhWrite_eq (tok : List Char) : pdhWrite tok = (sizedPrefix tok).getD tok := by
  rw [sizedPrefix_eq_findBlk, pdhWrite]
  cases findBlk tok <;> rfl

/-- The canonical form computed by the code is the one the spec describes. -/
theorem pdhInput_eq_canonicalSpec : ∀ s, pdhInput s = canonicalSpec s := by
  apply token_induction
  · rw [pdhInput_nil]; rfl
  · intro u v hu hv ih
    rw [pdhInput_run hu hv, canonicalSpec_run hu hv, ih]
  · intro u v hu hv ih
    rw [pdhInput_token hu hv, canonicalSpec_token hu hv, ih, pdhWrite_eq]

theorem spaceTokens_flatten (s : List Char) :
    (spaceTokens s).1 ++ (spaceTokens s).2.flatten = s := by
  induction s with
  | nil => rfl
  | cons c cs ih =>
    rw [spaceTokens]
    by_cases hc : c = ' '
    · subst hc
      simp only [if_true, List.nil_append, List.flatten_cons, List.cons_append]
      rw [ih]
    · simp only [hc, if_false, List.cons_append]
      rw [ih]

theorem map_getD_of_none {tokens : List (List Char)} (f : List Char → Option (List Char))
    (h : ∀ tok ∈ tokens, f tok = none) : (tokens.map fun tok => (f tok).getD tok) = tokens := by
  induction tokens with
  | nil => rfl
  | cons t rest ih =>
    rw [List.map_cons, h t (List.mem_cons_self _ _),
      ih fun tok htok => h tok (List.mem_cons_of_mem _ htok)]
    rfl

theorem digitChar_lowerHex : ∀ n, n < 16 → isLowerHex (Nat.digitChar n) = true := by
  decide

theorem fmtHex_lowerHex (bs : List Nat) : ∀ c ∈ fmtHex bs, isLowerHex c = true := by
  intro c hc
  simp only [fmtHex, List.mem_flatMap, List.mem_cons, List.mem_singleton, List.not_mem_nil,
    or_false] at hc
  obtain ⟨b, -, rfl | rfl⟩ := hc
  · exact digitChar_lowerHex _ (Nat.mod_lt _ (by decide))
  · exact digitChar_lowerHex _ (Nat.mod_lt _ (by decide))

theorem digitChar_eq_table :
    ∀ n, n < 16 → Nat.digitChar n = "0123456789abcdef".data.getD n '0' := by
  decide

/-- The text that `%x` writes is the lower-case hexadecimal text of the spec. -/
theorem fmtHex_eq_lowerHexSpec (bs : List Nat) : fmtHex bs = lowerHexSpec bs := by
  induction bs with
  | nil => rfl
  | cons b rest ih =>
    have h1 := digitChar_eq_table (b / 16 % 16) (Nat.mod_lt _ (by decide))
    have h2 := digitChar_eq_table (b % 16) (Nat.mod_lt _ (by decide))
    simp only [fmtHex, lowerHexSpec, List.flatMap_cons, List.map_cons, List.flatten_cons] at ih ⊢
    rw [ih, h1, h2]

theorem lowerHexSpec_length (bs : List Nat) : (lowerHexSpec bs).length = 2 * bs.length := by
  induction bs with
  | nil => rfl
  | cons b rest ih =>
    simp only [lowerHexSpec, List.map_cons, List.flatten_cons, List.length_append,
      List.length_cons, List.length_nil] at ih ⊢
    omega

/-- C14: `portableDataHash` of a manifest is the lower-case hexadecimal text
of the MD5 digest of the canonical form (two digits of `0123456789abcdef` per
byte of the digest), `+`, and the decimal length of the canonical form, where
the canonical form is the text with every space-introduced token that begins
with a space, 32 lower-case hexadecimal digits, `+` and decimal digits cut
down to that beginning and everything else kept in order; the canonical form
is the text itself when no token is of that kind, and the size part for the
empty text is 0. -/
theorem portableDataHash_eq_spec (md5 : List Char → List Nat) (mt : String) :
    portableDataHash md5 mt =
      ⟨lowerHexSpec (md5 (canonicalSpec mt.data)) ++
        '+' :: (Nat.repr (canonicalSpec mt.data).length).data⟩ ∧
    (∀ c ∈ lowerHexSpec (md5 (canonicalSpec mt.data)), isLowerHex c = true) ∧
    (lowerHexSpec (md5 (canonicalSpec mt.data))).length =
      2 * (md5 (canonicalSpec mt.data)).length ∧
    ((∀ tok ∈ (spaceTokens mt.data).2, sizedPrefix tok = none) →
      canonicalSpec mt.data = mt.data) ∧
    portableDataHash md5 "" = ⟨lowerHexSpec (md5 []) ++ ['+', '0']⟩ := by
  refine ⟨?_, ?_, lowerHexSpec_length _, ?_, ?_⟩
  · rw [portableDataHash_eq, pdhInput_eq_canonicalSpec, fmtHex_eq_lowerHexSpec]
  · rw [← fmtHex_eq_lowerHexSpec]
    exact fmtHex_lowerHex _
  · intro h
    rw [canonicalSpec, map_getD_of_none sizedPrefix h, spaceTokens_flatten]
  · rw [portableDataHash_eq, fmtHex_eq_lowerHexSpec]
    have : pdhInput ("" : String).data = [] := pdhInput_nil
    rw [this]
    rfl

set_option maxRecDepth 4000 in
/-- Witness for C14: the canonical form of a manifest with a signed block
locator drops the signature hint and keeps the rest; it has 43 bytes, and
with the two-byte stand-in digest, whose value on it is 43 and 176, the
portable data hash reads `2bb0+43`; that of the empty manifest reads
`0000+0`. -/
theorem portableDataHash_eq_spec_witness :
    canonicalSpec signedManifest.data = ". d41d8cd98f00b204e9800998ecf8427e+0 0:0:f\n".data ∧
    toyDigest (canonicalSpec signedManifest.data) = [43, 176] ∧
    lowerHexSpec [43, 176] = ['2', 'b', 'b', '0'] ∧
    lowerHexSpec [0, 9, 10, 15, 16, 255] =
      ['0', '0', '0', '9', '0', 'a', '0', 'f', '1', '0', 'f', 'f'] ∧
    portableDataHash toyDigest signedManifest = "2bb0+43" ∧
    portableDataHash toyDigest "" = "0000+0" :=
  ⟨by decide, by decide, by decide, by decide,
    (portableDataHash_eq_spec toyDigest signedManifest).1.trans (by decide),
    (portableDataHash_eq_spec toyDigest "").2.2.2.2.trans (by decide)⟩

/-! ### The rewrite against the wording of the spec -/

theorem isBlockTokenSpec_eq (tok : List Char) :
    isBlockTokenSpec tok = (matchBlockToken tok).isSome := by
  cases tok with
  | nil => simp [isBlockTokenSpec, matchBlockToken]
  | cons c cs =>
    by_cases hc : c = ' '
    · subst hc
      have h1 : cs[32]? = (cs.drop 32).head? := (List.head?_drop cs 32).symm
      simp only [isBlockTokenSpec, matchBlockToken, hexDigits_eq, List.drop_succ_cons,
        List.drop_zero, List.head?_cons, List.getElem?_cons_succ, h1]
      generalize cs.drop 32 = r
      by_cases hlen : (cs.take 32).length = 32
      · by_cases hall : (cs.take 32).all isLowerHex = true
        · rw [if_pos ⟨hlen, hall⟩]
          cases r with
          | nil => simp
          | cons d rest =>
            by_cases hd : d = '+'
            · subst hd
              simp [hlen, hall]
            · have : (some d == some '+') = false := by simpa using hd
              simp only [List.head?_cons, this, Bool.and_false]
              split
              · rename_i heq
                simp at heq
                exact absurd heq.1 hd
              · rfl
        · rw [if_neg (fun h => hall h.2)]
          have : (cs.take 32).all isLowerHex = false := by simpa using hall
          simp [this]
      · rw [if_neg (fun h => hlen h.1)]
        have : ((cs.take 32).length == 32) = false := by simpa using hlen
        rw [this]
        simp
    · rw [matchBlockToken_of_ne_space _ hc]
      have : (some c == some ' ') = false := by simpa using hc
      simp [isBlockTokenSpec, this]

theorem replacePlusA_eq (new : List Char) :
    ∀ (n : Nat) (s : List Char), s.length ≤ n →
      replacePlusA new s = stringsReplace ['+', 'A'] new 0 s := by
  intro n
  induction n with
  | zero =>
    intro s hlen
    have : s = [] := List.length_eq_zero.mp (Nat.le_zero.mp hlen)
    subst this
    rfl
  | succ n ih =>
    intro s hlen
    match s, hlen with
    | [], _ => rfl
    | [c], _ => rw [stringsReplace_singleton]; rfl
    | c :: d :: rest, hlen =>
      rw [replacePlusA]
      by_cases h : c = '+' ∧ d = 'A'
      · obtain ⟨rfl, rfl⟩ := h
        rw [if_pos ⟨rfl, rfl⟩, stringsReplace_plusA, ih rest (by simp at hlen; omega)]
      · rw [if_neg h, ih (d :: rest) (by simp at hlen ⊢; omega)]
        by_cases hc : c = '+'
        · have hd : d ≠ 'A' := fun hd => h ⟨hc, hd⟩
          rw [stringsReplace_cons_of_next_ne _ _ hd]
        · rw [stringsReplace_cons_of_ne_plus _ _ hc]

theorem map_ite_of_false {tokens : List (List Char)} (p : List Char → Bool)
    (g : List Char → List Char) (h : ∀ tok ∈ tokens, p tok = false) :
    (tokens.map fun tok => if p tok then g tok else tok) = tokens := by
  induction tokens with
  | nil => rfl
  | cons t rest ih =>
    rw [List.map_cons, h t (List.mem_cons_self _ _),
      ih fun tok htok => h tok (List.mem_cons_of_mem _ htok)]
    rfl

theorem rewriteSpec_run {u v : List Char} (R : List Char) (hu : NoSpace u) (hv : Blocked v) :
    rewriteSpec (u ++ v) R = u ++ rewriteSpec v R := by
  simp only [rewriteSpec, spaceTokens_run v hu, spaceTokens_blocked hv, List.append_nil,
    List.nil_append]

theorem rewriteSpec_token {u v : List Char} (R : List Char) (hu : NoSpace u) (hv : Blocked v) :
    rewriteSpec (' ' :: (u ++ v)) R =
      (if isBlockTokenSpec (' ' :: u) then
        replacePlusA (['+', 'R'] ++ R ++ ['-']) (' ' :: u) else ' ' :: u) ++
      rewriteSpec v R := by
  simp only [rewriteSpec, spaceTokens_token hu hv, spaceTokens_blocked hv, List.nil_append,
    List.map_cons, List.flatten_cons]

/-- The rewrite computed by the code is the one the spec describes. -/
theorem rewriteManifestBytes_eq_rewriteSpec (R : List Char) :
    ∀ s, rewriteManifestBytes s R = rewriteSpec s R := by
  apply token_induction
  · rw [rewriteManifestBytes_nil]; rfl
  · intro u v hu hv ih
    rw [rewriteManifestBytes_run v R hu, rewriteSpec_run R hu hv, ih]
  · intro u v hu hv ih
    rw [rewriteManifestBytes_token R hu hv, rewriteSpec_token R hu hv, ih, isBlockTokenSpec_eq,
      replacePlusA_eq _ _ _ (Nat.le_refl _)]
    rfl

/-- C15: `rewriteManifest` yields the manifest with every `+A` inside a block
token (a space, 32 lower-case hexadecimal digits, `+`, then everything up to
the next space) replaced by `+R`, the remote id and `-`, and every character
outside block tokens unchanged; a text without block tokens comes back as it
is. -/
theorem rewriteManifest_eq_spec (mt remoteID : String) :
    rewriteManifest mt remoteID = ⟨rewriteSpec mt.data remoteID.data⟩ ∧
    ((∀ tok ∈ (spaceTokens mt.data).2, isBlockTokenSpec tok = false) →
      rewriteManifest mt remoteID = mt) := by
  have h : rewriteManifest mt remoteID = ⟨rewriteSpec mt.data remoteID.data⟩ := by
    rw [rewriteManifest, rewriteManifestBytes_eq_rewriteSpec]
  refine ⟨h, fun hno => ?_⟩
  rw [h, rewriteSpec, map_ite_of_false isBlockTokenSpec _ hno, spaceTokens_flatten]

set_option maxRecDepth 4000 in
/-- Witness for C15: the signature hint of the block token is rewritten, the
`+A` in the file token is not. -/
theorem rewriteManifest_eq_spec_witness :
    rewriteSpec hintedManifest.data "bbbbb".data =
      ". abcabcabcabcabcabcabcabcabcabcab+123+Rbbbbb-sig@exp 0:123:f+A\n".data ∧
    rewriteManifest hintedManifest "bbbbb" =
      ⟨rewriteSpec hintedManifest.data "bbbbb".data⟩ :=
  ⟨by decide, (rewriteManifest_eq_spec hintedManifest "bbbbb").1⟩

/-! ### Rewriting twice -/

theorem rewriteToken_head {R : List Char} {d : Char} (rest : List Char) (hd : d ≠ 'A') :
    ∃ x xs, rewriteToken R (d :: rest) = x :: xs ∧ x ≠ 'A' := by
  cases rest with
  | nil => exact ⟨d, [], stringsReplace_singleton _ d, hd⟩
  | cons e rest =>
    by_cases h : d = '+' ∧ e = 'A'
    · obtain ⟨rfl, rfl⟩ := h
      refine ⟨'+', 'R' :: (R ++ ['-'] ++ rewriteToken R rest), ?_, by decide⟩
      rw [rewriteToken, stringsReplace_plusA]
      simp [rewriteToken]
    · refine ⟨d, rewriteToken R (e :: rest), ?_, hd⟩
      by_cases hp : d = '+'
      · exact stringsReplace_cons_of_next_ne _ _ (fun he => h ⟨hp, he⟩)
      · exact stringsReplace_cons_of_ne_plus _ _ hp

/-- Once rewritten, a text holds no `+A` any more when the remote id has no
`A`. -/
theorem rewriteToken_idem {R : List Char} (hR : ∀ c ∈ R, c ≠ 'A') :
    ∀ (n : Nat) (s : List Char), s.length ≤ n →
      rewriteToken R (rewriteToken R s) = rewriteToken R s := by
  have hA : ∀ c ∈ ['+', 'R'] ++ R ++ ['-'], c ≠ 'A' := by
    intro c hc
    simp only [List.cons_append, List.nil_append, List.mem_cons, List.mem_append,
      List.mem_singleton, List.not_mem_nil, or_false] at hc
    rcases hc with rfl | rfl | hc | rfl
    · decide
    · decide
    · exact hR c hc
    · decide
  have hlast : (['+', 'R'] ++ R ++ ['-']).getLast? ≠ some '+' := by
    rw [List.getLast?_append]
    simp
  intro n
  induction n with
  | zero =>
    intro s hlen
    have : s = [] := List.length_eq_zero.mp (Nat.le_zero.mp hlen)
    subst this
    rfl
  | succ n ih =>
    intro s hlen
    match s, hlen with
    | [], _ => rfl
    | [c], _ =>
      have : rewriteToken R [c] = [c] := stringsReplace_singleton _ c
      rw [this, this]
    | c :: d :: rest, hlen =>
      by_cases h : c = '+' ∧ d = 'A'
      · obtain ⟨rfl, rfl⟩ := h
        have h1 : rewriteToken R ('+' :: 'A' :: rest) =
            (['+', 'R'] ++ R ++ ['-']) ++ rewriteToken R rest := stringsReplace_plusA _ _
        have h2 : rewriteToken R ((['+', 'R'] ++ R ++ ['-']) ++ rewriteToken R rest) =
            (['+', 'R'] ++ R ++ ['-']) ++ rewriteToken R (rewriteToken R rest) :=
          stringsReplace_prefix _ _ _ hA hlast
        rw [h1, h2, ih rest (by simp at hlen; omega)]
      · have hstep : rewriteToken R (c :: d :: rest) = c :: rewriteToken R (d :: rest) := by
          by_cases hp : c = '+'
          · exact stringsReplace_cons_of_next_ne _ _ (fun hd => h ⟨hp, hd⟩)
          · exact stringsReplace_cons_of_ne_plus _ _ hp
        have hrec := ih (d :: rest) (by simp at hlen ⊢; omega)
        rw [hstep]
        by_cases hp : c = '+'
        · have hd : d ≠ 'A' := fun hd => h ⟨hp, hd⟩
          obtain ⟨x, xs, hx, hxA⟩ := @rewriteToken_head R d rest hd
          rw [hx] at hrec ⊢
          have : rewriteToken R (c :: x :: xs) = c :: rewriteToken R (x :: xs) :=
            stringsReplace_cons_of_next_ne _ _ hxA
          rw [this, hrec]
        · have : rewriteToken R (c :: rewriteToken R (d :: rest)) =
              c :: rewriteToken R (rewriteToken R (d :: rest)) :=
            stringsReplace_cons_of_ne_plus _ _ hp
          rw [this, hrec]

/-- Rewriting for the same remote twice is rewriting once, for a remote id
without a blank and without `A`. -/
theorem rewriteManifestBytes_idem {R : List Char} (hR : NoSpace R) (hA : ∀ c ∈ R, c ≠ 'A') :
    ∀ s, rewriteManifestBytes (rewriteManifestBytes s R) R = rewriteManifestBytes s R := by
  apply token_induction
  · rw [rewriteManifestBytes_nil, rewriteManifestBytes_nil]
  · intro u v hu hv ih
    rw [rewriteManifestBytes_run v R hu, rewriteManifestBytes_run _ R hu, ih]
  · intro u v hu hv ih
    rw [rewriteManifestBytes_token R hu hv]
    have hbl := rewriteManifestBytes_blocked R hv
    by_cases hb : (matchBlockToken (' ' :: u)).isSome = true
    · obtain ⟨u', hu', hns⟩ := rewriteToken_space hR hu
      simp only [hb, if_true]
      have hidem := rewriteToken_idem hA (' ' :: u).length (' ' :: u) (Nat.le_refl _)
      rw [hu'] at hidem
      rw [hu', List.cons_append, rewriteManifestBytes_token R hns hbl, ih]
      split
      · rw [hidem]; rfl
      · rfl
    · have hb' : (matchBlockToken (' ' :: u)).isSome = false := by simpa using hb
      simp only [hb', Bool.false_eq_true, if_false]
      rw [List.cons_append, rewriteManifestBytes_token R hu hbl, ih]
      simp only [hb', Bool.false_eq_true, if_false]
      rfl

theorem lowerAlnum_noSpace_noA {R : List Char} (h : ∀ c ∈ R, isLowerAlnum c = true) :
    NoSpace R ∧ ∀ c ∈ R, c ≠ 'A' := by
  constructor
  · intro c hc hsp
    have := h c hc
    rw [hsp] at this
    exact absurd this (by decide)
  · intro c hc hA
    have := h c hc
    rw [hA] at this
    exact absurd this (by decide)

/-- C16: for every manifest text and every remote cluster id made of five
characters from `[a-z0-9]`, rewriting the manifest for the remote a second
time changes nothing. -/
theorem rewriteManifest_idempotent (mt remoteID : String)
    (hR : remoteID.length = 5 ∧ ∀ c ∈ remoteID.data, isLowerAlnum c = true) :
    rewriteManifest (rewriteManifest mt remoteID) remoteID = rewriteManifest mt remoteID := by
  obtain ⟨hns, hA⟩ := lowerAlnum_noSpace_noA hR.2
  simp only [rewriteManifest]
  rw [rewriteManifestBytes_idem hns hA]

set_option maxRecDepth 4000 in
/-- Witness for C16: the signed manifest rewritten for `bbbbb`. -/
theorem rewriteManifest_idempotent_witness :
    rewriteManifest (rewriteManifest signedManifest "bbbbb") "bbbbb" =
      rewriteManifest signedManifest "bbbbb" :=
  rewriteManifest_idempotent signedManifest "bbbbb" (by decide)

/-! ### The canonical form of a canonical form -/

theorem pdhWrite_token {u : List Char} (hu : NoSpace u) :
    ∃ u', pdhWrite (' ' :: u) = ' ' :: u' ∧ NoSpace u' ∧
      pdhWrite (' ' :: u') = ' ' :: u' := by
  cases h : findBlk (' ' :: u) with
  | none =>
    have : pdhWrite (' ' :: u) = ' ' :: u := by rw [pdhWrite, h]
    exact ⟨u, this, hu, this⟩
  | some m =>
    obtain ⟨hx, ds, rest, htok, hm, hlen, hall, hne, hds, -⟩ := findBlk_eq_some h
    have hu_eq : u = (hx ++ '+' :: ds) ++ rest := by
      have := List.tail_eq_of_cons_eq htok
      rw [this]; simp
    have hns : NoSpace (hx ++ '+' :: ds) := by
      intro c hc
      apply hu c
      rw [hu_eq]
      exact List.mem_append_left _ hc
    have hm' : findBlk (' ' :: (hx ++ '+' :: ds)) = some (' ' :: (hx ++ '+' :: ds)) := by
      have := @findBlk_of_shape hx ds [] hlen hall hne hds (fun c hc => by simp at hc)
      simpa using this
    refine ⟨hx ++ '+' :: ds, ?_, hns, ?_⟩
    · rw [pdhWrite, h, hm]
    · rw [pdhWrite, hm']

theorem pdhInput_blocked {v : List Char} (hv : Blocked v) : Blocked (pdhInput v) := by
  rcases hv with rfl | ⟨w, rfl⟩
  · rw [pdhInput_nil]; exact Or.inl rfl
  · obtain ⟨u, v', rfl, hu, hv'⟩ := exists_noSpace_blocked w
    obtain ⟨u', hw, -, -⟩ := pdhWrite_token hu
    rw [pdhInput_token hu hv', hw]
    exact Or.inr ⟨_, rfl⟩

theorem pdhInput_idem : ∀ s, pdhInput (pdhInput s) = pdhInput s := by
  apply token_induction
  · rw [pdhInput_nil, pdhInput_nil]
  · intro u v hu hv ih
    rw [pdhInput_run hu hv, pdhInput_run hu (pdhInput_blocked hv), ih]
  · intro u v hu hv ih
    obtain ⟨u', hw, hns, hidem⟩ := pdhWrite_token hu
    rw [pdhInput_token hu hv, hw, List.cons_append,
      pdhInput_token hns (pdhInput_blocked hv), hidem, ih]
    rfl

/-- C17: the canonical form that `portableDataHash` feeds to MD5 is its own
canonical form, so the portable data hash of the canonical form of a manifest
is the portable data hash of the manifest. -/
theorem portableDataHash_canonical (md5 : List Char → List Nat) (mt : String) :
    pdhInput (pdhInput mt.data) = pdhInput mt.data ∧
    portableDataHash md5 ⟨pdhInput mt.data⟩ = portableDataHash md5 mt := by
  refine ⟨pdhInput_idem _, ?_⟩
  rw [portableDataHash_eq, portableDataHash_eq]
  simp only [pdhInput_idem]

/-! ## CollectionGet by uuid -/

/-- C18: a `CollectionGet` whose uuid has length 27 calls exactly one backend,
the one chosen by `chooseBackend`.  On success the manifest is returned
unchanged when the first five characters of the uuid are the router's own
cluster id, and rewritten for that prefix otherwise, in particular when the
prefix names a configured proxy remote, which is then the backend called; on
error the backend's result and error are returned as they are. -/
theorem collectionGet_uuid (conn : Conn) (md5 : List Char → List Nat)
    (get : backend → Context → GetOptions → Collection × Option GoError)
    (ctx : Context) (options : GetOptions) (arrival publish : List (String × backend))
    (hlen : options.UUID.length = 27) :
    (conn.CollectionGet md5 get ctx options arrival publish).calls =
      [conn.chooseBackend options.UUID] ∧
    (∀ c, get (conn.chooseBackend options.UUID) ctx options = (c, none) →
      (conn.CollectionGet md5 get ctx options arrival publish).err = none ∧
      (slicePrefix options.UUID 5 = conn.cluster.ClusterID →
        (conn.CollectionGet md5 get ctx options arrival publish).c = c) ∧
      (slicePrefix options.UUID 5 ≠ conn.cluster.ClusterID →
        (conn.CollectionGet md5 get ctx options arrival publish).c =
          { c with
            ManifestText := rewriteManifest c.ManifestText (slicePrefix options.UUID 5) }) ∧
      (∀ be, slicePrefix options.UUID 5 ≠ conn.cluster.ClusterID →
        conn.remotes.lookup (slicePrefix options.UUID 5) = some be →
        conn.chooseBackend options.UUID = be)) ∧
    (∀ c e, get (conn.chooseBackend options.UUID) ctx options = (c, some e) →
      (conn.CollectionGet md5 get ctx options arrival publish).c = c ∧
      (conn.CollectionGet md5 get ctx options arrival publish).err = some e) := by
  unfold Conn.CollectionGet
  rw [if_pos hlen]
  refine ⟨?_, ?_, ?_⟩
  · rcases get (conn.chooseBackend options.UUID) ctx options with ⟨c, err⟩
    simp only []
    split <;> rfl
  · intro c hget
    rw [hget]
    simp only [true_and]
    refine ⟨?_, ?_, ?_, ?_⟩
    · split <;> rfl
    · intro h
      rw [if_neg (fun hn => hn h)]
    · intro h
      rw [if_pos h]
    · intro be hne hlook
      simp only [Conn.chooseBackend, if_pos hlen, Conn.backendFor, if_neg hne, hlook]
  · intro c e hget
    rw [hget]
    simp

set_option maxRecDepth 4000 in
/-- Witness for C18: a collection of remote `bbbbb` is fetched from `bbbbb`
only and its signature hint comes back as `+Rbbbbb-sig@exp`. -/
theorem collectionGet_uuid_witness :
    (twoRemotes.CollectionGet toyDigest getScenario ⟨none⟩
        ⟨"bbbbb-4zz18-xxxxxxxxxxxxxxx", [], false⟩ [] []).calls =
      [backend.rpc "bbbbb" "https" "bbbbb.example" false] ∧
    (twoRemotes.CollectionGet toyDigest getScenario ⟨none⟩
        ⟨"bbbbb-4zz18-xxxxxxxxxxxxxxx", [], false⟩ [] []).c.ManifestText =
      ". abcabcabcabcabcabcabcabcabcabcab+123+Rbbbbb-sig@exp 0:123:f\n" :=
  have h := collectionGet_uuid twoRemotes toyDigest getScenario ⟨none⟩
    ⟨"bbbbb-4zz18-xxxxxxxxxxxxxxx", [], false⟩ [] [] (by decide)
  ⟨h.1.trans (by decide), by
    rw [(h.2.1 ⟨"bbbbb-4zz18-xxxxxxxxxxxxxxx", "", scenarioManifest⟩ rfl).2.2.1 (by decide)]
    decide⟩

/-! ## User mirror: the batch call -/

/-- The batch has an entry exactly when some upstream user is mirrored. -/
theorem mirrorBatch_nonempty_iff (id : String) (now : Nat) (select : List String)
    (items : List User) :
    (mirrorBatch id now select items).length > 0 ↔
      ∃ user ∈ items, HasPrefix user.UUID id = true := by
  obtain ⟨h1, h2, -⟩ := mirrorBatch_lookup id now select items []
  constructor
  · intro hpos
    match hb : mirrorBatch id now select items with
    | [] => rw [hb] at hpos; simp at hpos
    | (k, m) :: rest =>
      have hl : (mirrorBatch id now select items).lookup k = some m := by
        rw [hb]; simp [List.lookup]
      rcases h1 k m hl with h | ⟨user, hu, hp, -, -⟩
      · simp at h
      · exact ⟨user, hu, hp⟩
  · rintro ⟨user, hu, hp⟩
    obtain ⟨m, hm⟩ := h2 user hu hp
    match hb : mirrorBatch id now select items with
    | [] =>
      have : (mirrorBatch id now select items).lookup user.UUID = some m := hm
      rw [hb] at this
      simp at this
    | p :: rest => simp

/-- Counterexample to C19: with `select = ["uuid"]` the projection of the one
mirrored user is empty, and a batch update is submitted all the same. -/
theorem userList_batch_with_empty_projection :
    (∀ entry ∈ mirrorBatch "zzzzz" 1000 ["uuid"] [userZ], entry.2 = []) ∧
    (loginConn.UserList mirrorAPI 1000 ⟨some ["caller"]⟩ selectUuid).batchCalls =
      [(backend.localdb, ⟨some ["systemroot"]⟩,
        ⟨[("zzzzz-tpzed-000000000000000", [])]⟩)] := by
  decide

/-- C19 (amended): in `UserList` under a non-local login cluster, once the
login cluster has answered, a batch update is submitted exactly when at least
one upstream user is mirrored (its uuid begins with the login cluster id) and
every mirrored record can be encoded as JSON, whether or not any projection
holds a field; it goes to the local backend and its keys are the uuids of the
mirrored users.  When a mirrored record cannot be encoded, the call fails with
the encoding error and the empty list. -/
theorem userList_batch_iff_mirrored (conn : Conn) (api : UserAPI) (now : Nat) (ctx : Context)
    (options : ListOptions)
    (hlogin : conn.cluster.LoginCluster ≠ "" ∧
      conn.cluster.LoginCluster ≠ conn.cluster.ClusterID)
    (hup : (api.userList (conn.chooseBackend conn.cluster.LoginCluster) ctx options).2 = none) :
    ((conn.UserList api now ctx options).batchCalls ≠ [] ↔
      (∃ user ∈ (api.userList (conn.chooseBackend conn.cluster.LoginCluster) ctx
        options).1.Items, HasPrefix user.UUID conn.cluster.LoginCluster = true) ∧
      (∀ user ∈ (api.userList (conn.chooseBackend conn.cluster.LoginCluster) ctx
        options).1.Items, HasPrefix user.UUID conn.cluster.LoginCluster = true →
        (jsonMarshal (withTimestamps now user)).2 = none)) ∧
    (∀ call ∈ (conn.UserList api now ctx options).batchCalls,
      call.1 = conn.localBackend ∧
      ∀ uuid, (call.2.2.Updates.lookup uuid).isSome = true ↔
        ∃ user ∈ (api.userList (conn.chooseBackend conn.cluster.LoginCluster) ctx
          options).1.Items,
          HasPrefix user.UUID conn.cluster.LoginCluster = true ∧ user.UUID = uuid) ∧
    ((∃ user ∈ (api.userList (conn.chooseBackend conn.cluster.LoginCluster) ctx
        options).1.Items, HasPrefix user.UUID conn.cluster.LoginCluster = true ∧
        (jsonMarshal (withTimestamps now user)).2 ≠ none) →
      (∃ user ∈ (api.userList (conn.chooseBackend conn.cluster.LoginCluster) ctx
          options).1.Items, ∃ je,
        HasPrefix user.UUID conn.cluster.LoginCluster = true ∧
        (jsonMarshal (withTimestamps now user)).2 = some je ∧
        (conn.UserList api now ctx options).err = some (GoError.plain
          ("error encoding user record from remote response: " ++ je.Error))) ∧
      (conn.UserList api now ctx options).resp = ⟨[], 0, 0, 0⟩) := by
  refine ⟨?_, ?_, ?_⟩
  · rcases encoded_or_not conn.cluster.LoginCluster now
      (api.userList (conn.chooseBackend conn.cluster.LoginCluster) ctx options).1.Items
      with henc | hbad
    · rw [(userList_encoded conn api now ctx options hlogin hup henc).2.1,
        ← mirrorBatch_nonempty_iff conn.cluster.LoginCluster now options.Select]
      constructor
      · intro h
        refine ⟨?_, henc⟩
        by_contra hlen
        rw [if_neg hlen] at h
        exact h rfl
      · rintro ⟨hlen, -⟩
        rw [if_pos hlen]
        simp
    · rw [(userList_unencoded conn api now ctx options hlogin hup hbad).2.2.2]
      constructor
      · intro h
        exact absurd rfl h
      · rintro ⟨-, henc⟩
        obtain ⟨user, hu, hp, hne⟩ := hbad
        exact absurd (henc user hu hp) hne
  · intro call hcall
    have hupd := userList_batchCalls conn api now ctx options hlogin call hcall
    have hlocal : call.1 = conn.localBackend := by
      rcases encoded_or_not conn.cluster.LoginCluster now
        (api.userList (conn.chooseBackend conn.cluster.LoginCluster) ctx options).1.Items
        with henc | hbad
      · rw [(userList_encoded conn api now ctx options hlogin hup henc).2.1] at hcall
        split at hcall
        · simp only [List.mem_singleton] at hcall
          rw [hcall]
        · simp at hcall
      · rw [(userList_unencoded conn api now ctx options hlogin hup hbad).2.2.2] at hcall
        simp at hcall
    refine ⟨hlocal, fun uuid => ?_⟩
    rw [hupd]
    obtain ⟨h1, h2, -⟩ := mirrorBatch_lookup conn.cluster.LoginCluster now options.Select
      (api.userList (conn.chooseBackend conn.cluster.LoginCluster) ctx options).1.Items []
    constructor
    · intro hsome
      obtain ⟨m, hm⟩ := Option.isSome_iff_exists.mp hsome
      rcases h1 uuid m hm with h | ⟨user, hu, hp, hid, -⟩
      · simp at h
      · exact ⟨user, hu, hp, hid⟩
    · rintro ⟨user, hu, hp, rfl⟩
      obtain ⟨m, hm⟩ := h2 user hu hp
      exact Option.isSome_iff_exists.mpr ⟨m, hm⟩
  · intro hbad
    obtain ⟨herr, hresp, -, -⟩ := userList_unencoded conn api now ctx options hlogin hup hbad
    exact ⟨herr, hresp⟩

/-- Witness for C19 (amended): one mirrored user, whose zero timestamps are
replaced by the clock reading before it is encoded, and one batch. -/
theorem userList_batch_iff_mirrored_witness :
    (loginConn.UserList mirrorAPI 1000 ⟨some ["caller"]⟩ selectUuid).batchCalls ≠ [] :=
  (userList_batch_iff_mirrored loginConn mirrorAPI 1000 ⟨some ["caller"]⟩ selectUuid
    (by decide) rfl).1.mpr ⟨⟨userZ, by decide, by decide⟩, by decide⟩

set_option maxRecDepth 4000 in
/-- Counterexample to C20: the login cluster lists a user of its own whose
`modified_at` lies in year 10000.  The record cannot be encoded, so `UserList`
fails with the encoding error and calls `UserBatchUpdate` not once but not at
all. -/
theorem userList_no_batch_for_unencodable_record :
    (∃ user ∈ ((lateAPI).userList (loginConn.chooseBackend "zzzzz") ⟨some ["caller"]⟩
        selectAll).1.Items, HasPrefix user.UUID loginConn.cluster.LoginCluster = true) ∧
    ((lateAPI).userList (loginConn.chooseBackend "zzzzz") ⟨some ["caller"]⟩ selectAll).2 =
      none ∧
    (loginConn.UserList lateAPI 1000 ⟨some ["caller"]⟩ selectAll).batchCalls = [] ∧
    (loginConn.UserList lateAPI 1000 ⟨some ["caller"]⟩ selectAll).err =
      some (GoError.plain ("error encoding user record from remote response: " ++
        "json: error calling MarshalJSON for type time.Time: " ++
        "Time.MarshalJSON: year outside of range [0,9999]")) := by
  decide

/-- C20 (amended): in `UserList` under a non-local login cluster, for every
list options, when the login cluster returns at least one user whose uuid
begins with the login cluster id and every such record can be encoded as
JSON, `UserBatchUpdate` is called exactly once, on the local backend, with a
context whose credentials hold the system root token and nothing else,
whatever the caller's tokens. -/
theorem userList_batch_once_as_root (conn : Conn) (api : UserAPI) (now : Nat) (ctx : Context)
    (options : ListOptions)
    (hlogin : conn.cluster.LoginCluster ≠ "" ∧
      conn.cluster.LoginCluster ≠ conn.cluster.ClusterID)
    (hup : (api.userList (conn.chooseBackend conn.cluster.LoginCluster) ctx options).2 = none)
    (hmir : ∃ user ∈ (api.userList (conn.chooseBackend conn.cluster.LoginCluster) ctx
      options).1.Items, HasPrefix user.UUID conn.cluster.LoginCluster = true)
    (henc : ∀ user ∈ (api.userList (conn.chooseBackend conn.cluster.LoginCluster) ctx
      options).1.Items, HasPrefix user.UUID conn.cluster.LoginCluster = true →
      (jsonMarshal (withTimestamps now user)).2 = none) :
    (conn.UserList api now ctx options).batchCalls =
      [(conn.localBackend, ⟨some [conn.cluster.SystemRootToken]⟩,
        ⟨mirrorBatch conn.cluster.LoginCluster now options.Select
          (api.userList (conn.chooseBackend conn.cluster.LoginCluster) ctx
            options).1.Items⟩)] := by
  rw [(userList_encoded conn api now ctx options hlogin hup henc).2.1,
    if_pos ((mirrorBatch_nonempty_iff _ _ _ _).mpr hmir)]
  rfl

/-- Witness for C20 (amended): with each of the three select lists of the
test, the one batch call carries the system root token in place of the
caller's token. -/
theorem userList_batch_once_as_root_witness :
    ((loginConn.UserList mirrorAPI 1000 ⟨some ["caller"]⟩ selectAll).batchCalls.map
        fun call => (call.1, call.2.1)) = [(backend.localdb, ⟨some ["systemroot"]⟩)] ∧
    ((loginConn.UserList mirrorAPI 1000 ⟨some ["caller"]⟩ selectUuid).batchCalls.map
        fun call => (call.1, call.2.1)) = [(backend.localdb, ⟨some ["systemroot"]⟩)] ∧
    ((loginConn.UserList mirrorAPI 1000 ⟨some ["caller"]⟩ selectUuidEmail).batchCalls.map
        fun call => (call.1, call.2.1)) = [(backend.localdb, ⟨some ["systemroot"]⟩)] :=
  ⟨by rw [userList_batch_once_as_root loginConn mirrorAPI 1000 ⟨some ["caller"]⟩ selectAll
      (by decide) rfl ⟨userZ, by decide, by decide⟩ (by decide)]; rfl,
    by rw [userList_batch_once_as_root loginConn mirrorAPI 1000 ⟨some ["caller"]⟩ selectUuid
      (by decide) rfl ⟨userZ, by decide, by decide⟩ (by decide)]; rfl,
    by rw [userList_batch_once_as_root loginConn mirrorAPI 1000 ⟨some ["caller"]⟩
      selectUuidEmail (by decide) rfl ⟨userZ, by decide, by decide⟩ (by decide)]; rfl⟩

/-! ## User mirror: a failing local backend, and the list returned -/

/-- The result of `UserList` under a non-local login cluster, case by case. -/
theorem userList_cases (conn : Conn) (api : UserAPI) (now : Nat) (ctx : Context)
    (options : ListOptions)
    (hlogin : conn.cluster.LoginCluster ≠ "" ∧
      conn.cluster.LoginCluster ≠ conn.cluster.ClusterID) :
    (conn.UserList api now ctx options).listCalls =
      [conn.chooseBackend conn.cluster.LoginCluster] ∧
    (∀ e, (api.userList (conn.chooseBackend conn.cluster.LoginCluster) ctx options).2 = some e →
      (conn.UserList api now ctx options).err = some e ∧
      (conn.UserList api now ctx options).resp =
        (api.userList (conn.chooseBackend conn.cluster.LoginCluster) ctx options).1 ∧
      (conn.UserList api now ctx options).batchCalls = []) ∧
    ((conn.UserList api now ctx options).err = none →
      (conn.UserList api now ctx options).resp =
        (api.userList (conn.chooseBackend conn.cluster.LoginCluster) ctx options).1) ∧
    (∀ call ∈ (conn.UserList api now ctx options).batchCalls,
      call.1 = conn.localBackend ∧
      (∀ e, (api.userBatchUpdate call.1 call.2.1 call.2.2).2 = some e →
        (conn.UserList api now ctx options).err =
          some (GoError.plain ("error updating local user records: " ++ e.Error)) ∧
        (conn.UserList api now ctx options).resp = ⟨[], 0, 0, 0⟩) ∧
      ((api.userBatchUpdate call.1 call.2.1 call.2.2).2 = none →
        (conn.UserList api now ctx options).err = none ∧
        (conn.UserList api now ctx options).resp =
          (api.userList (conn.chooseBackend conn.cluster.LoginCluster) ctx options).1)) := by
  cases hup : (api.userList (conn.chooseBackend conn.cluster.LoginCluster) ctx options).2 with
  | some e0 =>
    obtain ⟨herr, hresp, hlist, hcalls⟩ :=
      userList_upstream_error conn api now ctx options hlogin e0 hup
    refine ⟨hlist, ?_, ?_, ?_⟩
    · intro e he
      simp only [Option.some.injEq] at he
      subst he
      exact ⟨herr, hresp, hcalls⟩
    · intro hok
      rw [herr] at hok
      simp at hok
    · intro call hcall
      rw [hcalls] at hcall
      simp at hcall
  | none =>
    rcases encoded_or_not conn.cluster.LoginCluster now
      (api.userList (conn.chooseBackend conn.cluster.LoginCluster) ctx options).1.Items
      with henc | hbad
    · obtain ⟨hlist, hcalls, hnone, hbatch⟩ :=
        userList_encoded conn api now ctx options hlogin hup henc
      refine ⟨hlist, ?_, ?_, ?_⟩
      · intro e he; simp at he
      · intro hok
        match hc : (conn.UserList api now ctx options).batchCalls with
        | [] => exact (hnone hc).2
        | call :: rest =>
          have hmem : call ∈ (conn.UserList api now ctx options).batchCalls := by
            rw [hc]; exact List.mem_cons_self _ _
          match he : (api.userBatchUpdate call.1 call.2.1 call.2.2).2 with
          | some e =>
            have := ((hbatch call hmem).1 e he).1
            rw [hok] at this
            exact absurd this (by simp)
          | none => exact ((hbatch call hmem).2 he).2
      · intro call hcall
        refine ⟨?_, hbatch call hcall⟩
        rw [hcalls] at hcall
        split at hcall
        · simp only [List.mem_singleton] at hcall
          rw [hcall]
        · simp at hcall
    · obtain ⟨⟨user, hu, je, hp, hje, herr⟩, hresp, hlist, hcalls⟩ :=
        userList_unencoded conn api now ctx options hlogin hup hbad
      refine ⟨hlist, ?_, ?_, ?_⟩
      · intro e he; simp at he
      · intro hok
        rw [herr] at hok
        simp at hok
      · intro call hcall
        rw [hcalls] at hcall
        simp at hcall

/-- C21: in `UserList` under a non-local login cluster, a call of the local
`UserBatchUpdate` that fails makes `UserList` fail, with an error that wraps
the local one, and with an empty user list in place of the upstream response.
Hence, with a local backend on which every batch update fails, `UserList`
succeeds only when no batch update was attempted; and with a local backend on
which every call fails, it succeeds only when it called no backend operation
of the local backend at all. -/
theorem userList_local_failure (conn : Conn) (api : UserAPI) (now : Nat) (ctx : Context)
    (options : ListOptions)
    (hlogin : conn.cluster.LoginCluster ≠ "" ∧
      conn.cluster.LoginCluster ≠ conn.cluster.ClusterID) :
    (∀ call ∈ (conn.UserList api now ctx options).batchCalls,
      ∀ e, (api.userBatchUpdate call.1 call.2.1 call.2.2).2 = some e →
        (conn.UserList api now ctx options).err =
          some (GoError.plain ("error updating local user records: " ++ e.Error)) ∧
        (conn.UserList api now ctx options).resp = ⟨[], 0, 0, 0⟩) ∧
    ((∀ c o, (api.userBatchUpdate conn.localBackend c o).2 ≠ none) →
      (conn.UserList api now ctx options).err = none →
      (conn.UserList api now ctx options).batchCalls = []) ∧
    ((∀ c o, (api.userBatchUpdate conn.localBackend c o).2 ≠ none) →
      (∀ c o, (api.userList conn.localBackend c o).2 ≠ none) →
      (conn.UserList api now ctx options).err = none →
      (conn.UserList api now ctx options).batchCalls = [] ∧
      conn.localBackend ∉ (conn.UserList api now ctx options).listCalls) := by
  obtain ⟨hlist, hfail, -, hbatch⟩ := userList_cases conn api now ctx options hlogin
  have hnobatch : (∀ c o, (api.userBatchUpdate conn.localBackend c o).2 ≠ none) →
      (conn.UserList api now ctx options).err = none →
      (conn.UserList api now ctx options).batchCalls = [] := by
    intro hb hok
    match hcalls : (conn.UserList api now ctx options).batchCalls with
    | [] => rfl
    | call :: rest =>
      have hmem : call ∈ (conn.UserList api now ctx options).batchCalls := by
        rw [hcalls]; exact List.mem_cons_self _ _
      have hcall := (hbatch call hmem).1
      match he : (api.userBatchUpdate call.1 call.2.1 call.2.2).2 with
      | some e =>
        have := ((hbatch call hmem).2.1 e he).1
        rw [hok] at this
        exact absurd this (by simp)
      | none =>
        rw [hcall] at he
        exact absurd he (hb _ _)
  refine ⟨fun call hcall e he => (hbatch call hcall).2.1 e he, hnobatch, ?_⟩
  intro hb hl hok
  refine ⟨hnobatch hb hok, ?_⟩
  rw [hlist]
  intro hmem
  simp only [List.mem_singleton] at hmem
  match he : (api.userList (conn.chooseBackend conn.cluster.LoginCluster) ctx options).2 with
  | some e =>
    have := (hfail e he).1
    rw [hok] at this
    exact absurd this (by simp)
  | none =>
    rw [← hmem] at he
    exact absurd he (hl _ _)

set_option maxRecDepth 4000 in
/-- Witness for C21: with a local backend that fails every call, a login
cluster that lists a user of its own makes `UserList` fail with an empty list,
and one that lists only a user of another cluster lets it succeed without any
call to the local backend. -/
theorem userList_local_failure_witness :
    ((loginConn.UserList (failingLocalAPI [userZ]) 1000 ⟨some ["caller"]⟩ selectAll).err =
        some (GoError.plain "error updating local user records: local cluster failure") ∧
      (loginConn.UserList (failingLocalAPI [userZ]) 1000 ⟨some ["caller"]⟩ selectAll).resp =
        ⟨[], 0, 0, 0⟩) ∧
    (loginConn.UserList (failingLocalAPI [userB]) 1000 ⟨some ["caller"]⟩ selectAll).resp.Items =
      [userB] ∧
    (loginConn.UserList (failingLocalAPI [userB]) 1000 ⟨some ["caller"]⟩ selectAll).batchCalls =
      [] ∧
    loginConn.localBackend ∉
      (loginConn.UserList (failingLocalAPI [userB]) 1000 ⟨some ["caller"]⟩ selectAll).listCalls :=
  ⟨(userList_local_failure loginConn (failingLocalAPI [userZ]) 1000 ⟨some ["caller"]⟩ selectAll
      (by decide)).1
      (backend.localdb, ⟨some ["systemroot"]⟩,
        ⟨mirrorBatch "zzzzz" 1000 [] [userZ]⟩)
      (by decide) (GoError.plain "local cluster failure") rfl,
    by decide,
    (userList_local_failure loginConn (failingLocalAPI [userB]) 1000 ⟨some ["caller"]⟩ selectAll
      (by decide)).2.2 (fun _ _ h => Option.noConfusion h) (fun _ _ h => Option.noConfusion h)
      (by decide)⟩

/-- The loop over the upstream items skips the users of other clusters: it
builds the same batch from the mirrored users alone. -/
theorem mirrorBatch_filter (id : String) (now : Nat) (select : List String)
    (items : List User) (acc : List (String × List (String × JSONValue))) :
    items.foldl (mirrorStep id now select) acc =
      (items.filter fun user => HasPrefix user.UUID id).foldl (mirrorStep id now select) acc := by
  induction items generalizing acc with
  | nil => rfl
  | cons u rest ih =>
    rw [List.foldl_cons, List.filter_cons]
    by_cases hp : HasPrefix u.UUID id = true
    · rw [if_pos hp, List.foldl_cons]
      exact ih _
    · rw [if_neg hp]
      have hskip : mirrorStep id now select acc u = acc := by
        unfold mirrorStep
        simp [hp]
      rw [hskip]
      exact ih _

/-- C22: in `UserList` under a non-local login cluster, a call that succeeds
returns the response of the login cluster as it came: the same items in the
same order, users of other clusters included, every record with the
timestamps it came with.  A user whose uuid does not begin with the login
cluster id has no entry in the batch update, which is the batch built from the
other users alone. -/
theorem userList_returns_upstream (conn : Conn) (api : UserAPI) (now : Nat) (ctx : Context)
    (options : ListOptions)
    (hlogin : conn.cluster.LoginCluster ≠ "" ∧
      conn.cluster.LoginCluster ≠ conn.cluster.ClusterID)
    (hok : (conn.UserList api now ctx options).err = none) :
    (conn.UserList api now ctx options).resp =
      (api.userList (conn.chooseBackend conn.cluster.LoginCluster) ctx options).1 ∧
    (∀ call ∈ (conn.UserList api now ctx options).batchCalls,
      (∀ user ∈ (api.userList (conn.chooseBackend conn.cluster.LoginCluster) ctx
          options).1.Items,
        HasPrefix user.UUID conn.cluster.LoginCluster = false →
        call.2.2.Updates.lookup user.UUID = none) ∧
      call.2.2.Updates = mirrorBatch conn.cluster.LoginCluster now options.Select
        ((api.userList (conn.chooseBackend conn.cluster.LoginCluster) ctx options).1.Items.filter
          fun user => HasPrefix user.UUID conn.cluster.LoginCluster)) := by
  obtain ⟨-, -, hresp, -⟩ := userList_cases conn api now ctx options hlogin
  refine ⟨hresp hok, ?_⟩
  · intro call hcall
    have hupd := userList_batchCalls conn api now ctx options hlogin call hcall
    refine ⟨?_, ?_⟩
    · intro user _ hp
      rw [hupd]
      obtain ⟨h1, -, -⟩ := mirrorBatch_lookup conn.cluster.LoginCluster now options.Select
        (api.userList (conn.chooseBackend conn.cluster.LoginCluster) ctx options).1.Items []
      match hl : (mirrorBatch conn.cluster.LoginCluster now options.Select
          (api.userList (conn.chooseBackend conn.cluster.LoginCluster) ctx
            options).1.Items).lookup user.UUID with
      | none => rfl
      | some m =>
        rcases h1 user.UUID m hl with h | ⟨other, -, hpo, hid, -⟩
        · simp at h
        · rw [hid, hp] at hpo
          exact absurd hpo (by simp)
    · rw [hupd]
      exact mirrorBatch_filter _ _ _ _ []

set_option maxRecDepth 4000 in
/-- Witness for C22: the login cluster lists one user of its own and one of
cluster `bbbbb`, both with zero timestamps.  Both come back with their zero
timestamps, while the batch holds the first one only, with the clock reading
in place of the zero instants. -/
theorem userList_returns_upstream_witness :
    (loginConn.UserList mixedAPI 1000 ⟨some ["caller"]⟩ selectAll).resp =
      ⟨[userZ, userB], 2, 0, 2⟩ ∧
    ((loginConn.UserList mixedAPI 1000 ⟨some ["caller"]⟩ selectAll).resp.Items.map
      fun user => (user.CreatedAt, user.ModifiedAt)) = [(0, 0), (0, 0)] ∧
    ((loginConn.UserList mixedAPI 1000 ⟨some ["caller"]⟩ selectAll).batchCalls.map
      fun call => call.2.2.Updates.map
        fun entry => (entry.1, entry.2.lookup "created_at", entry.2.lookup "modified_at")) =
      [[("zzzzz-tpzed-000000000000000", some (JSONValue.time 1000),
          some (JSONValue.time 1000))]] :=
  ⟨(userList_returns_upstream loginConn mixedAPI 1000 ⟨some ["caller"]⟩ selectAll
      (by decide) (by decide)).1,
    by decide, by decide⟩

/-! ## CollectionGet by content hash: the one-slot channel -/

theorem collectionGetCallback_passes (md5 : List Char → List Nat)
    (get : backend → Context → GetOptions → Collection × Option GoError)
    (options : GetOptions) (ctx : Context) (remoteID : String) (be : backend)
    (h : passesIntegrity md5 get options ctx be = true) :
    collectionGetCallback md5 get options ctx remoteID be =
      (none, some (if remoteID ≠ "" then
        { (get be ctx options).1 with
          ManifestText := rewriteManifest (get be ctx options).1.ManifestText remoteID }
        else (get be ctx options).1)) := by
  unfold passesIntegrity at h
  unfold collectionGetCallback
  rcases hg : get be ctx options with ⟨c, err⟩
  rw [hg] at h
  cases err with
  | some e => simp at h
  | none =>
    simp only [Option.isNone_none, Bool.true_and, Bool.or_eq_true, beq_iff_eq] at h
    have hb : (portableDataHash md5 c.ManifestText != options.UUID &&
        !HasPrefix options.UUID (portableDataHash md5 c.ManifestText ++ "+")) = false := by
      rcases h with h | h
      · simp [h]
      · simp [h]
    simp only [hb, Bool.false_eq_true, if_false]
    by_cases hr : remoteID = ""
    · simp [hr]
    · simp [hr]

theorem collectionGetCallback_fails (md5 : List Char → List Nat)
    (get : backend → Context → GetOptions → Collection × Option GoError)
    (options : GetOptions) (ctx : Context) (remoteID : String) (be : backend)
    (h : passesIntegrity md5 get options ctx be = false) :
    (collectionGetCallback md5 get options ctx remoteID be).1 ≠ none ∧
    (collectionGetCallback md5 get options ctx remoteID be).2 = none := by
  unfold passesIntegrity at h
  unfold collectionGetCallback
  rcases hg : get be ctx options with ⟨c, err⟩
  rw [hg] at h
  cases err with
  | some e => exact ⟨by simp, rfl⟩
  | none =>
    simp only [Option.isNone_none, Bool.true_and, Bool.or_eq_false_iff, beq_eq_false_iff_ne,
      ne_eq] at h
    have hb : (portableDataHash md5 c.ManifestText != options.UUID &&
        !HasPrefix options.UUID (portableDataHash md5 c.ManifestText ++ "+")) = true := by
      simp [h.1, h.2]
    simp only [hb, if_true]
    simp

/-- The buffer keeps the first collection offered: later sends do not replace
it. -/
theorem foldl_publishStep (md5 : List Char → List Nat)
    (get : backend → Context → GetOptions → Collection × Option GoError)
    (options : GetOptions) (ctx : Context) (callers : List (String × backend))
    (first : Option Collection) :
    callers.foldl (publishStep md5 get options ctx) first =
      match first with
      | some held => some held
      | none => (callers.filterMap fun p =>
          (collectionGetCallback md5 get options ctx p.1 p.2).2).head? := by
  induction callers generalizing first with
  | nil => cases first <;> rfl
  | cons p rest ih =>
    rw [List.foldl_cons, ih]
    cases first with
    | some held =>
      unfold publishStep
      cases (collectionGetCallback md5 get options ctx p.1 p.2).2 <;> rfl
    | none =>
      unfold publishStep
      rw [List.filterMap_cons]
      cases (collectionGetCallback md5 get options ctx p.1 p.2).2 <;> rfl

theorem firstAfter_eq_head (md5 : List Char → List Nat)
    (get : backend → Context → GetOptions → Collection × Option GoError)
    (options : GetOptions) (ctx : Context) (callers : List (String × backend)) :
    firstAfter md5 get options ctx callers =
      (callers.filterMap fun p =>
        (collectionGetCallback md5 get options ctx p.1 p.2).2).head? := by
  rw [firstAfter, foldl_publishStep]

/-- Callers that do not pass the integrity check leave the buffer empty. -/
theorem filterMap_offers_of_fail (md5 : List Char → List Nat)
    (get : backend → Context → GetOptions → Collection × Option GoError)
    (options : GetOptions) (ctx : Context) (callers : List (String × backend))
    (h : ∀ q ∈ callers, passesIntegrity md5 get options ctx q.2 = false) :
    (callers.filterMap fun p => (collectionGetCallback md5 get options ctx p.1 p.2).2) = [] := by
  induction callers with
  | nil => rfl
  | cons q rest ih =>
    rw [List.filterMap_cons,
      (collectionGetCallback_fails md5 get options ctx q.1 q.2 (h q (List.mem_cons_self _ _))).2]
    exact ih fun r hr => h r (List.mem_cons_of_mem _ hr)

/-- The result of a content-hash `CollectionGet` in terms of the fan-out and
of the buffer of `first`. -/
theorem collectionGet_pdh_run (conn : Conn) (md5 : List Char → List Nat)
    (get : backend → Context → GetOptions → Collection × Option GoError)
    (ctx : Context) (options : GetOptions) (arrival publish : List (String × backend))
    (hlen : options.UUID.length ≠ 27) :
    (conn.CollectionGet md5 get ctx options arrival publish).err =
      (conn.tryLocalThenRemotes ctx
        (fun ctx remoteID be => (collectionGetCallback md5 get options ctx remoteID be).1)
        arrival).err ∧
    (conn.CollectionGet md5 get ctx options arrival publish).calls =
      (conn.tryLocalThenRemotes ctx
        (fun ctx remoteID be => (collectionGetCallback md5 get options ctx remoteID be).1)
        arrival).calls.map Prod.snd ∧
    ((conn.CollectionGet md5 get ctx options arrival publish).err = none →
      (conn.CollectionGet md5 get ctx options arrival publish).c =
        (firstAfter md5 get options ctx (("", conn.localBackend) :: publish)).getD
          ⟨"", "", ""⟩) ∧
    ((conn.CollectionGet md5 get ctx options arrival publish).err ≠ none →
      (conn.CollectionGet md5 get ctx options arrival publish).c = ⟨"", "", ""⟩) := by
  unfold Conn.CollectionGet
  rw [if_neg hlen]
  simp only []
  cases hrun : (conn.tryLocalThenRemotes ctx
      (fun ctx remoteID be => (collectionGetCallback md5 get options ctx remoteID be).1)
      arrival).err with
  | some e => exact ⟨rfl, rfl, fun h => by simp at h, fun _ => rfl⟩
  | none =>
    refine ⟨rfl, rfl, fun _ => ?_, fun h => by simp at h⟩
    rw [firstAfter_eq_head]

theorem collectionGetCallback_offers (md5 : List Char → List Nat)
    (get : backend → Context → GetOptions → Collection × Option GoError)
    (options : GetOptions) (ctx : Context) (remoteID : String) (be : backend)
    (h : (collectionGetCallback md5 get options ctx remoteID be).1 = none) :
    passesIntegrity md5 get options ctx be = true := by
  cases hp : passesIntegrity md5 get options ctx be with
  | true => rfl
  | false => exact absurd h (collectionGetCallback_fails md5 get options ctx remoteID be hp).1

theorem head?_filterMap_of_mem {α β : Type} (f : α → Option β) (l : List α) (a : α) (b : β)
    (ha : a ∈ l) (hb : f a = some b) : ∃ x, (l.filterMap f).head? = some x := by
  have hmem : b ∈ l.filterMap f := List.mem_filterMap.mpr ⟨a, ha, hb⟩
  cases hl : l.filterMap f with
  | nil => rw [hl] at hmem; simp at hmem
  | cons x xs => exact ⟨x, rfl⟩

theorem tryLocalThenRemotes_calls_of_local_404 (conn : Conn) (ctx : Context)
    (fn : Context → String → backend → Option GoError)
    (arrival : List (String × backend))
    (hlocal : errStatus (fn ctx "" conn.localBackend) = 404) :
    (conn.tryLocalThenRemotes ctx fn arrival).calls = ("", conn.localBackend) :: conn.remotes := by
  have hne := errStatus_eq_404_ne_none hlocal
  unfold Conn.tryLocalThenRemotes
  simp only []
  rw [if_neg]
  rintro (h | h)
  · exact hne h
  · exact h hlocal

/-- After a nil error of the fan-out, some callback has offered a collection:
the buffer of `first` is not empty. -/
theorem firstAfter_of_ok (conn : Conn) (md5 : List Char → List Nat)
    (get : backend → Context → GetOptions → Collection × Option GoError)
    (ctx : Context) (options : GetOptions) (arrival publish : List (String × backend))
    (harr : arrival.Perm conn.remotes) (hpub : publish.Perm conn.remotes)
    (hok : (conn.tryLocalThenRemotes ctx
      (fun ctx remoteID be => (collectionGetCallback md5 get options ctx remoteID be).1)
      arrival).err = none) :
    ∃ c, firstAfter md5 get options ctx (("", conn.localBackend) :: publish) = some c := by
  rw [firstAfter_eq_head]
  have hcaller : ∃ p ∈ ("", conn.localBackend) :: publish,
      (collectionGetCallback md5 get options ctx p.1 p.2).1 = none := by
    unfold Conn.tryLocalThenRemotes at hok
    simp only [] at hok
    split at hok
    · exact ⟨("", conn.localBackend), List.mem_cons_self _ _, hok⟩
    · have hmem : none ∈ arrival.map fun p =>
          (collectionGetCallback md5 get options ctx p.1 p.2).1 := by
        by_contra hno
        rw [collectRemotes_of_all_fail _ _ _ hno] at hok
        split at hok <;> simp at hok
      obtain ⟨p, hp, hnone⟩ := List.mem_map.mp hmem
      exact ⟨p, List.mem_cons_of_mem _ (hpub.symm.subset (harr.subset hp)), hnone⟩
  obtain ⟨p, hp, hnone⟩ := hcaller
  have hpass := collectionGetCallback_offers md5 get options ctx p.1 p.2 hnone
  have hcb := collectionGetCallback_passes md5 get options ctx p.1 p.2 hpass
  exact head?_filterMap_of_mem _ _ p _ hp (by rw [hcb])

/-- C26: in a content-hash `CollectionGet`, when the local backend returns a
collection, no remote backend is called.  If the portable data hash of its
manifest is neither the requested identifier nor continued by it with `+`,
the call fails with status 502 and returns the empty collection; otherwise the
call succeeds and returns the local collection as it is, manifest
included. -/
theorem collectionGet_local_answer (conn : Conn) (md5 : List Char → List Nat)
    (get : backend → Context → GetOptions → Collection × Option GoError)
    (ctx : Context) (options : GetOptions) (arrival publish : List (String × backend))
    (hlen : options.UUID.length ≠ 27) (c : Collection)
    (hget : get conn.localBackend ctx options = (c, none)) :
    (conn.CollectionGet md5 get ctx options arrival publish).calls = [conn.localBackend] ∧
    (¬ (portableDataHash md5 c.ManifestText = options.UUID ∨
        HasPrefix options.UUID (portableDataHash md5 c.ManifestText ++ "+") = true) →
      errStatus (conn.CollectionGet md5 get ctx options arrival publish).err = 502 ∧
      (conn.CollectionGet md5 get ctx options arrival publish).c = ⟨"", "", ""⟩) ∧
    ((portableDataHash md5 c.ManifestText = options.UUID ∨
        HasPrefix options.UUID (portableDataHash md5 c.ManifestText ++ "+") = true) →
      (conn.CollectionGet md5 get ctx options arrival publish).err = none ∧
      (conn.CollectionGet md5 get ctx options arrival publish).c = c) := by
  obtain ⟨hiff, h502⟩ := collectionGetCallback_of_ok md5 get options ctx "" conn.localBackend c hget
  obtain ⟨herr, hcalls, hc, hcerr⟩ :=
    collectionGet_pdh_run conn md5 get ctx options arrival publish hlen
  have hnot404 : errStatus ((fun ctx remoteID be =>
      (collectionGetCallback md5 get options ctx remoteID be).1) ctx "" conn.localBackend)
      ≠ 404 := by
    show errStatus (collectionGetCallback md5 get options ctx "" conn.localBackend).1 ≠ 404
    by_cases hacc : portableDataHash md5 c.ManifestText = options.UUID ∨
        HasPrefix options.UUID (portableDataHash md5 c.ManifestText ++ "+") = true
    · rw [hiff.mpr hacc]; decide
    · rw [h502 hacc]; decide
  have hrun := tryLocalThenRemotes_of_local_not_404 conn ctx
    (fun ctx remoteID be => (collectionGetCallback md5 get options ctx remoteID be).1)
    arrival hnot404
  rw [hrun] at herr hcalls
  simp only [List.map_cons, List.map_nil] at herr hcalls
  refine ⟨hcalls, ?_, ?_⟩
  · intro hbad
    have h := h502 hbad
    rw [← herr] at h
    refine ⟨h, hcerr ?_⟩
    intro hnone
    rw [hnone] at h
    simp [errStatus] at h
  · intro hacc
    have hok : (conn.CollectionGet md5 get ctx options arrival publish).err = none := by
      rw [herr]; exact hiff.mpr hacc
    refine ⟨hok, ?_⟩
    rw [hc hok, firstAfter_eq_head, List.filterMap_cons]
    have hpass : passesIntegrity md5 get options ctx conn.localBackend = true :=
      collectionGetCallback_offers md5 get options ctx "" conn.localBackend (hiff.mpr hacc)
    rw [collectionGetCallback_passes md5 get options ctx "" conn.localBackend hpass]
    simp [hget]

set_option maxRecDepth 4000 in
/-- Witness for C26: the local backend answers a request for the empty
content with a collection of another content, and the call fails with 502
without a call to `bbbbb` or `ccccc`; it answers a request for the content of
`scenarioManifest` with that manifest, which comes back with its `+A` hint. -/
theorem collectionGet_local_answer_witness :
    ((twoRemotes.CollectionGet toyDigest getLocalHit ⟨none⟩ ⟨emptyPDH, [], false⟩
        twoRemotes.remotes twoRemotes.remotes).calls = [backend.localdb] ∧
      errStatus (twoRemotes.CollectionGet toyDigest getLocalHit ⟨none⟩ ⟨emptyPDH, [], false⟩
        twoRemotes.remotes twoRemotes.remotes).err = 502) ∧
    (twoRemotes.CollectionGet toyDigest getLocalHit ⟨none⟩ ⟨scenarioPDH, [], false⟩
      twoRemotes.remotes twoRemotes.remotes).c = ⟨"", scenarioPDH, scenarioManifest⟩ :=
  ⟨⟨(collectionGet_local_answer twoRemotes toyDigest getLocalHit ⟨none⟩ ⟨emptyPDH, [], false⟩
        twoRemotes.remotes twoRemotes.remotes (by decide)
        ⟨"", emptyPDH, scenarioManifest⟩ rfl).1,
      ((collectionGet_local_answer twoRemotes toyDigest getLocalHit ⟨none⟩ ⟨emptyPDH, [], false⟩
        twoRemotes.remotes twoRemotes.remotes (by decide)
        ⟨"", emptyPDH, scenarioManifest⟩ rfl).2.1 (by decide)).1⟩,
    ((collectionGet_local_answer twoRemotes toyDigest getLocalHit ⟨none⟩
        ⟨scenarioPDH, [], false⟩ twoRemotes.remotes twoRemotes.remotes (by decide)
        ⟨"", scenarioPDH, scenarioManifest⟩ rfl).2.2 (by decide)).2⟩

/-- C25: in a content-hash `CollectionGet`, the value read from the one-slot
channel after a successful fan-out is always there: some callback has filled
the slot.  When the local backend answers 404 and at least one remote returns
a collection that passes the integrity check, then for every order of arrival
of the results and every order in which the callbacks reach their send, the
call succeeds, a callback has been launched for every remote, and the
collection returned is the one of the first remote in publishing order that
passes the check, with its manifest rewritten for that remote: the slot is
empty until that remote publishes and holds its collection ever after,
whichever remotes publish later. -/
theorem collectionGet_first_publisher (conn : Conn) (md5 : List Char → List Nat)
    (get : backend → Context → GetOptions → Collection × Option GoError)
    (ctx : Context) (options : GetOptions) (arrival publish : List (String × backend))
    (hlen : options.UUID.length ≠ 27)
    (harr : arrival.Perm conn.remotes) (hpub : publish.Perm conn.remotes) :
    ((conn.CollectionGet md5 get ctx options arrival publish).err = none →
      firstAfter md5 get options ctx (("", conn.localBackend) :: publish) =
        some (conn.CollectionGet md5 get ctx options arrival publish).c) ∧
    (errStatus (get conn.localBackend ctx options).2 = 404 →
      (∀ p ∈ conn.remotes, p.1 ≠ "") →
      (∃ p ∈ conn.remotes, passesIntegrity md5 get options ctx p.2 = true) →
      (conn.CollectionGet md5 get ctx options arrival publish).err = none ∧
      (conn.CollectionGet md5 get ctx options arrival publish).calls =
        conn.localBackend :: conn.remotes.map Prod.snd ∧
      ∃ pre p post, publish = pre ++ p :: post ∧
        (∀ q ∈ pre, passesIntegrity md5 get options ctx q.2 = false) ∧
        passesIntegrity md5 get options ctx p.2 = true ∧
        (conn.CollectionGet md5 get ctx options arrival publish).c =
          { (get p.2 ctx options).1 with
            ManifestText := rewriteManifest (get p.2 ctx options).1.ManifestText p.1 } ∧
        ∀ k, firstAfter md5 get options ctx (("", conn.localBackend) :: publish.take k) =
          if k ≤ pre.length then none
          else some (conn.CollectionGet md5 get ctx options arrival publish).c) := by
  obtain ⟨herr, hcalls, hc, -⟩ :=
    collectionGet_pdh_run conn md5 get ctx options arrival publish hlen
  have hfull : (conn.CollectionGet md5 get ctx options arrival publish).err = none →
      firstAfter md5 get options ctx (("", conn.localBackend) :: publish) =
        some (conn.CollectionGet md5 get ctx options arrival publish).c := by
    intro hok
    obtain ⟨c, hfirst⟩ := firstAfter_of_ok conn md5 get ctx options arrival publish harr hpub
      (herr ▸ hok)
    rw [hc hok, hfirst]
    rfl
  refine ⟨hfull, ?_⟩
  intro hlocal hids hpass
  -- the local callback fails with the 404 of the local backend
  have hlocalcb : collectionGetCallback md5 get options ctx "" conn.localBackend =
      ((get conn.localBackend ctx options).2, none) := by
    have hne := errStatus_eq_404_ne_none hlocal
    unfold collectionGetCallback
    match hg : get conn.localBackend ctx options with
    | (c', some e) => rfl
    | (c', none) => rw [hg] at hne; exact absurd rfl hne
  have hlocal' : errStatus ((fun ctx remoteID be =>
      (collectionGetCallback md5 get options ctx remoteID be).1) ctx "" conn.localBackend)
      = 404 := by
    show errStatus (collectionGetCallback md5 get options ctx "" conn.localBackend).1 = 404
    rw [hlocalcb]; exact hlocal
  have hok : (conn.CollectionGet md5 get ctx options arrival publish).err = none := by
    rw [herr, tryLocalThenRemotes_err_of_local_404 conn ctx _ arrival harr hlocal', if_pos]
    obtain ⟨p, hp, hpp⟩ := hpass
    exact ⟨p, hp, by
      show (collectionGetCallback md5 get options ctx p.1 p.2).1 = none
      rw [collectionGetCallback_passes md5 get options ctx p.1 p.2 hpp]⟩
  refine ⟨hok, ?_, ?_⟩
  · rw [hcalls, tryLocalThenRemotes_calls_of_local_404 conn ctx _ arrival hlocal']
    rfl
  · have hpass' : ∃ p ∈ publish, passesIntegrity md5 get options ctx p.2 = true := by
      obtain ⟨p, hp, hpp⟩ := hpass
      exact ⟨p, hpub.symm.subset hp, hpp⟩
    obtain ⟨pre, p, post, hsplit, hpre, hp⟩ :=
      exists_first (fun p => passesIntegrity md5 get options ctx p.2 = true) publish hpass'
    have hpre' : ∀ q ∈ pre, passesIntegrity md5 get options ctx q.2 = false := by
      intro q hq
      have := hpre q hq
      simpa using this
    have hpmem : p ∈ conn.remotes := by
      apply hpub.subset
      rw [hsplit]
      simp
    have hoffer : (collectionGetCallback md5 get options ctx p.1 p.2).2 =
        some { (get p.2 ctx options).1 with
          ManifestText := rewriteManifest (get p.2 ctx options).1.ManifestText p.1 } := by
      rw [collectionGetCallback_passes md5 get options ctx p.1 p.2 hp, if_pos (hids p hpmem)]
    -- the slot after the local callback, the failing ones and the first that passes
    have hslot : ∀ rest, firstAfter md5 get options ctx
        (("", conn.localBackend) :: (pre ++ p :: rest)) =
        some { (get p.2 ctx options).1 with
          ManifestText := rewriteManifest (get p.2 ctx options).1.ManifestText p.1 } := by
      intro rest
      rw [firstAfter_eq_head, List.filterMap_cons, hlocalcb, List.filterMap_append,
        filterMap_offers_of_fail md5 get options ctx pre hpre', List.filterMap_cons, hoffer]
      rfl
    have hcval : (conn.CollectionGet md5 get ctx options arrival publish).c =
        { (get p.2 ctx options).1 with
          ManifestText := rewriteManifest (get p.2 ctx options).1.ManifestText p.1 } := by
      have h := hfull hok
      have h2 := hslot post
      rw [← hsplit] at h2
      rw [h2] at h
      exact (Option.some.inj h).symm
    refine ⟨pre, p, post, hsplit, hpre', hp, hcval, ?_⟩
    intro k
    by_cases hk : k ≤ pre.length
    · rw [if_pos hk, hsplit, List.take_append_of_le_length hk, firstAfter_eq_head,
        List.filterMap_cons, hlocalcb,
        filterMap_offers_of_fail md5 get options ctx (pre.take k)
          (fun q hq => hpre' q (List.mem_of_mem_take hq))]
      rfl
    · rw [if_neg hk, hcval, hsplit]
      have hk' : pre.length < k := Nat.lt_of_not_le hk
      have htake : (pre ++ p :: post).take k = pre ++ p :: post.take (k - pre.length - 1) := by
        rw [List.take_append_eq_append_take, List.take_of_length_le (Nat.le_of_lt hk')]
        have : k - pre.length = (k - pre.length - 1) + 1 := by omega
        rw [this, List.take_succ_cons]
        simp
      rw [htake]
      exact hslot _

set_option maxRecDepth 8000 in
/-- Witness for C25: local answers 404, `bbbbb` and `ccccc` both hold the
content asked for.  When `bbbbb` publishes first its collection is returned,
when `ccccc` publishes first it is the one of `ccccc`, in both cases rewritten
for the winner; both remotes have been called. -/
theorem collectionGet_first_publisher_witness :
    ((twoRemotes.CollectionGet toyDigest getFromPeers ⟨none⟩ ⟨scenarioPDH, [], false⟩
        twoRemotes.remotes twoRemotes.remotes).err = none ∧
      (twoRemotes.CollectionGet toyDigest getFromPeers ⟨none⟩ ⟨scenarioPDH, [], false⟩
        twoRemotes.remotes twoRemotes.remotes).calls =
          twoRemotes.localBackend :: twoRemotes.remotes.map Prod.snd) ∧
    (twoRemotes.CollectionGet toyDigest getFromPeers ⟨none⟩ ⟨scenarioPDH, [], false⟩
      twoRemotes.remotes twoRemotes.remotes).c.ManifestText =
        ". abcabcabcabcabcabcabcabcabcabcab+123+Rbbbbb-sigbbbbb@exp 0:123:f\n" ∧
    (twoRemotes.CollectionGet toyDigest getFromPeers ⟨none⟩ ⟨scenarioPDH, [], false⟩
      twoRemotes.remotes twoRemotes.remotes.reverse).c.ManifestText =
        ". abcabcabcabcabcabcabcabcabcabcab+123+Rccccc-sigccccc@exp 0:123:f\n" :=
  have h := (collectionGet_first_publisher twoRemotes toyDigest getFromPeers ⟨none⟩
    ⟨scenarioPDH, [], false⟩ twoRemotes.remotes twoRemotes.remotes (by decide)
    (List.Perm.refl _) (List.Perm.refl _)).2 (by decide) (by decide)
    ⟨("bbbbb", backend.rpc "bbbbb" "https" "bbbbb.example" false), by decide, by decide⟩
  ⟨⟨h.1, h.2.1⟩, by decide, by decide⟩

/-! ## CollectionGet by uuid: a prefix that names no backend -/

/-- Replacing `+A` by a longer text does not shorten a token, and lengthens a
token in which `+A` occurs. -/
theorem replacePlusA_length (new : List Char) (hnew : 2 < new.length) :
    ∀ (n : Nat) (s : List Char), s.length ≤ n →
      s.length ≤ (replacePlusA new s).length ∧
      (['+', 'A'] <:+: s → s.length < (replacePlusA new s).length) := by
  intro n
  induction n with
  | zero =>
    intro s hlen
    have : s = [] := List.length_eq_zero.mp (Nat.le_zero.mp hlen)
    subst this
    refine ⟨Nat.le_refl _, ?_⟩
    rintro ⟨a, b, hab⟩
    simp at hab
  | succ n ih =>
    intro s hlen
    match s, hlen with
    | [], _ =>
      refine ⟨Nat.le_refl _, ?_⟩
      rintro ⟨a, b, hab⟩
      simp at hab
    | [c], _ =>
      refine ⟨Nat.le_refl _, ?_⟩
      rintro ⟨a, b, hab⟩
      have := congrArg List.length hab
      simp at this
      omega
    | c :: d :: rest, hlen =>
      have hrest : rest.length ≤ n := by
        simp only [List.length_cons] at hlen
        omega
      have hdrest : (d :: rest).length ≤ n := by
        simp only [List.length_cons] at hlen ⊢
        omega
      rw [replacePlusA]
      by_cases hc : c = '+' ∧ d = 'A'
      · rw [if_pos hc]
        have h1 := (ih rest hrest).1
        have hl : (c :: d :: rest).length < (new ++ replacePlusA new rest).length := by
          simp only [List.length_cons, List.length_append]
          omega
        exact ⟨Nat.le_of_lt hl, fun _ => hl⟩
      · rw [if_neg hc]
        obtain ⟨h1, h2⟩ := ih (d :: rest) hdrest
        refine ⟨by simp only [List.length_cons] at h1 ⊢; omega, ?_⟩
        rintro ⟨a, b, hab⟩
        cases a with
        | nil =>
          simp only [List.nil_append, List.cons_append, List.cons.injEq] at hab
          exact absurd ⟨hab.1.symm, hab.2.1.symm⟩ hc
        | cons x a' =>
          simp only [List.cons_append, List.cons.injEq] at hab
          have hin : ['+', 'A'] <:+: d :: rest := ⟨a', b, by simpa using hab.2⟩
          have := h2 hin
          simp only [List.length_cons] at this ⊢
          omega

/-- Rewriting token by token does not shorten a list of tokens, and lengthens
it when some block token holds `+A`. -/
theorem flatten_rewrite_length (R : List Char) (toks : List (List Char)) :
    toks.flatten.length ≤ ((toks.map fun tok =>
      if isBlockTokenSpec tok then replacePlusA (['+', 'R'] ++ R ++ ['-']) tok
      else tok).flatten).length ∧
    ((∃ tok ∈ toks, isBlockTokenSpec tok = true ∧ ['+', 'A'] <:+: tok) →
      toks.flatten.length < ((toks.map fun tok =>
        if isBlockTokenSpec tok then replacePlusA (['+', 'R'] ++ R ++ ['-']) tok
        else tok).flatten).length) := by
  have hnew : 2 < (['+', 'R'] ++ R ++ ['-']).length := by
    simp only [List.length_append, List.length_cons, List.length_nil]
    omega
  induction toks with
  | nil =>
    refine ⟨Nat.le_refl _, ?_⟩
    rintro ⟨tok, hmem, -⟩
    simp at hmem
  | cons t rest ih =>
    obtain ⟨ih1, ih2⟩ := ih
    obtain ⟨ht1, ht2⟩ := replacePlusA_length _ hnew t.length t (Nat.le_refl _)
    have hle : t.length ≤ (if isBlockTokenSpec t then
        replacePlusA (['+', 'R'] ++ R ++ ['-']) t else t).length := by
      split
      · exact ht1
      · exact Nat.le_refl _
    simp only [List.map_cons, List.flatten_cons, List.length_append]
    refine ⟨Nat.add_le_add hle ih1, ?_⟩
    rintro ⟨tok, hmem, hblock, hin⟩
    rcases List.mem_cons.mp hmem with rfl | hmem'
    · rw [if_pos hblock]
      have := ht2 hin
      omega
    · have := ih2 ⟨tok, hmem', hblock, hin⟩
      omega

/-- A manifest with a signature hint in one of its block tokens is changed by
the rewrite. -/
theorem rewriteManifest_ne_of_hint (mt remoteID : String)
    (hhint : ∃ tok ∈ (spaceTokens mt.data).2, isBlockTokenSpec tok = true ∧
      ['+', 'A'] <:+: tok) :
    rewriteManifest mt remoteID ≠ mt := by
  intro heq
  have hlen : (rewriteManifest mt remoteID).data.length = mt.data.length := by rw [heq]
  rw [rewriteManifest, rewriteManifestBytes_eq_rewriteSpec, rewriteSpec] at hlen
  have hlt := (flatten_rewrite_length remoteID.data (spaceTokens mt.data).2).2 hhint
  have hflat := congrArg List.length (spaceTokens_flatten mt.data)
  simp only [List.length_append] at hlen hflat
  omega

/-- A token without `+A` is left as it is by the replacement. -/
theorem replacePlusA_of_no_hint (new : List Char) :
    ∀ (n : Nat) (s : List Char), s.length ≤ n → ¬ ['+', 'A'] <:+: s →
      replacePlusA new s = s := by
  intro n
  induction n with
  | zero =>
    intro s hlen _
    have : s = [] := List.length_eq_zero.mp (Nat.le_zero.mp hlen)
    subst this
    rfl
  | succ n ih =>
    intro s hlen hno
    match s, hlen, hno with
    | [], _, _ => rfl
    | [c], _, _ => rfl
    | c :: d :: rest, hlen, hno =>
      have hdrest : (d :: rest).length ≤ n := by
        simp only [List.length_cons] at hlen ⊢
        omega
      rw [replacePlusA]
      by_cases hc : c = '+' ∧ d = 'A'
      · exfalso
        apply hno
        refine ⟨[], rest, ?_⟩
        rw [hc.1, hc.2]
        rfl
      · rw [if_neg hc, ih (d :: rest) hdrest]
        rintro ⟨a, b, hab⟩
        exact hno ⟨c :: a, b, by rw [← hab]; rfl⟩

/-- A manifest without a signature hint in its block tokens is not changed by
the rewrite. -/
theorem rewriteManifest_of_no_hint (mt remoteID : String)
    (hno : ¬ ∃ tok ∈ (spaceTokens mt.data).2, isBlockTokenSpec tok = true ∧
      ['+', 'A'] <:+: tok) :
    rewriteManifest mt remoteID = mt := by
  have hmap : ∀ toks : List (List Char),
      (∀ tok ∈ toks, isBlockTokenSpec tok = true → ¬ ['+', 'A'] <:+: tok) →
      (toks.map fun tok =>
        if isBlockTokenSpec tok then
          replacePlusA (['+', 'R'] ++ remoteID.data ++ ['-']) tok
        else tok) = toks := by
    intro toks
    induction toks with
    | nil => intro _; rfl
    | cons t rest ih =>
      intro h
      rw [List.map_cons, ih (fun tok ht => h tok (List.mem_cons_of_mem _ ht))]
      by_cases hb : isBlockTokenSpec t = true
      · rw [if_pos hb, replacePlusA_of_no_hint _ t.length t (Nat.le_refl _)
          (h t (List.mem_cons_self _ _) hb)]
      · rw [if_neg hb]
  rw [rewriteManifest, rewriteManifestBytes_eq_rewriteSpec, rewriteSpec,
    hmap _ (fun tok ht hb hin => hno ⟨tok, ht, hb, hin⟩), spaceTokens_flatten]

set_option maxRecDepth 4000 in
/-- Counterexample to C27: no cluster `zzzzz` is configured and `zzzzz` is not
the router's own cluster id, yet the manifest of the local collection, which
has no `+A` hint, comes back as the local backend gave it. -/
theorem collectionGet_plain_manifest_unchanged :
    "zzzzz-4zz18-xxxxxxxxxxxxxxx".length = 27 ∧
    slicePrefix "zzzzz-4zz18-xxxxxxxxxxxxxxx" 5 ≠ twoRemotes.cluster.ClusterID ∧
    twoRemotes.remotes.lookup (slicePrefix "zzzzz-4zz18-xxxxxxxxxxxxxxx" 5) = none ∧
    (twoRemotes.CollectionGet toyDigest getPlain ⟨none⟩
      ⟨"zzzzz-4zz18-xxxxxxxxxxxxxxx", [], false⟩ [] []).err = none ∧
    (twoRemotes.CollectionGet toyDigest getPlain ⟨none⟩
      ⟨"zzzzz-4zz18-xxxxxxxxxxxxxxx", [], false⟩ [] []).c.ManifestText =
      (getPlain twoRemotes.localBackend ⟨none⟩
        ⟨"zzzzz-4zz18-xxxxxxxxxxxxxxx", [], false⟩).1.ManifestText := by
  decide

/-- C27 (amended): a `CollectionGet` whose uuid has length 27 and whose first
five characters are neither the router's own cluster id nor the id of a
configured proxy remote is served by the local backend alone, and on success
the manifest returned is the local one rewritten for that prefix: every `+A`
inside a block token has become `+R`, the prefix and `-`.  For a uuid of
length 27 in general, the manifest comes back as the backend gave it when the
prefix is the router's own cluster id, and for any other prefix exactly when
no block token of the manifest holds `+A`. -/
theorem collectionGet_unconfigured_cluster (conn : Conn) (md5 : List Char → List Nat)
    (get : backend → Context → GetOptions → Collection × Option GoError)
    (ctx : Context) (options : GetOptions) (arrival publish : List (String × backend))
    (hlen : options.UUID.length = 27) :
    (slicePrefix options.UUID 5 ≠ conn.cluster.ClusterID →
      conn.remotes.lookup (slicePrefix options.UUID 5) = none →
      (conn.CollectionGet md5 get ctx options arrival publish).calls = [conn.localBackend] ∧
      (conn.CollectionGet md5 get ctx options arrival publish).err =
        (get conn.localBackend ctx options).2 ∧
      ((get conn.localBackend ctx options).2 = none →
        (conn.CollectionGet md5 get ctx options arrival publish).c =
          { (get conn.localBackend ctx options).1 with
            ManifestText := rewriteManifest (get conn.localBackend ctx options).1.ManifestText
              (slicePrefix options.UUID 5) } ∧
        (conn.CollectionGet md5 get ctx options arrival publish).c.ManifestText.data =
          rewriteSpec (get conn.localBackend ctx options).1.ManifestText.data
            (slicePrefix options.UUID 5).data)) ∧
    (∀ c, get (conn.chooseBackend options.UUID) ctx options = (c, none) →
      (slicePrefix options.UUID 5 = conn.cluster.ClusterID →
        (conn.CollectionGet md5 get ctx options arrival publish).c = c) ∧
      (slicePrefix options.UUID 5 ≠ conn.cluster.ClusterID →
        ((conn.CollectionGet md5 get ctx options arrival publish).c.ManifestText =
            c.ManifestText ↔
          ¬ ∃ tok ∈ (spaceTokens c.ManifestText.data).2, isBlockTokenSpec tok = true ∧
            ['+', 'A'] <:+: tok))) := by
  refine ⟨?_, ?_⟩
  · intro hown hremote
    have hbe : conn.chooseBackend options.UUID = conn.localBackend := by
      simp only [Conn.chooseBackend, if_pos hlen, Conn.backendFor, if_neg hown, hremote]
    unfold Conn.CollectionGet
    rw [if_pos hlen, hbe]
    rcases hg : get conn.localBackend ctx options with ⟨c, err⟩
    cases err with
    | some e =>
      simp only []
      rw [if_neg (by simp)]
      exact ⟨rfl, rfl, fun h => by simp at h⟩
    | none =>
      simp only []
      rw [if_pos ⟨trivial, hown⟩]
      refine ⟨rfl, rfl, fun _ => ⟨rfl, ?_⟩⟩
      show (rewriteManifest c.ManifestText (slicePrefix options.UUID 5)).data = _
      rw [rewriteManifest, rewriteManifestBytes_eq_rewriteSpec]
  · intro c hget
    unfold Conn.CollectionGet
    rw [if_pos hlen, hget]
    simp only []
    refine ⟨?_, ?_⟩
    · intro hown
      rw [if_neg (fun h => h.2 hown)]
    · intro hown
      rw [if_pos ⟨trivial, hown⟩]
      constructor
      · intro hsame hhint
        exact rewriteManifest_ne_of_hint c.ManifestText (slicePrefix options.UUID 5) hhint hsame
      · intro hno
        exact rewriteManifest_of_no_hint c.ManifestText (slicePrefix options.UUID 5) hno

set_option maxRecDepth 4000 in
/-- Witness for C27 (amended): no cluster `zzzzz` is configured, so the request goes to
the local backend, and the signature hint of the local collection comes back
as `+Rzzzzz-sig@exp`. -/
theorem collectionGet_unconfigured_cluster_witness :
    (twoRemotes.CollectionGet toyDigest getScenario ⟨none⟩
        ⟨"zzzzz-4zz18-xxxxxxxxxxxxxxx", [], false⟩ [] []).calls = [backend.localdb] ∧
    (twoRemotes.CollectionGet toyDigest getScenario ⟨none⟩
        ⟨"zzzzz-4zz18-xxxxxxxxxxxxxxx", [], false⟩ [] []).c.ManifestText =
      ". abcabcabcabcabcabcabcabcabcabcab+123+Rzzzzz-sig@exp 0:123:f\n" :=
  have h := (collectionGet_unconfigured_cluster twoRemotes toyDigest getScenario ⟨none⟩
    ⟨"zzzzz-4zz18-xxxxxxxxxxxxxxx", [], false⟩ [] [] (by decide)).1 (by decide) (by decide)
  ⟨h.1, by rw [(h.2.2 rfl).1]; decide⟩

/-! ## Login: redirect and configuration error -/

theorem valuesEncode_return_to (rt : String) :
    ValuesEncode [("return_to", [rt])] = "return_to=" ++ QueryEscape rt := by
  have hq : QueryEscape "return_to" = "return_to" := by decide
  simp only [ValuesEncode, List.map_cons, List.map_nil, sortStrings, List.foldr_cons,
    List.foldr_nil, insertKey, List.flatMap_cons, List.flatMap_nil, encodeKey, List.lookup,
    beq_self_eq_true, Option.getD_some, hq, List.append_nil]
  have hl : "return_to" ++ "=" = "return_to=" := by decide
  rw [hl]
  rfl

theorem valuesEncode_remote (rt rm : String) :
    ValuesEncode (mapSet [("return_to", [rt])] "remote" [rm]) =
      "remote=" ++ QueryEscape rm ++ "&return_to=" ++ QueryEscape rt := by
  have hset : mapSet [("return_to", [rt])] "remote" [rm] =
      [("return_to", [rt]), ("remote", [rm])] := by
    simp [mapSet]
  have hsort : sortStrings ["return_to", "remote"] = ["remote", "return_to"] := by decide
  have hq1 : QueryEscape "return_to" = "return_to" := by decide
  have hq2 : QueryEscape "remote" = "remote" := by decide
  have hne : ("remote" == "return_to") = false := by decide
  rw [hset]
  simp only [ValuesEncode, List.map_cons, List.map_nil, hsort, List.flatMap_cons,
    List.flatMap_nil, encodeKey, List.lookup, beq_self_eq_true, hne, Option.getD_some, hq1, hq2,
    List.append_nil, List.singleton_append]
  show ("remote" ++ "=" ++ QueryEscape rm) ++ "&" ++ ("return_to" ++ "=" ++ QueryEscape rt) = _
  apply String.ext
  simp only [String.data_append]
  simp

theorem resolvePath_login (base : List Char) :
    ∃ rest, resolvePath base EndpointLogin.Path.data = '/' :: rest := by
  have hne : EndpointLogin.Path.data ≠ [] := by decide
  have hhead : EndpointLogin.Path.data.head? ≠ some '/' := by decide
  unfold resolvePath
  simp only [if_neg hne, hhead, ne_eq, not_false_eq_true, if_true]
  rw [if_neg]
  · exact ⟨_, rfl⟩
  · intro h
    have := congrArg List.length h
    simp only [List.length_append, List.length_nil] at this
    have hl : EndpointLogin.Path.data.length = 5 := by decide
    omega

theorem string_ne_empty_of_append_left {a b : String} (h : a ≠ "") : a ++ b ≠ "" := by
  intro hab
  apply h
  have := congrArg String.data hab
  simp only [String.data_append] at this
  have hnil : a.data = [] := (List.append_eq_nil.mp this).1
  exact String.ext hnil

/-- The text of a URL that has a scheme, a host, a path that begins with `/`
and a query. -/
theorem URL_String_full (scheme host query : String) (rest : List Char)
    (hs : scheme ≠ "") (hq : query ≠ "") :
    URL.String ⟨scheme, host, ⟨'/' :: rest⟩, query⟩ =
      scheme ++ "://" ++ host ++ ⟨'/' :: rest⟩ ++ "?" ++ query := by
  have hp : (⟨'/' :: rest⟩ : String) ≠ "" := by
    intro h
    have := congrArg String.data h
    simp at this
  have hbuf : scheme ++ ":" ++ "//" ++ host ≠ "" :=
    string_ne_empty_of_append_left (string_ne_empty_of_append_left
      (string_ne_empty_of_append_left hs))
  simp only [URL.String, hs, hp, hq, hbuf, ne_eq, not_false_eq_true, true_or, or_true, if_true,
    List.head?_cons, not_true_eq_false, false_and, and_false, if_false]
  apply String.ext
  simp [String.data_append]

/-- C23: when the login cluster is set, is not the router's own cluster and
has an entry `remote` among the proxy remotes, `Login` calls no backend and
succeeds with a redirect location that is the text of the remote's base URL
resolved against `login`, carrying the query `return_to=` and the escaped
`return_to` option, preceded by `remote=`, the escaped `remote` option and `&`
exactly when that option is not empty.  With a scheme in the base URL the
location reads scheme, `://`, host, resolved path, `?`, query; for the base
URL `https://bbbbb.example/` and `return_to` `/x` it is
`https://bbbbb.example/login?return_to=%2Fx`. -/
theorem login_redirect (conn : Conn) (BaseURL : backend → URL)
    (login : backend → Context → LoginOptions → LoginResponse × Option GoError)
    (ctx : Context) (options : LoginOptions) (remote : backend)
    (hid : conn.cluster.LoginCluster ≠ "")
    (hown : conn.cluster.LoginCluster ≠ conn.cluster.ClusterID)
    (hremote : conn.remotes.lookup conn.cluster.LoginCluster = some remote) :
    (conn.Login BaseURL login ctx options).calls = [] ∧
    (conn.Login BaseURL login ctx options).err = none ∧
    (conn.Login BaseURL login ctx options).resp.RedirectLocation =
      URL.String
        { Scheme := (BaseURL remote).Scheme
          Host := (BaseURL remote).Host
          Path := ⟨resolvePath (BaseURL remote).Path.data "login".data⟩
          RawQuery :=
            if options.Remote = "" then "return_to=" ++ QueryEscape options.ReturnTo
            else "remote=" ++ QueryEscape options.Remote ++ "&return_to=" ++
              QueryEscape options.ReturnTo } ∧
    ((BaseURL remote).Scheme ≠ "" →
      (conn.Login BaseURL login ctx options).resp.RedirectLocation =
        (BaseURL remote).Scheme ++ "://" ++ (BaseURL remote).Host ++
          ⟨resolvePath (BaseURL remote).Path.data "login".data⟩ ++ "?" ++
          (if options.Remote = "" then "return_to=" ++ QueryEscape options.ReturnTo
            else "remote=" ++ QueryEscape options.Remote ++ "&return_to=" ++
              QueryEscape options.ReturnTo)) ∧
    (BaseURL remote = ⟨"https", "bbbbb.example", "/", ""⟩ → options.ReturnTo = "/x" →
      options.Remote = "" →
      (conn.Login BaseURL login ctx options).resp.RedirectLocation =
        "https://bbbbb.example/login?return_to=%2Fx") := by
  have hloc : (conn.Login BaseURL login ctx options).resp.RedirectLocation =
      URL.String
        { Scheme := (BaseURL remote).Scheme
          Host := (BaseURL remote).Host
          Path := ⟨resolvePath (BaseURL remote).Path.data "login".data⟩
          RawQuery :=
            if options.Remote = "" then "return_to=" ++ QueryEscape options.ReturnTo
            else "remote=" ++ QueryEscape options.Remote ++ "&return_to=" ++
              QueryEscape options.ReturnTo } := by
    unfold Conn.Login
    simp only [hid, hown, hremote, ne_eq, not_false_eq_true, and_self, if_true, URL.Parse]
    by_cases hr : options.Remote = ""
    · simp only [hr, not_true_eq_false, if_false, if_true, valuesEncode_return_to]
      rfl
    · simp only [hr, not_false_eq_true, if_true, if_false, valuesEncode_remote]
      rfl
  refine ⟨?_, ?_, hloc, ?_, ?_⟩
  · unfold Conn.Login
    simp only [hid, hown, hremote, ne_eq, not_false_eq_true, and_self, if_true, URL.Parse]
  · unfold Conn.Login
    simp only [hid, hown, hremote, ne_eq, not_false_eq_true, and_self, if_true, URL.Parse]
  · intro hs
    rw [hloc]
    obtain ⟨rest, hrest⟩ := resolvePath_login (BaseURL remote).Path.data
    have hrest' : resolvePath (BaseURL remote).Path.data "login".data = '/' :: rest := hrest
    rw [hrest']
    apply URL_String_full _ _ _ _ hs
    split
    · exact string_ne_empty_of_append_left (by decide)
    · exact string_ne_empty_of_append_left (string_ne_empty_of_append_left
        (string_ne_empty_of_append_left (by decide)))
  · intro hB hrt hrm
    rw [hloc, hB, hrt, hrm]
    decide

set_option maxRecDepth 8000 in
/-- Witness for C23: cluster `aaaaa` with login cluster `bbbbb` at
`https://bbbbb.example`.  A login with `return_to` `/x` is answered by the
redirect of the scenario without a backend call, and a `remote` option comes
first in the query. -/
theorem login_redirect_witness :
    ((redirectConn.Login peerBaseURL localLogin ⟨none⟩ ⟨"/x", "", "", ""⟩).calls = [] ∧
      (redirectConn.Login peerBaseURL localLogin ⟨none⟩ ⟨"/x", "", "", ""⟩).err = none) ∧
    (redirectConn.Login peerBaseURL localLogin ⟨none⟩ ⟨"/x", "", "", ""⟩).resp =
      ⟨"https://bbbbb.example/login?return_to=%2Fx"⟩ ∧
    (redirectConn.Login peerBaseURL localLogin ⟨none⟩ ⟨"/x y", "ccccc", "", ""⟩).resp =
      ⟨"https://bbbbb.example/login?remote=ccccc&return_to=%2Fx+y"⟩ :=
  have h := login_redirect redirectConn peerBaseURL localLogin ⟨none⟩ ⟨"/x", "", "", ""⟩
    (backend.rpc "bbbbb" "https" "bbbbb.example" false) (by decide) (by decide) (by decide)
  ⟨⟨h.1, h.2.1⟩, by decide, by decide⟩

/-- C24: `Login` fails without a call to any backend exactly when the login
cluster is set, is not the router's own cluster and has no entry among the
proxy remotes; the error is then the configuration error that names the login
cluster.  When the login cluster is empty or is the router's own cluster,
`Login` calls the local backend's `Login` once, with the context and the
options it was given, and returns its response and its error as they are. -/
theorem login_config_error_iff (conn : Conn) (BaseURL : backend → URL)
    (login : backend → Context → LoginOptions → LoginResponse × Option GoError)
    (ctx : Context) (options : LoginOptions) :
    (((conn.Login BaseURL login ctx options).err ≠ none ∧
        (conn.Login BaseURL login ctx options).calls = []) ↔
      (conn.cluster.LoginCluster ≠ "" ∧ conn.cluster.LoginCluster ≠ conn.cluster.ClusterID ∧
        conn.remotes.lookup conn.cluster.LoginCluster = none)) ∧
    ((conn.cluster.LoginCluster ≠ "" ∧ conn.cluster.LoginCluster ≠ conn.cluster.ClusterID ∧
        conn.remotes.lookup conn.cluster.LoginCluster = none) →
      (conn.Login BaseURL login ctx options).err =
        some (GoError.plain ("configuration problem: designated login cluster " ++
          conn.cluster.LoginCluster.quote ++ " is not defined")) ∧
      (conn.Login BaseURL login ctx options).resp = ⟨""⟩) ∧
    ((conn.cluster.LoginCluster = "" ∨ conn.cluster.LoginCluster = conn.cluster.ClusterID) →
      (conn.Login BaseURL login ctx options).calls = [(conn.localBackend, ctx, options)] ∧
      (conn.Login BaseURL login ctx options).resp = (login conn.localBackend ctx options).1 ∧
      (conn.Login BaseURL login ctx options).err = (login conn.localBackend ctx options).2) := by
  refine ⟨?_, ?_, ?_⟩
  · by_cases hcond : conn.cluster.LoginCluster ≠ "" ∧
        conn.cluster.LoginCluster ≠ conn.cluster.ClusterID
    · cases hlook : conn.remotes.lookup conn.cluster.LoginCluster with
      | none =>
        unfold Conn.Login
        simp only [hcond, hlook, ne_eq, not_false_eq_true, and_self, if_true]
        simp
      | some remote =>
        unfold Conn.Login
        simp only [hcond, hlook, ne_eq, not_false_eq_true, and_self, if_true, URL.Parse]
        simp
    · unfold Conn.Login
      rw [if_neg hcond]
      rcases login conn.localBackend ctx options with ⟨resp, err⟩
      simp only []
      constructor
      · intro h
        simp at h
      · intro h
        exact absurd ⟨h.1, h.2.1⟩ hcond
  · rintro ⟨hid, hown, hlook⟩
    unfold Conn.Login
    simp only [hid, hown, hlook, ne_eq, not_false_eq_true, and_self, if_true]
  · intro h
    have hcond : ¬ (conn.cluster.LoginCluster ≠ "" ∧
        conn.cluster.LoginCluster ≠ conn.cluster.ClusterID) := by
      rintro ⟨h1, h2⟩
      rcases h with h | h
      · exact h1 h
      · exact h2 h
    unfold Conn.Login
    rw [if_neg hcond]
    rcases login conn.localBackend ctx options with ⟨resp, err⟩
    exact ⟨rfl, rfl, rfl⟩

/-- Witness for C24: a router whose login cluster `bbbbb` is not among its
remotes answers a login with the configuration error and calls no backend; a
router without a login cluster hands the login to its local backend. -/
theorem login_config_error_iff_witness :
    (((strayLoginConn.Login peerBaseURL localLogin ⟨none⟩ ⟨"/x", "", "", ""⟩).err ≠ none ∧
        (strayLoginConn.Login peerBaseURL localLogin ⟨none⟩ ⟨"/x", "", "", ""⟩).calls = []) ∧
      (strayLoginConn.Login peerBaseURL localLogin ⟨none⟩ ⟨"/x", "", "", ""⟩).err =
        some (GoError.plain ("configuration problem: designated login cluster " ++
          "bbbbb".quote ++ " is not defined"))) ∧
    (twoRemotes.Login peerBaseURL localLogin ⟨some ["t"]⟩ ⟨"/x", "", "", ""⟩).calls =
        [(backend.localdb, ⟨some ["t"]⟩, ⟨"/x", "", "", ""⟩)] ∧
    (twoRemotes.Login peerBaseURL localLogin ⟨some ["t"]⟩ ⟨"/x", "", "", ""⟩).resp =
        ⟨"https://aaaaa.example/sso?return_to=/x"⟩ :=
  ⟨⟨(login_config_error_iff strayLoginConn peerBaseURL localLogin ⟨none⟩
        ⟨"/x", "", "", ""⟩).1.mpr ⟨by decide, by decide, by decide⟩,
      ((login_config_error_iff strayLoginConn peerBaseURL localLogin ⟨none⟩
        ⟨"/x", "", "", ""⟩).2.1 ⟨by decide, by decide, by decide⟩).1⟩,
    ((login_config_error_iff twoRemotes peerBaseURL localLogin ⟨some ["t"]⟩
      ⟨"/x", "", "", ""⟩).2.2 (Or.inl rfl)).1,
    by decide⟩

end Federation
